import Mathlib

/-!
# ctrans: resumable chunked file transfer

A shallow embedding of the transfer core of `connermo/ctrans`
(`server/main.go`, `server/disk_unix.go`, `client/main.go`) and theorems about it.

Conventions of the embedding.

* Go `int64` / `int` values are `Int`; every arithmetic operation of the source is followed
  by `wrap64`, the two's-complement wrap-around of a 64-bit platform.
* Go strings are `String`; scanning and splitting work on `List Char`.
* The file system is a map from cleaned paths to nodes (regular file or directory).  The
  operations `osCreate`, `osMkdirAll`, `osRemoveAll` follow the POSIX behaviour of the calls
  of package `os` that the handlers make; device errors (disk full, permissions) are not
  modelled: an operation fails exactly when the shape of the tree forbids it.
* Library functions that the repository only calls (`crypto/sha256`, `encoding/json`,
  `time.Now`, `syscall.Statfs`) are fields of `Env`.
* A handler is a function from the server state and a request to the new state and the
  response.
-/

namespace CTrans

/-! ## Bytes and machine integers -/

abbrev Byte := UInt8
abbrev Bytes := List Byte

/-- Two's-complement wrap-around of a mathematical integer into the `int64` range. -/
def wrap64 (x : Int) : Int := (x + 2 ^ 63) % 2 ^ 64 - 2 ^ 63

/-- Conversion `uint64(x)` of an `int64`, and wrap-around of `uint64` arithmetic. -/
def wrapU64 (x : Int) : Int := x % 2 ^ 64

def maxInt64 : Int := 2 ^ 63 - 1

def minInt64 : Int := -(2 : Int) ^ 63

/-- Source constant `chunkSize = 10 * 1024 * 1024` (server and client). -/
def chunkSize : Int := 10 * 1024 * 1024

/-- Source constant `minDiskSpace = 1024 * 1024 * 1024`. -/
def minDiskSpace : Int := 1024 * 1024 * 1024

/-- Source constant `maxRetries = 3` (client). -/
def maxRetries : Nat := 3

/-- The chunk count of `handleUploadInit` (server/main.go:154) and of `upload`
(client/main.go:547): `int((size + chunkSize - 1) / chunkSize)` in `int64` arithmetic.
Go's `/` truncates toward zero. -/
def totalChunksOf (totalSize : Int) : Int :=
  (wrap64 (wrap64 (totalSize + chunkSize) - 1)).tdiv chunkSize

/-- Lower offset of chunk `chunkNum` in the pump worker of `uploadChunks`
(client/main.go:732): `start := int64(chunkNum) * chunkSize`. -/
def pumpStart (chunkNum : Int) : Int := wrap64 (chunkNum * chunkSize)

/-- Upper offset of chunk `chunkNum` in the pump worker (client/main.go:733-736):
`end := start + chunkSize; if end > fileSize { end = fileSize }`. -/
def pumpEnd (fileSize chunkNum : Int) : Int :=
  let e := wrap64 (pumpStart chunkNum + chunkSize)
  if e > fileSize then fileSize else e

/-- Length of the buffer the pump worker allocates for chunk `chunkNum`
(client/main.go:737): `chunkSize := end - start`. -/
def pumpChunkLen (fileSize chunkNum : Int) : Int :=
  wrap64 (pumpEnd fileSize chunkNum - pumpStart chunkNum)

/-! ## Strings: the pieces of `strings`, `strconv` and `fmt` that the handlers call -/

/-- Model of `strings.Split(s, "/")` on character lists: the pieces between slashes. -/
def splitSlash : List Char → List (List Char)
  | [] => [[]]
  | c :: cs =>
    if c = '/' then [] :: splitSlash cs
    else
      match splitSlash cs with
      | [] => [[c]]
      | p :: ps => (c :: p) :: ps

/-- Model of `strings.Split(s, "/")`. -/
def stringsSplit (s : String) : List String := (splitSlash s.data).map String.mk

/-- Removes the list `p` from the front of `s` when `s` starts with it. -/
def dropLeading : List Char → List Char → Option (List Char)
  | [], s => some s
  | _ :: _, [] => none
  | a :: p, b :: s => if a = b then dropLeading p s else none

/-- Model of `strings.TrimPrefix(s, pre)`. -/
def trimLeading (s pre : String) : String :=
  match dropLeading pre.data s.data with
  | some rest => String.mk rest
  | none => s

/-- Model of `strings.HasPrefix(s, pre)`. -/
def startsWith (s pre : String) : Bool := (dropLeading pre.data s.data).isSome

def isDigit (c : Char) : Bool := decide ('0'.toNat ≤ c.toNat) && decide (c.toNat ≤ '9'.toNat)

def digitVal (c : Char) : Nat := c.toNat - '0'.toNat

/-- Value of a run of decimal digits, most significant first, continuing from `acc`. -/
def digitsValue (acc : Nat) : List Char → Nat
  | [] => acc
  | c :: cs => digitsValue (acc * 10 + digitVal c) cs

/-- Model of `strconv.ParseInt(s, 10, 64)`: an optional sign, then one or more decimal digits
and nothing else; out-of-range values are an error. -/
def parseInt64 (s : List Char) : Option Int :=
  let body (neg : Bool) (ds : List Char) : Option Int :=
    if ds.isEmpty || !(ds.all isDigit) then none
    else
      let v : Int := if neg then -(digitsValue 0 ds : Int) else (digitsValue 0 ds : Int)
      if minInt64 ≤ v ∧ v ≤ maxInt64 then some v else none
  match s with
  | '-' :: ds => body true ds
  | '+' :: ds => body false ds
  | ds => body false ds

/-- Model of `strconv.Atoi` on a 64-bit platform. -/
def Atoi (s : String) : Option Int := parseInt64 s.data

/-- Decimal rendering of an integer as `fmt.Sprintf("%d", i)` produces it. -/
def fmtInt (i : Int) : List Char :=
  if i < 0 then '-' :: Nat.toDigits 10 (-i).toNat else Nat.toDigits 10 i.toNat

/-- Model of `fmt.Sprintf("%d", i)`. -/
def sprintInt (i : Int) : String := String.mk (fmtInt i)

/-- The character class `isSpace` of package `fmt` (scan.go). -/
def isSpaceRune (c : Char) : Bool :=
  let n := c.toNat
  (0x0009 ≤ n && n ≤ 0x000d) || n = 0x0020 || n = 0x0085 || n = 0x00a0 || n = 0x1680 ||
  (0x2000 ≤ n && n ≤ 0x200a) || n = 0x2028 || n = 0x2029 || n = 0x202f || n = 0x205f ||
  n = 0x3000

/-- Model of `(*ss).SkipSpace` for `Sscanf` (newlines are not space there): the input after
the leading blanks, or `none` when a newline is met. -/
def skipSpace : List Char → Option (List Char)
  | [] => some []
  | c :: cs =>
    if c = '\r' ∧ cs.head? = some '\n' then skipSpace cs
    else if c = '\n' then none
    else if isSpaceRune c then skipSpace cs
    else some (c :: cs)

/-- The characters `scanNumber` accepts for the verb `%d`: `decimalDigits`, the digits `0`
to `9` (the underscore is accepted for the verb `%v` only). -/
def isScanDigit (c : Char) : Bool := isDigit c

/-- Model of `(*ss).scanInt('d', 64)`: skip blanks, accept one sign, accept a non-empty run
of `decimalDigits`, convert the token with `strconv.ParseInt(tok, 10, 64)`.  Returns the value
and the unread input, or `none` where the scanner raises an error. -/
def scanInt (inp : List Char) : Option (Int × List Char) :=
  match skipSpace inp with
  | none => none
  | some [] => none
  | some (c :: cs) =>
    let sign : List Char := if c = '+' ∨ c = '-' then [c] else []
    let rest : List Char := if c = '+' ∨ c = '-' then cs else c :: cs
    let tok := rest.takeWhile isScanDigit
    if tok.isEmpty then none
    else
      match parseInt64 (sign ++ tok) with
      | none => none
      | some v => some (v, rest.dropWhile isScanDigit)

/-- Model of `fmt.Sscanf(rangeHeader, "bytes=%d-%d", &start, &end)` with `start` and `end`
initially zero (server/main.go:465-466).  The call's error result is discarded by the source,
so the model returns only the two variables: an operand is assigned when its verb scans, and
scanning stops at the first mismatch. -/
def sscanfRange (rangeHeader : List Char) : Int × Int :=
  match dropLeading "bytes=".data rangeHeader with
  | none => (0, 0)
  | some r1 =>
    match scanInt r1 with
    | none => (0, 0)
    | some (start, r2) =>
      match r2 with
      | '-' :: r3 =>
        match scanInt r3 with
        | none => (start, 0)
        | some (e, _) => (start, e)
      | _ => (start, 0)

def hexDigit (n : Nat) : Char := "0123456789abcdef".data.getD n '0'

/-- Model of `hex.EncodeToString`. -/
def hexEncode (b : Bytes) : String :=
  String.mk (b.flatMap fun x => [hexDigit (x.toNat / 16), hexDigit (x.toNat % 16)])

/-- The bytes of a Go string (`[]byte(s)`). -/
def stringBytes (s : String) : Bytes := s.data.flatMap String.utf8EncodeChar

/-! ## Paths: `path/filepath` on a Unix system -/

/-- A lexically cleaned path, kept as its list of components.  `rooted` tells whether the
path starts at `/`; a relative path may start with `..` components. -/
structure Path where
  rooted : Bool
  comps : List String
deriving DecidableEq

/-- One step of `filepath.Clean`: `stack` holds the components kept so far, innermost first. -/
def cleanStep (rooted : Bool) (stack : List String) (c : String) : List String :=
  if c = "" ∨ c = "." then stack
  else if c = ".." then
    match stack with
    | [] => if rooted then [] else [".."]
    | t :: rest => if t = ".." then ".." :: t :: rest else rest
  else c :: stack

/-- Model of `filepath.Clean`. -/
def cleanPath (s : String) : Path :=
  { rooted := s.data.head? = some '/'
    comps := ((stringsSplit s).foldl (cleanStep (s.data.head? = some '/')) []).reverse }

/-- The Go string of a cleaned path (`.` for the empty relative path). -/
def Path.render (p : Path) : String :=
  if p.rooted then "/" ++ String.intercalate "/" p.comps
  else if p.comps.isEmpty then "." else String.intercalate "/" p.comps

/-- Model of `filepath.Join`: leading empty elements are skipped, the others are joined with
the separator and the result is cleaned.  (When every element is empty Go returns the empty
string; the model then returns the path `.`.  The handlers always pass a non-empty first
element.) -/
def Join (elem : List String) : Path :=
  cleanPath (String.intercalate "/" (elem.dropWhile fun e => e = ""))

def Path.parent (p : Path) : Path := { p with comps := p.comps.dropLast }

/-- Says that `p` is `d` or lies below `d`. -/
def Path.within (d p : Path) : Bool := d.rooted = p.rooted && d.comps.isPrefixOf p.comps

/-- Source constant `uploadDir`. -/
def uploadDir : String := "./uploads"

/-- Source constant `tempDir`. -/
def tempDir : String := "./temp"

/-! ## File system -/

inductive Node where
  | file (data : Bytes)
  | dir
deriving DecidableEq

/-- The file tree, keyed by cleaned path (relative paths are relative to the working
directory of the server process). -/
abbrev FS := Path → Option Node

def FS.set (fs : FS) (p : Path) (n : Node) : FS := fun q => if q = p then some n else fs q

/-- Model of `os.Create`: fails when the path is a directory or its parent is not one;
otherwise the path becomes an empty regular file. -/
def osCreate (fs : FS) (p : Path) : Option FS :=
  match fs p with
  | some Node.dir => none
  | _ =>
    match fs p.parent with
    | some Node.dir => some (fs.set p (Node.file []))
    | _ => none

/-- Writing `data` through a handle opened on `p`: the bytes go to the end of the file. -/
def appendFile (fs : FS) (p : Path) (data : Bytes) : FS :=
  match fs p with
  | some (Node.file old) => fs.set p (Node.file (old ++ data))
  | _ => fs

/-- Model of `os.MkdirAll`: fails when the path or one of its ancestors is a regular file;
otherwise the path and its missing ancestors become directories. -/
def osMkdirAll (fs : FS) (p : Path) : Option FS :=
  if (p.comps.inits.any fun cs =>
      match fs { p with comps := cs } with
      | some (Node.file _) => true
      | _ => false) then none
  else some fun q => if q.within p then some Node.dir else fs q

/-- Model of `os.RemoveAll`: removes the path and everything below it.  A path that ends in
`.` is refused by `RemoveAll` and nothing is removed. -/
def osRemoveAll (fs : FS) (p : Path) : FS :=
  if p.comps.isEmpty then fs else fun q => if p.within q then none else fs q

/-- Model of a successful `os.Open` followed by reading the file to its end. -/
inductive ReadResult where
  | openFailed
  | readFailed
  | ok (data : Bytes)
deriving DecidableEq

/-- Opening `p` for reading and copying its content: a missing path cannot be opened, a
directory can be opened but not read. -/
def osReadAll (fs : FS) (p : Path) : ReadResult :=
  match fs p with
  | none => ReadResult.openFailed
  | some Node.dir => ReadResult.readFailed
  | some (Node.file data) => ReadResult.ok data

/-! ## HTTP -/

abbrev Header := List (String × String)

/-- Model of `Header.Get`. -/
def Header.get (h : Header) (k : String) : String :=
  match h.find? fun kv => kv.1 = k with
  | some kv => kv.2
  | none => ""

/-- Model of `Header.Set`. -/
def Header.set (h : Header) (k v : String) : Header :=
  (h.filter fun kv => kv.1 ≠ k) ++ [(k, v)]

/-- Model of `Header.Del`. -/
def Header.del (h : Header) (k : String) : Header := h.filter fun kv => kv.1 ≠ k

structure Request where
  Method : String
  /-- The field `r.URL.Path`. -/
  Path : String
  Header : Header
  /-- The bytes that reading `r.Body` delivers. -/
  Body : Bytes
  /-- Says that reading `r.Body` ends with an error (after `Body`) instead of end of file. -/
  BodyErr : Bool
deriving DecidableEq

/-- Source type `UploadStatus` (server/main.go:29-40).  Times are abstract clock readings. -/
structure UploadStatus where
  FileID : String
  FileName : String
  TotalSize : Int
  TotalChunks : Int
  ChunkSize : Int
  Uploaded : List Int
  StartTime : Nat
  LastUpdate : Nat
  Completed : Bool
  Checksum : String
deriving DecidableEq, Repr

/-- Source type `ChunkStatus` (client/main.go:66-70), the entry the server writes per chunk
(server/main.go:287-291). -/
structure ChunkStatus where
  Exists : Bool
  Size : Int
  Hash : String
deriving DecidableEq, Repr

/-- Source type `ServerChunkStatus` (client/main.go:72-79), the JSON object that
`handleChunkStatus` writes.  The map `chunks` is kept as the list of its entries. -/
structure ServerChunkStatus where
  FileID : String
  FileName : String
  TotalSize : Int
  TotalChunks : Int
  ChunkSize : Int
  Chunks : List (Int × ChunkStatus)
deriving DecidableEq, Repr

inductive RespBody where
  | empty
  /-- A text line written by `http.Error`. -/
  | text (msg : String)
  /-- A `map[string]string` written by `json.NewEncoder(w).Encode`, keys in sorted order. -/
  | json (fields : List (String × String))
  | raw (data : Bytes)
  /-- A session record written by `json.NewEncoder(w).Encode(status)`. -/
  | status (st : UploadStatus)
  /-- The per-chunk status object written by `handleChunkStatus`. -/
  | chunks (cs : ServerChunkStatus)
deriving DecidableEq, Repr

structure Response where
  Status : Nat
  Header : Header
  Body : RespBody
deriving DecidableEq, Repr

/-- Model of `http.Error(w, msg, code)` on a writer whose header map is `h`: a
`Content-Length` set before, which belongs to other content, is deleted (net/http since
go1.23), then the content type of the error text is set. -/
def httpError (h : Header) (msg : String) (code : Nat) : Response :=
  { Status := code
    Header := ((h.del "Content-Length").set "Content-Type" "text/plain; charset=utf-8").set
      "X-Content-Type-Options" "nosniff"
    Body := RespBody.text msg }

/-- Model of `w.WriteHeader(http.StatusOK)` with no body. -/
def replyOK : Response := { Status := 200, Header := [], Body := RespBody.empty }

/-! ## Server state -/

/-- The server process: the globals `serviceKey` and `uploadStatuses` and the file tree. -/
structure Server where
  serviceKey : String
  uploadStatuses : String → Option UploadStatus
  fs : FS

/-- What a handler observes of the world outside the process, and the library functions it
calls. -/
structure Env where
  /-- The digest of `crypto/sha256` over everything written to a hasher. -/
  sha256 : Bytes → Bytes
  /-- The result of `json.NewDecoder(r.Body).Decode(&req)` in `handleUploadInit`:
  `file_name` and `total_size`, or `none` when decoding fails. -/
  decodeInit : Bytes → Option (String × Int)
  /-- The reading of `time.Now()`. -/
  now : Nat
  /-- The text of `time.Now().String()`. -/
  nowString : String
  /-- The fields `Bavail` and `Bsize` of `syscall.Statfs(uploadDir)`, or `none` when the call
  fails. -/
  statfs : Option (Int × Int)
  /-- The text of the error of `syscall.Statfs(uploadDir)` when the call fails. -/
  statfsError : String
  /-- The reply of `http.ServeFile(w, r, name)`: given the request, the header map of the
  writer and the node found at `name`. -/
  serveFile : Request → Header → Node → Response
  /-- The bytes of `json.Marshal` of the init request `{file_name, total_size}` (client). -/
  encodeInit : String → Int → Bytes
  /-- The handlers registered for the patterns `/`, `/web-upload` and `/files`, by pattern. -/
  others : String → Server → Request → Server × Response
  /-- The largest offset that `file.Seek` accepts on the file system of the client's local
  file; a seek beyond it fails with `EINVAL` (17592186040320 on ext4 with blocks of 4 KiB,
  `2^63 - 1` on XFS). -/
  maxOffset : Int

def setStatus (m : String → Option UploadStatus) (k : String) (v : UploadStatus) :
    String → Option UploadStatus :=
  fun k' => if k' = k then some v else m k'

/-- The text of the error that `checkDiskSpace` returns when space is short
(server/disk_unix.go:22-23): the first number is `requiredSize+minDiskSpace` in `int64`
arithmetic, the second the `uint64` value `availableSpace`. -/
def spaceError (requiredSize availableSpace : Int) : String :=
  "not enough disk space. Required: " ++ sprintInt (wrap64 (requiredSize + minDiskSpace)) ++
    " bytes, Available: " ++ sprintInt availableSpace ++ " bytes"

/-- Source function `checkDiskSpace` (server/disk_unix.go:11-27): `some msg` stands for the
error it returns, `none` for `nil`.  All arithmetic is `uint64`. -/
def checkDiskSpace (env : Env) (requiredSize : Int) : Option String :=
  match env.statfs with
  | none => some ("failed to get disk space info: " ++ env.statfsError)
  | some (bavail, bsize) =>
    let availableSpace := wrapU64 (wrapU64 bavail * wrapU64 bsize)
    if wrapU64 (wrapU64 requiredSize + minDiskSpace) > availableSpace then
      some (spaceError requiredSize availableSpace)
    else none

/-- Source function `generateFileID` (server/main.go:558-564). -/
def generateFileID (env : Env) (filename : String) (size : Int) : String :=
  String.mk (((hexEncode (env.sha256
    (stringBytes filename ++ stringBytes (sprintInt size) ++ stringBytes env.nowString))).data).take 16)

/-- Path of the staged file of chunk `i` of session `fileID`:
`filepath.Join(tempDir, fileID, fmt.Sprintf("chunk_%d", i))`. -/
def chunkPath (fileID : String) (i : Int) : Path :=
  Join [tempDir, fileID, "chunk_" ++ sprintInt i]

/-- Source function `handleUploadInit` (server/main.go:130-182). -/
def handleUploadInit (env : Env) (s : Server) (r : Request) : Server × Response :=
  if r.Method ≠ "POST" then (s, httpError [] "Method not allowed" 405)
  else
    match (if r.BodyErr then none else env.decodeInit r.Body) with
    | none => (s, httpError [] "Invalid request body" 400)
    | some (fileName, totalSize) =>
      match checkDiskSpace env totalSize with
      | some err => (s, httpError [] ("Insufficient disk space: " ++ err) 507)
      | none =>
        let fileID := generateFileID env fileName totalSize
        let totalChunks := totalChunksOf totalSize
        let status : UploadStatus :=
          { FileID := fileID, FileName := fileName, TotalSize := totalSize,
            TotalChunks := totalChunks, ChunkSize := chunkSize, Uploaded := [],
            StartTime := env.now, LastUpdate := env.now, Completed := false, Checksum := "" }
        let s1 := { s with uploadStatuses := setStatus s.uploadStatuses fileID status }
        match osMkdirAll s1.fs (Join [tempDir, fileID]) with
        | none => (s1, httpError [] "Failed to create chunk directory" 500)
        | some fs1 =>
          ({ s1 with fs := fs1 },
            { Status := 200, Header := [],
              Body := RespBody.json [("file_id", fileID), ("status", "initialized")] })

/-- The part of `handleChunkUpload` after the URL is parsed (server/main.go:204-245): look
the session up, skip a chunk already recorded, otherwise stage the body and record the
index. -/
def storeChunk (env : Env) (s : Server) (fileID : String) (chunkNum : Int) (r : Request) :
    Server × Response :=
  match s.uploadStatuses fileID with
  | none => (s, httpError [] "Upload not initialized" 404)
  | some status =>
    if chunkNum ∈ status.Uploaded then (s, replyOK)
    else
      match osCreate s.fs (chunkPath fileID chunkNum) with
      | none => (s, httpError [] "Failed to create chunk file" 500)
      | some fs1 =>
        let fs2 := appendFile fs1 (chunkPath fileID chunkNum) r.Body
        if r.BodyErr then
          ({ s with fs := fs2 }, httpError [] "Failed to save chunk" 500)
        else
          ({ s with
              fs := fs2
              uploadStatuses := setStatus s.uploadStatuses fileID
                { status with
                  Uploaded := status.Uploaded ++ [chunkNum]
                  LastUpdate := env.now } },
            replyOK)

/-- Source function `handleChunkUpload` (server/main.go:184-245). -/
def handleChunkUpload (env : Env) (s : Server) (r : Request) : Server × Response :=
  if r.Method ≠ "POST" then (s, httpError [] "Method not allowed" 405)
  else
    let parts := stringsSplit r.Path
    if parts.length ≠ 5 then (s, httpError [] "Invalid URL" 400)
    else
      match Atoi (parts.getD 4 "") with
      | none => (s, httpError [] "Invalid chunk number" 400)
      | some chunkNum => storeChunk env s (parts.getD 3 "") chunkNum r

/-- How the assembly loop of `handleUploadComplete` ended. -/
inductive AssembleEnd where
  | openFailed
  | copyFailed
  | done
deriving DecidableEq

/-- The loop `for i := 0; i < status.TotalChunks; i++` of `handleUploadComplete`
(server/main.go:366-380) over the indices still to visit: each staged chunk is opened and
copied to the destination file and to the hasher (`io.MultiWriter`).  The result is the file
tree, the bytes fed to the hasher and the way the loop ended.  A copy reads the content the
chunk file has when it is opened; the theorems below keep the destination apart from the
staged chunks. -/
def assembleChunks (fileID : String) (finalPath : Path) :
    List Nat → FS → Bytes → FS × Bytes × AssembleEnd
  | [], fs, hashed => (fs, hashed, AssembleEnd.done)
  | i :: rest, fs, hashed =>
    match osReadAll fs (chunkPath fileID (i : Int)) with
    | ReadResult.openFailed => (fs, hashed, AssembleEnd.openFailed)
    | ReadResult.readFailed => (fs, hashed, AssembleEnd.copyFailed)
    | ReadResult.ok data =>
      assembleChunks fileID finalPath rest (appendFile fs finalPath data) (hashed ++ data)

/-- Source function `handleUploadComplete` (server/main.go:332-396). -/
def handleUploadComplete (env : Env) (s : Server) (r : Request) : Server × Response :=
  if r.Method ≠ "POST" then (s, httpError [] "Method not allowed" 405)
  else
    let fileID := trimLeading r.Path "/upload/complete/"
    match s.uploadStatuses fileID with
    | none => (s, httpError [] "Upload not found" 404)
    | some status =>
      if (status.Uploaded.length : Int) ≠ status.TotalChunks then
        (s, httpError [] "Not all chunks uploaded" 400)
      else
        let finalPath := Join [uploadDir, status.FileName]
        match osCreate s.fs finalPath with
        | none => (s, httpError [] "Failed to create final file" 500)
        | some fs1 =>
          match assembleChunks fileID finalPath (List.range status.TotalChunks.toNat) fs1 [] with
          | (fs2, _, AssembleEnd.openFailed) =>
            ({ s with fs := fs2 }, httpError [] "Failed to read chunk" 500)
          | (fs2, _, AssembleEnd.copyFailed) =>
            ({ s with fs := fs2 }, httpError [] "Failed to write chunk" 500)
          | (fs2, hashed, AssembleEnd.done) =>
            let checksum := hexEncode (env.sha256 hashed)
            ({ s with
                uploadStatuses := setStatus s.uploadStatuses fileID
                  { status with Completed := true, Checksum := checksum }
                fs := osRemoveAll fs2 (Join [tempDir, fileID]) },
              { Status := 200, Header := [],
                Body := RespBody.json [("checksum", checksum), ("status", "completed")] })

/-- Source function `handleRangeDownload` (server/main.go:463-503).  `hdr` is the header map
of the response writer on entry, `filepath` the path `handleDownload` resolved and `size` the
value of `fileInfo.Size()`.  Once `WriteHeader(206)` has run, a later `http.Error` can only
add its text to the body. -/
def handleRangeDownload (fs : FS) (hdr : Header) (filepath : Path) (size : Int)
    (rangeHeader : String) : Response :=
  let start := (sscanfRange rangeHeader.data).1
  let e0 := (sscanfRange rangeHeader.data).2
  let e := if e0 = 0 then wrap64 (size - 1) else e0
  if start ≥ size ∨ e ≥ size ∨ start > e then httpError hdr "Invalid range" 416
  else
    match fs filepath with
    | none => httpError hdr "Failed to open file" 500
    | some node =>
      let count := wrap64 (wrap64 (e - start) + 1)
      let h := (((hdr.set "Content-Range"
          ("bytes " ++ sprintInt start ++ "-" ++ sprintInt e ++ "/" ++ sprintInt size)).set
          "Content-Length" (sprintInt count)).set
          "Content-Type" "application/octet-stream").set "Accept-Ranges" "bytes"
      if start < 0 then { Status := 206, Header := h, Body := RespBody.text "Failed to seek file" }
      else
        match node with
        | Node.dir => { Status := 206, Header := h, Body := RespBody.raw [] }
        | Node.file data =>
          { Status := 206, Header := h
            Body := RespBody.raw ((data.drop start.toNat).take count.toNat) }

/-- Model of `strings.HasSuffix`. -/
def endsWith (s suf : String) : Bool := (dropLeading suf.data.reverse s.data.reverse).isSome

/-- The value of `fileInfo.Size()` for a node.  For a directory the size is system dependent;
the handlers use it only for regular files and the model reports 0 for a directory. -/
def nodeSize : Node → Int
  | Node.file data => (data.length : Int)
  | Node.dir => 0

/-- A handler as `net/http` sees it: it runs on the server process and writes one reply. -/
abbrev Handler := Server → Request → Server × Response

/-- Source constant `authHeader`. -/
def authHeader : String := "X-Service-Key"

/-- Source function `authMiddleware` (server/main.go:49-72). -/
def authMiddleware (next : Handler) : Handler := fun s r =>
  if s.serviceKey = "" then next s r
  else
    let key := r.Header.get authHeader
    if key = "" then (s, httpError [] "Service key required" 401)
    else if key ≠ s.serviceKey then (s, httpError [] "Invalid service key" 401)
    else next s r

/-- The entry that the loop of `handleChunkStatus` builds for chunk `i`
(server/main.go:295-318): `os.Stat` of the staged file, and its digest when the file can be
opened and read. -/
def chunkStatusOf (env : Env) (fs : FS) (chunkDir : String) (i : Int) : ChunkStatus :=
  let chunkPath := Join [chunkDir, "chunk_" ++ sprintInt i]
  match fs chunkPath with
  | none => { Exists := false, Size := 0, Hash := "" }
  | some node =>
    { Exists := true
      Size := nodeSize node
      Hash :=
        match osReadAll fs chunkPath with
        | ReadResult.ok data => hexEncode (env.sha256 data)
        | _ => "" }

/-- Source function `handleChunkStatus` (server/main.go:275-330). -/
def handleChunkStatus (env : Env) (s : Server) (fileID : String) : Server × Response :=
  match s.uploadStatuses fileID with
  | none => (s, httpError [] "Upload not found" 404)
  | some status =>
    let chunkDir := (Join [tempDir, fileID]).render
    let chunks := (List.range status.TotalChunks.toNat).map fun i =>
      ((i : Int), chunkStatusOf env s.fs chunkDir (i : Int))
    (s, { Status := 200
          Header := Header.set [] "Content-Type" "application/json"
          Body := RespBody.chunks
            { FileID := fileID, FileName := status.FileName, TotalSize := status.TotalSize,
              TotalChunks := status.TotalChunks, ChunkSize := status.ChunkSize,
              Chunks := chunks } })

/-- Source function `handleUploadStatus` (server/main.go:247-272). -/
def handleUploadStatus (env : Env) (s : Server) (r : Request) : Server × Response :=
  if r.Method ≠ "GET" then (s, httpError [] "Method not allowed" 405)
  else
    let fileID := trimLeading r.Path "/upload/status/"
    if endsWith r.Path "/chunks" then handleChunkStatus env s fileID
    else
      match s.uploadStatuses fileID with
      | none => (s, httpError [] "Upload not found" 404)
      | some status =>
        (s, { Status := 200
              Header := Header.set [] "Content-Type" "application/json"
              Body := RespBody.status status })

/-- Value of a hexadecimal digit (`unhex` of `net/url`), `none` when `ishex` is false. -/
def unhex (c : Char) : Option Nat :=
  if '0'.toNat ≤ c.toNat ∧ c.toNat ≤ '9'.toNat then some (c.toNat - '0'.toNat)
  else if 'a'.toNat ≤ c.toNat ∧ c.toNat ≤ 'f'.toNat then some (c.toNat - 'a'.toNat + 10)
  else if 'A'.toNat ≤ c.toNat ∧ c.toNat ≤ 'F'.toNat then some (c.toNat - 'A'.toNat + 10)
  else none

/-- The two passes of `unescape` in `net/url` for a query component: `%XX` becomes the byte
`XX`, `+` becomes a space, and a `%` that is not followed by two hexadecimal digits is an
error.  A decoded byte is kept as the character with that code; bytes from 0x80 on never
take part in a separator or a dot. -/
def unescape : List Char → Option (List Char)
  | [] => some []
  | c :: rest =>
    if c = '%' then
      match rest with
      | a :: b :: rest2 =>
        match unhex a, unhex b with
        | some x, some y => (unescape rest2).map fun t => Char.ofNat (16 * x + y) :: t
        | _, _ => none
      | _ => none
    else if c = '+' then (unescape rest).map fun t => ' ' :: t
    else (unescape rest).map fun t => c :: t

/-- Model of `url.QueryUnescape`. -/
def QueryUnescape (s : String) : Option String := (unescape s.data).map String.mk

/-- Model of `filepath.Base` on a Unix system. -/
def filepathBase (s : String) : String :=
  if s = "" then "."
  else
    let t := (s.data.reverse.dropWhile fun c => c = '/').reverse
    let b := (t.reverse.takeWhile fun c => c ≠ '/').reverse
    if b = [] then "/" else String.mk b

/-- Source function `handleDownload` (server/main.go:398-461).  `os.Stat` reports a missing
path as "not exist"; other ways in which it can fail are not part of the file-tree model. -/
def handleDownload (env : Env) (s : Server) (r : Request) : Server × Response :=
  if r.Method ≠ "GET" ∧ r.Method ≠ "HEAD" then (s, httpError [] "Method not allowed" 405)
  else
    let filePath := trimLeading r.Path "/download/"
    if filePath = "" then (s, httpError [] "File path not provided" 400)
    else
      match QueryUnescape filePath with
      | none => (s, httpError [] "Invalid file path" 400)
      | some filePath =>
        let fullPath := Join [uploadDir, filePath]
        if !startsWith fullPath.render ((cleanPath uploadDir).render ++ "/") then
          (s, httpError [] "Invalid file path" 400)
        else
          match s.fs fullPath with
          | none => (s, httpError [] "File not found" 404)
          | some Node.dir => (s, httpError [] "Cannot download directory" 400)
          | some (Node.file data) =>
            let h := ((((Header.set [] "Content-Disposition"
                ("attachment; filename=" ++ filepathBase filePath)).set
                "Content-Type" "application/octet-stream").set
                "Content-Length" (sprintInt (data.length : Int))).set "Accept-Ranges" "bytes")
            if r.Method = "HEAD" then (s, { Status := 200, Header := h, Body := RespBody.empty })
            else
              let rangeHeader := r.Header.get "Range"
              if rangeHeader ≠ "" then
                (s, handleRangeDownload s.fs h fullPath (data.length : Int) rangeHeader)
              else (s, env.serveFile r h (Node.file data))

/-- The routes that `main` registers (server/main.go:92-99), dispatched as `http.ServeMux`
does for a request path in canonical form: an exact pattern matches that path only, a
pattern ending in `/` matches every path below it, and the longest match wins.  The handlers
of `/`, `/web-upload` and `/files` lie outside this development and are taken from
`env.others`; the first of them is registered without `authMiddleware`. -/
def serveMux (env : Env) : Handler := fun s r =>
  if r.Path = "/upload/init" then authMiddleware (handleUploadInit env) s r
  else if startsWith r.Path "/upload/chunk/" then authMiddleware (handleChunkUpload env) s r
  else if startsWith r.Path "/upload/status/" then authMiddleware (handleUploadStatus env) s r
  else if startsWith r.Path "/upload/complete/" then
    authMiddleware (handleUploadComplete env) s r
  else if startsWith r.Path "/download/" then authMiddleware (handleDownload env) s r
  else if r.Path = "/web-upload" ∨ r.Path = "/files" then authMiddleware (env.others r.Path) s r
  else env.others "/" s r

/-! ## Requests as the client builds them -/

/-- The chunk POST of the pump worker (client/main.go:747-749). -/
def chunkRequest (fileID : String) (chunkNum : Int) (body : Bytes) : Request :=
  { Method := "POST"
    Path := "/upload/chunk/" ++ fileID ++ "/" ++ sprintInt chunkNum
    Header := []
    Body := body
    BodyErr := false }

/-- The finalize POST of `completeUpload` (client/main.go:832). -/
def completeRequest (fileID : String) : Request :=
  { Method := "POST"
    Path := "/upload/complete/" ++ fileID
    Header := []
    Body := []
    BodyErr := false }

/-- The Range header of a resumed download (client/main.go:399). -/
def openRange (downloaded : Int) : String := "bytes=" ++ sprintInt downloaded ++ "-"

/-- A closed range header `bytes=S-E`. -/
def closedRange (S E : Int) : String := "bytes=" ++ sprintInt S ++ "-" ++ sprintInt E

/-- A run of chunk uploads of one session, one request per listed index, each served at its
own clock reading. -/
def uploadAll (env : Env) (clock : Nat → Nat) (fileID : String) (body : Nat → Bytes) :
    List Nat → Server → Server
  | [], s => s
  | i :: rest, s =>
    uploadAll env clock fileID body rest
      (handleChunkUpload { env with now := clock i } s (chunkRequest fileID (i : Int) (body i))).1

/-! ## Concrete data for evaluating the handlers -/

/-- A stand-in digest (32 bytes: the input cut or padded with zeros). -/
def demoDigest (b : Bytes) : Bytes := (b ++ List.replicate 32 0).take 32

/-- An environment whose JSON decoder yields the given init request. -/
def demoEnv (fileName : String) (totalSize : Int) : Env :=
  { sha256 := demoDigest
    decodeInit := fun _ => some (fileName, totalSize)
    now := 1
    nowString := "t"
    statfs := some (2 ^ 40, 4096)
    statfsError := "no such file or directory"
    serveFile := fun _ h n =>
      match n with
      | Node.file data => { Status := 200, Header := h, Body := RespBody.raw data }
      | Node.dir => { Status := 200, Header := h, Body := RespBody.empty }
    encodeInit := fun _ _ => []
    others := fun _ s _ => (s, replyOK)
    maxOffset := 17592186040320 }

/-- The file tree right after `main` has created `uploads` and `temp`. -/
def demoFS : FS := fun p =>
  if p = Join ["."] ∨ p = Join [uploadDir] ∨ p = Join [tempDir] then some Node.dir else none

/-- The server right after start-up, without a service key. -/
def demoServer : Server := { serviceKey := "", uploadStatuses := fun _ => none, fs := demoFS }

def initRequest : Request :=
  { Method := "POST", Path := "/upload/init", Header := [], Body := [], BodyErr := false }

/-- A file tree holding one regular file `uploads/x` with the given content. -/
def oneFileFS (data : Bytes) : FS := demoFS.set (Join [uploadDir, "x"]) (Node.file data)


/-! ## Auxiliary notions used by the theorems -/

/-- The session id that `handleUploadInit` issues under `demoEnv`. -/
def demoID (fileName : String) (totalSize : Int) : String :=
  generateFileID (demoEnv fileName totalSize) fileName totalSize

/-- The server after one init request for `fileName` of `totalSize` bytes. -/
def demoSession (fileName : String) (totalSize : Int) : Server :=
  (handleUploadInit (demoEnv fileName totalSize) demoServer initRequest).1

/-- The record that `handleUploadInit` registers under `demoEnv`, with the given `Uploaded`
list and clock reading. -/
def demoStatus (fileName : String) (totalSize : Int) (uploaded : List Int) (lastUpdate : Nat) :
    UploadStatus :=
  { FileID := demoID fileName totalSize, FileName := fileName, TotalSize := totalSize,
    TotalChunks := totalChunksOf totalSize, ChunkSize := chunkSize, Uploaded := uploaded,
    StartTime := 1, LastUpdate := lastUpdate, Completed := false, Checksum := "" }

/-- A plain file name: not empty, no separator, neither `.` nor `..`. -/
def plainName (c : String) : Prop := '/' ∉ c.data ∧ c ≠ "" ∧ c ≠ "." ∧ c ≠ ".."

/-- Two session records that agree except for the order of `Uploaded` and for `LastUpdate`. -/
def sameUpTo (x y : UploadStatus) : Prop :=
  x.FileID = y.FileID ∧ x.FileName = y.FileName ∧ x.TotalSize = y.TotalSize ∧
  x.TotalChunks = y.TotalChunks ∧ x.ChunkSize = y.ChunkSize ∧ x.StartTime = y.StartTime ∧
  x.Completed = y.Completed ∧ x.Checksum = y.Checksum ∧ x.Uploaded.Perm y.Uploaded

/-- Lifting of `sameUpTo` to registry entries. -/
def entrySim : Option UploadStatus → Option UploadStatus → Prop
  | none, none => True
  | some x, some y => sameUpTo x y
  | _, _ => False

/-- Two server states with the same file tree whose registries agree up to `sameUpTo`. -/
def Sim (s t : Server) : Prop :=
  s.serviceKey = t.serviceKey ∧ s.fs = t.fs ∧
  ∀ k, entrySim (s.uploadStatuses k) (t.uploadStatuses k)

/-- Says whether `storeChunk` writes the staged file of chunk `i`: the session exists, the
index is not recorded yet and the chunk file can be created. -/
def wouldStore (s : Server) (id : String) (i : Int) : Bool :=
  match s.uploadStatuses id with
  | none => false
  | some x =>
    decide (i ∉ x.Uploaded) && decide (s.fs (chunkPath id i) ≠ some Node.dir) &&
      decide (s.fs (Join [tempDir, id]) = some Node.dir)

/-- The registry after index `i` is appended to the `Uploaded` list of session `id`. -/
def markUploaded (m : String → Option UploadStatus) (id : String) (i : Int) (now : Nat) :
    String → Option UploadStatus :=
  match m id with
  | none => m
  | some x => setStatus m id { x with Uploaded := x.Uploaded ++ [i], LastUpdate := now }

/-- Says that `p` lies strictly below the directory `d`. -/
def Path.below (d p : Path) : Bool := d.within p && decide (p ≠ d)

/-- A request with the given method and path, without headers or body. -/
def bareRequest (method path : String) : Request :=
  { Method := method, Path := path, Header := [], Body := [], BodyErr := false }

/-! ## Client: records, replies and the world a run acts on -/

/-- Source type `UploadState` (client/main.go:34-46), the local record of an upload. -/
structure UploadState where
  FileID : String
  FileName : String
  FilePath : String
  ServerAddr : String
  TotalSize : Int
  TotalChunks : Int
  Uploaded : List Int
  StartTime : Nat
  LastUpdate : Nat
  Completed : Bool
  Checksum : String
deriving DecidableEq, Repr

/-- What `os.ReadFile` and `json.Unmarshal` make of one entry of the directory
`.upload_state`. -/
inductive StateFile where
  /-- The entry is a directory. -/
  | subdir
  /-- A regular file that cannot be read. -/
  | unreadable
  /-- A regular file whose content does not unmarshal into `UploadState`. -/
  | invalid
  /-- A regular file holding the JSON text of a record. -/
  | record (st : UploadState)
deriving DecidableEq, Repr

/-- How the next round trip of the HTTP client goes. -/
inductive Delivery where
  /-- The request reaches the server and the reply reaches the client. -/
  | ok
  /-- `client.Do` returns an error and the server never sees the request. -/
  | lost
deriving DecidableEq, Repr

/-- The actions of a client run that the theorems talk about. -/
inductive Event where
  /-- One call of `client.Do`: method, path and the status of the reply (`none` for a
  transport error). -/
  | http (method path : String) (status : Option Nat)
  /-- A call `time.Sleep(time.Second * n)`. -/
  | slept (seconds : Nat)
  /-- A record written to `.upload_state/<name>`. -/
  | saved (name : String)
  /-- A call `os.Remove` on `.upload_state/<name>`. -/
  | removed (name : String)
deriving DecidableEq, Repr

/-- Everything a run of the client acts on: the server it talks to, the fate of the coming
round trips (every round trip after the listed ones is delivered), the entries of
`.upload_state` in directory order, the local files by the path text handed to `os.Open`,
and the log of actions so far. -/
structure World where
  server : Server
  net : List Delivery
  stateDir : List (String × StateFile)
  files : String → Option Node
  trace : List Event

/-- The fixed parts of a client process: the `-key` flag, the program that answers at the
server address and the result of `filepath.Abs` (`none` for an error). -/
structure Client where
  key : String
  peer : Handler
  abs : String → Option String

/-- How a command of the client ends. -/
inductive Exit where
  /-- The function returns. -/
  | done
  /-- The process ends in `log.Fatal` with this message. -/
  | fatal (msg : String)
  /-- The process ends in a run-time panic. -/
  | panicked
deriving DecidableEq, Repr

/-- Model of `client.Do` with the transport of `createClient` (client/main.go:179-204):
the key, when set, is put into the header `X-Service-Key`. -/
def httpDo (c : Client) (w : World) (req : Request) : World × Option Response :=
  let req := if c.key = "" then req else { req with Header := req.Header.set authHeader c.key }
  match w.net with
  | Delivery.lost :: rest =>
    ({ w with net := rest, trace := w.trace ++ [Event.http req.Method req.Path none] }, none)
  | _ =>
    let out := c.peer w.server req
    ({ w with
        server := out.1
        net := w.net.tail
        trace := w.trace ++ [Event.http req.Method req.Path (some out.2.Status)] },
      some out.2)

/-- The text stored under a key of a JSON object of texts, empty when the key is absent. -/
def jsonField (fields : List (String × String)) (k : String) : String :=
  match fields.find? fun kv => kv.1 = k with
  | some kv => kv.2
  | none => ""

/-- Says whether a JSON object of texts has one of the listed keys. -/
def hasKey (fields : List (String × String)) (ks : List String) : Bool :=
  fields.any fun kv => ks.contains kv.1

/-- What `json.NewDecoder(resp.Body).Decode(&status)` yields for a reply body, by the shape
of the JSON object: fields are matched by key, keys without a field are ignored and absent
fields stay zero.  A text under the key of a number, list, time or boolean field is a
decoding error, and so is a body that is not a JSON object. -/
def decodeStatus : RespBody → Option UploadStatus
  | RespBody.status st => some st
  | RespBody.chunks cs =>
    some { FileID := cs.FileID, FileName := cs.FileName, TotalSize := cs.TotalSize,
           TotalChunks := cs.TotalChunks, ChunkSize := cs.ChunkSize, Uploaded := [],
           StartTime := 0, LastUpdate := 0, Completed := false, Checksum := "" }
  | RespBody.json fields =>
    if hasKey fields ["total_size", "total_chunks", "chunk_size", "uploaded_chunks",
        "start_time", "last_update", "completed"] then none
    else
      some { FileID := jsonField fields "file_id", FileName := jsonField fields "file_name",
             TotalSize := 0, TotalChunks := 0, ChunkSize := 0, Uploaded := [], StartTime := 0,
             LastUpdate := 0, Completed := false, Checksum := jsonField fields "checksum" }
  | _ => none

/-- The same for `ServerChunkStatus` (client/main.go:928-931). -/
def decodeChunkStatus : RespBody → Option ServerChunkStatus
  | RespBody.chunks cs => some cs
  | RespBody.status st =>
    some { FileID := st.FileID, FileName := st.FileName, TotalSize := st.TotalSize,
           TotalChunks := st.TotalChunks, ChunkSize := st.ChunkSize, Chunks := [] }
  | RespBody.json fields =>
    if hasKey fields ["total_size", "total_chunks", "chunk_size", "chunks"] then none
    else
      some { FileID := jsonField fields "file_id", FileName := jsonField fields "file_name",
             TotalSize := 0, TotalChunks := 0, ChunkSize := 0, Chunks := [] }
  | _ => none

/-- The same for the reply of init, of which only `file_id` is kept
(client/main.go:601-608). -/
def decodeInitReply : RespBody → Option String
  | RespBody.json fields => some (jsonField fields "file_id")
  | RespBody.status st => some st.FileID
  | RespBody.chunks cs => some cs.FileID
  | _ => none

/-- The same for the reply of finalize, of which `checksum` is printed
(client/main.go:843-849). -/
def decodeComplete : RespBody → Option String
  | RespBody.json fields => some (jsonField fields "checksum")
  | RespBody.status st => some st.Checksum
  | RespBody.chunks _ => some ""
  | _ => none

/-- Source function `getUploadStatus` (client/main.go:811-829); `none` stands for the
error result. -/
def getUploadStatus (c : Client) (w : World) (fileID : String) : World × Option UploadStatus :=
  let out := httpDo c w (bareRequest "GET" ("/upload/status/" ++ fileID))
  match out.2 with
  | none => (out.1, none)
  | some resp => if resp.Status ≠ 200 then (out.1, none) else (out.1, decodeStatus resp.Body)

/-- Source function `getServerChunkStatus` (client/main.go:916-934). -/
def getServerChunkStatus (c : Client) (w : World) (fileID : String) :
    World × Option ServerChunkStatus :=
  let out := httpDo c w (bareRequest "GET" ("/upload/status/" ++ fileID ++ "/chunks"))
  match out.2 with
  | none => (out.1, none)
  | some resp =>
    if resp.Status ≠ 200 then (out.1, none) else (out.1, decodeChunkStatus resp.Body)
/-! ## Client: comparing chunks -/

/-- The entry of the map `serverStatus.Chunks` under index `i`. -/
def chunkEntry (ss : ServerChunkStatus) (i : Int) : Option ChunkStatus :=
  (ss.Chunks.find? fun kv => kv.1 = i).map Prod.snd

/-- The variable `start` of `compareChunks` for index `i` (client/main.go:950). -/
def compareStart (ss : ServerChunkStatus) (i : Int) : Int := wrap64 (i * ss.ChunkSize)

/-- The variable `chunkSize` of `compareChunks` for index `i` (client/main.go:951-955). -/
def compareLen (ss : ServerChunkStatus) (i : Int) : Int :=
  let start := compareStart ss i
  let e := wrap64 (start + ss.ChunkSize)
  wrap64 ((if e > ss.TotalSize then ss.TotalSize else e) - start)

/-- The bytes that `io.ReadFull(file, buffer[:len])` delivers after `file.Seek(start, 0)`:
what the file holds from `start` on, at most `len` bytes. -/
def readFull (data : Bytes) (start len : Int) : Bytes := (data.drop start.toNat).take len.toNat

/-- How one pass of the loop of `compareChunks` ends. -/
inductive Visit where
  /-- The pass ends in `continue`, or the chunk matches: nothing is appended. -/
  | pass
  /-- The index is appended to `neededChunks`. -/
  | need
  /-- The slice expression `buffer[:chunkSize]` is out of range. -/
  | panic
deriving DecidableEq, Repr

/-- What `io.ReadFull(file, buffer[:len])` yields after `file.Seek(start, 0)`: the bytes
read, or `none` for an error other than the end of the file.  Reading a directory fails,
except that a read of no bytes makes no system call and succeeds. -/
def readFullOf (file : Node) (start len : Int) : Option Bytes :=
  match file with
  | Node.file data => some (readFull data start len)
  | Node.dir => if len = 0 then some [] else none

/-- One pass of the loop of `compareChunks` (client/main.go:948-979).  `Seek` fails for a
negative offset and for an offset above the largest one the file system accepts; the pass
then ends in `continue`.  The buffer has `chunkSize` bytes. -/
def compareVisit (env : Env) (file : Node) (ss : ServerChunkStatus) (i : Int) : Visit :=
  if compareStart ss i < 0 ∨ compareStart ss i > env.maxOffset then Visit.pass
  else if compareLen ss i < 0 ∨ compareLen ss i > chunkSize then Visit.panic
  else
    match readFullOf file (compareStart ss i) (compareLen ss i) with
    | none => Visit.pass
    | some bytes =>
      let chunkHash := hexEncode (env.sha256 bytes)
      match chunkEntry ss i with
      | none => Visit.need
      | some serverChunk =>
        if !serverChunk.Exists ∨ serverChunk.Hash ≠ chunkHash then Visit.need else Visit.pass

/-- The loop of `compareChunks` over the indices still to visit; `none` stands for a
panic. -/
def compareLoop (env : Env) (file : Node) (ss : ServerChunkStatus) :
    List Nat → Option (List Int)
  | [] => some []
  | i :: rest =>
    match compareVisit env file ss (i : Int) with
    | Visit.panic => none
    | Visit.pass => compareLoop env file ss rest
    | Visit.need => (compareLoop env file ss rest).map fun l => (i : Int) :: l

/-- Source function `compareChunks` (client/main.go:936-982); `file` is what `os.Open`
finds at `filePath`.  The result `none` stands for a panic. -/
def compareChunks (env : Env) (file : Option Node) (ss : ServerChunkStatus) :
    Option (List Int) :=
  match file with
  | none => some []
  | some node => compareLoop env node ss (List.range ss.TotalChunks.toNat)

/-! ## Client: the chunk pump -/

/-- The largest length that `make([]byte, n)` accepts on a 64-bit system. -/
def maxAlloc : Int := 2 ^ 48

/-- Model of `file.ReadAt(chunk, start)` for a buffer of `len` bytes: the bytes read, or
`none` for an error (a negative offset, a directory, or fewer than `len` bytes left).  A
read into an empty buffer makes no system call and succeeds. -/
def readAt (file : Node) (start len : Int) : Option Bytes :=
  if start < 0 then none
  else if len = 0 then some []
  else
    match file with
    | Node.dir => none
    | Node.file data =>
      if start + len ≤ (data.length : Int) then some ((data.drop start.toNat).take len.toNat)
      else none

/-- What `os.WriteFile` leaves under a name that exists: a directory stays (the call
fails), a regular file gets the new content. -/
def overwrite (f : StateFile) (st : UploadState) : StateFile :=
  match f with
  | StateFile.subdir => StateFile.subdir
  | _ => StateFile.record st

/-- Writes a record into the directory listing: an entry of that name is overwritten, a new
entry goes to its place in the order of names. -/
def writeEntry (l : List (String × StateFile)) (name : String) (st : UploadState) :
    List (String × StateFile) :=
  match l with
  | [] => [(name, StateFile.record st)]
  | (n, f) :: rest =>
    if n = name then (n, overwrite f st) :: rest
    else if name < n then (name, StateFile.record st) :: (n, f) :: rest
    else (n, f) :: writeEntry rest name st

/-- Source function `saveUploadState` (client/main.go:488-507): the world and the record
after the call. -/
def saveUploadState (env : Env) (w : World) (state : UploadState) : World × UploadState :=
  if state.FileID = "" then (w, state)
  else
    ({ w with
        stateDir := writeEntry w.stateDir (state.FileID ++ ".json")
          { state with LastUpdate := env.now }
        trace := w.trace ++ [Event.saved (state.FileID ++ ".json")] },
      { state with LastUpdate := env.now })

/-- Model of `os.Remove` on an entry of `.upload_state`. -/
def removeEntry (w : World) (name : String) : World :=
  { w with
    stateDir := w.stateDir.filter fun kv => kv.1 ≠ name
    trace := w.trace ++ [Event.removed name] }

/-- Source function `deleteUploadState` (client/main.go:509-512). -/
def deleteUploadState (w : World) (fileID : String) : World := removeEntry w (fileID ++ ".json")

/-- Model of `time.Sleep(time.Second * n)`. -/
def sleep (w : World) (seconds : Nat) : World :=
  { w with trace := w.trace ++ [Event.slept seconds] }

/-- The variables shared by the workers of the pump: the world, the record `state`, the
chunk numbers whose worker sent an error to `errChan`, and whether a worker panicked. -/
structure Pump where
  world : World
  state : UploadState
  errors : List Int
  panicked : Bool

/-- The retry loop of a pump worker (client/main.go:747-788) from the pass with counter
`retry` on, `left` being the number of passes the loop condition still admits.
`http.NewRequest` is taken to succeed: the URL is the server address followed by a path. -/
def retryLoop (c : Client) (env : Env) (req : Request) (chunkNum : Int) :
    Nat → Nat → Pump → Pump
  | 0, _, p => p
  | left + 1, retry, p =>
    let out := httpDo c p.world req
    let good :=
      match out.2 with
      | some resp => decide (resp.Status = 200)
      | none => false
    if good then
      let saved := saveUploadState env out.1
        { p.state with Uploaded := p.state.Uploaded ++ [chunkNum], LastUpdate := env.now }
      { p with world := saved.1, state := saved.2 }
    else if retry = maxRetries - 1 then
      { p with world := out.1, errors := p.errors ++ [chunkNum] }
    else retryLoop c env req chunkNum left (retry + 1) { p with world := sleep out.1 (retry + 1) }

/-- The worker of chunk `chunkNum` (client/main.go:727-789). -/
def pumpWorker (c : Client) (env : Env) (fileID : String) (fileSize : Int) (file : Node)
    (chunkNum : Int) (p : Pump) : Pump :=
  if pumpChunkLen fileSize chunkNum < 0 ∨ pumpChunkLen fileSize chunkNum > maxAlloc then
    { p with panicked := true }
  else
    match readAt file (pumpStart chunkNum) (pumpChunkLen fileSize chunkNum) with
    | none => { p with errors := p.errors ++ [chunkNum] }
    | some chunk => retryLoop c env (chunkRequest fileID chunkNum chunk) chunkNum maxRetries 0 p

/-- The loop that starts the workers (client/main.go:710-790) over the indices still to
visit, with the workers run one after the other in the order in which they are started;
`uploaded` is the list `status.Uploaded`. -/
def pumpLoop (c : Client) (env : Env) (fileID : String) (fileSize : Int) (file : Node)
    (uploaded : List Int) : List Nat → Pump → Pump
  | [], p => p
  | i :: rest, p =>
    if p.panicked then p
    else if (i : Int) ∈ uploaded then pumpLoop c env fileID fileSize file uploaded rest p
    else
      pumpLoop c env fileID fileSize file uploaded rest
        (pumpWorker c env fileID fileSize file (i : Int) p)

/-- Source function `completeUpload` (client/main.go:831-853). -/
def completeUpload (c : Client) (w : World) (fileID : String) : World × Exit :=
  let out := httpDo c w (completeRequest fileID)
  match out.2 with
  | none => (out.1, Exit.fatal "Failed to complete upload")
  | some resp =>
    if resp.Status ≠ 200 then (out.1, Exit.fatal "Failed to complete upload")
    else
      match decodeComplete resp.Body with
      | none => (out.1, Exit.fatal "Failed to decode response")
      | some _ => (out.1, Exit.done)

/-- The record that `os.ReadFile` and `json.Unmarshal` find under
`.upload_state/<fileID>.json` (client/main.go:634-640); the session id is taken to be a
plain file name. -/
def readRecord (w : World) (fileID : String) : Option UploadState :=
  match (w.stateDir.find? fun kv => kv.1 = fileID ++ ".json").map Prod.snd with
  | some (StateFile.record st) => some st
  | _ => none

/-- The value of `status.Uploaded` after the per-chunk comparison (client/main.go:621-631);
`none` stands for a panic in `compareChunks`. -/
def afterProbe (env : Env) (file : Option Node) (status : UploadStatus)
    (probe : Option ServerChunkStatus) : Option (List Int) :=
  match probe with
  | none => some status.Uploaded
  | some ss =>
    match compareChunks env file ss with
    | none => none
    | some neededChunks =>
      some (if neededChunks.length > 0 then neededChunks else status.Uploaded)

/-- The value of `status.Uploaded` after the local record is loaded
(client/main.go:634-644). -/
def afterRecord (w : World) (fileID : String) (uploaded : List Int) : List Int :=
  match readRecord w fileID with
  | some localState => localState.Uploaded
  | none => uploaded

/-- The first part of `uploadChunks` (client/main.go:613-794): the status request, the
per-chunk comparison, the local record, opening the file, and the pump up to `wg.Wait()`.
The result is the way the run ended before the pump was through, or else the variables the
workers leave behind. -/
def runPump (c : Client) (env : Env) (w : World) (serverAddr fileID filePath : String)
    (fileSize : Int) : (World × Exit) ⊕ Pump :=
  let r1 := getUploadStatus c w fileID
  match r1.2 with
  | none => Sum.inl (r1.1, Exit.fatal "Failed to get upload status")
  | some status =>
    let r2 := getServerChunkStatus c r1.1 fileID
    match afterProbe env (r2.1.files filePath) status r2.2 with
    | none => Sum.inl (r2.1, Exit.panicked)
    | some uploaded1 =>
      let uploaded := afterRecord r2.1 fileID uploaded1
      match r2.1.files filePath with
      | none => Sum.inl (r2.1, Exit.fatal "Error opening file")
      | some file =>
        if status.TotalChunks < 0 then Sum.inl (r2.1, Exit.panicked)
        else
          let state : UploadState :=
            { FileID := fileID, FileName := status.FileName, FilePath := filePath,
              ServerAddr := serverAddr, TotalSize := status.TotalSize,
              TotalChunks := status.TotalChunks, Uploaded := uploaded,
              StartTime := status.StartTime, LastUpdate := env.now, Completed := false,
              Checksum := "" }
          let p := pumpLoop c env fileID fileSize file uploaded
            (List.range status.TotalChunks.toNat)
            { world := r2.1, state := state, errors := [], panicked := false }
          if p.panicked then Sum.inl (p.world, Exit.panicked) else Sum.inr p

/-- The last part of `uploadChunks` (client/main.go:796-808): the error channel is drained,
then the upload is finalized and the local record deleted. -/
def finishUpload (c : Client) (fileID : String) (p : Pump) : World × Exit :=
  if p.errors ≠ [] then (p.world, Exit.fatal "Upload failed")
  else
    let r3 := completeUpload c p.world fileID
    match r3.2 with
    | Exit.done => (deleteUploadState r3.1 fileID, Exit.done)
    | e => (r3.1, e)

/-- Source function `uploadChunks` (client/main.go:613-809). -/
def uploadChunks (c : Client) (env : Env) (w : World) (serverAddr fileID filePath : String)
    (fileSize : Int) : World × Exit :=
  match runPump c env w serverAddr fileID filePath fileSize with
  | Sum.inl ended => ended
  | Sum.inr p => finishUpload c fileID p

/-- The file part of `filepath.Split`: what follows the last separator. -/
def splitFile (s : String) : String :=
  String.mk (s.data.reverse.takeWhile fun c => c ≠ '/').reverse

/-- Source function `initUpload` (client/main.go:565-611): the session id of the reply. -/
def initUpload (c : Client) (env : Env) (w : World) (filePath : String) (fileSize : Int) :
    World × Option String :=
  let out := httpDo c w
    { Method := "POST", Path := "/upload/init"
      Header := [("Content-Type", "application/json")]
      Body := env.encodeInit (splitFile filePath) fileSize, BodyErr := false }
  match out.2 with
  | none => (out.1, none)
  | some resp => if resp.Status ≠ 200 then (out.1, none) else (out.1, decodeInitReply resp.Body)

/-- Source function `upload` (client/main.go:514-563). -/
def upload (c : Client) (env : Env) (w : World) (serverAddr filePath : String) :
    World × Exit :=
  match w.files filePath with
  | none => (w, Exit.fatal "Error getting file info")
  | some node =>
    match c.abs filePath with
    | none => (w, Exit.fatal "Error getting absolute path")
    | some absPath =>
      let r := initUpload c env w filePath (nodeSize node)
      match r.2 with
      | none => (r.1, Exit.fatal "Failed to initialize upload")
      | some fileID =>
        if fileID = "" then (r.1, Exit.fatal "Server returned empty file ID")
        else
          let state : UploadState :=
            { FileID := fileID, FileName := splitFile absPath, FilePath := absPath,
              ServerAddr := serverAddr, TotalSize := nodeSize node,
              TotalChunks := totalChunksOf (nodeSize node), Uploaded := [],
              StartTime := env.now, LastUpdate := env.now, Completed := false, Checksum := "" }
          uploadChunks c env (saveUploadState env r.1 state).1 serverAddr fileID filePath
            (nodeSize node)

/-- The loop of `findIncompleteUpload` (client/main.go:445-484) over the directory entries
still to visit. -/
def findLoop (c : Client) (serverAddr absPath : String) :
    List (String × StateFile) → World → World × Option UploadState
  | [], w => (w, none)
  | (name, f) :: rest, w =>
    if !endsWith name ".json" then findLoop c serverAddr absPath rest w
    else
      match f with
      | StateFile.subdir => findLoop c serverAddr absPath rest w
      | StateFile.unreadable => findLoop c serverAddr absPath rest w
      | StateFile.invalid => findLoop c serverAddr absPath rest (removeEntry w name)
      | StateFile.record state =>
        if state.FileID = "" then findLoop c serverAddr absPath rest (removeEntry w name)
        else if state.FilePath = absPath ∧ state.ServerAddr = serverAddr ∧
            state.Completed = false then
          let out := getServerChunkStatus c w state.FileID
          match out.2 with
          | none => findLoop c serverAddr absPath rest (removeEntry out.1 name)
          | some serverStatus =>
            if serverStatus.FileID = state.FileID then (out.1, some state)
            else findLoop c serverAddr absPath rest out.1
        else findLoop c serverAddr absPath rest w

/-- Source function `findIncompleteUpload` (client/main.go:433-486). -/
def findIncompleteUpload (c : Client) (w : World) (filePath serverAddr : String) :
    World × Option UploadState :=
  match c.abs filePath with
  | none => (w, none)
  | some absPath => findLoop c serverAddr absPath w.stateDir w

/-- The upload command of `main` (client/main.go:275-285). -/
def uploadCommand (c : Client) (env : Env) (w : World) (uploadFile serverAddr : String) :
    World × Exit :=
  let found := findIncompleteUpload c w uploadFile serverAddr
  match found.2 with
  | some state =>
    uploadChunks c env found.1 serverAddr state.FileID state.FilePath state.TotalSize
  | none => upload c env found.1 serverAddr uploadFile

/-- Source function `resumeUploadFile` (client/main.go:855-869). -/
def resumeUploadFile (c : Client) (env : Env) (w : World) (serverAddr fileID : String) :
    World × Exit :=
  let r := getUploadStatus c w fileID
  match r.2 with
  | none => (r.1, Exit.fatal "Failed to get upload status")
  | some status =>
    if status.Completed then (r.1, Exit.done)
    else uploadChunks c env r.1 serverAddr fileID status.FileName status.TotalSize
/-! ## Concrete data for evaluating the client -/

/-- A client without key that talks to the server program of this repository and is given
absolute paths. -/
def demoClient (env : Env) : Client := { key := "", peer := serveMux env, abs := fun p => some p }

/-- A world with the given server, one local file `/data/a.bin` and no record. -/
def demoWorld (s : Server) (data : Bytes) : World :=
  { server := s
    net := []
    stateDir := []
    files := fun p => if p = "/data/a.bin" then some (Node.file data) else none
    trace := [] }

/-- The world after a first run of `upload` on the three bytes `[1, 2, 3]` in which the
finalize request is lost: chunk 0 is staged and recorded on both sides. -/
def firstRun : World × Exit :=
  upload (demoClient (demoEnv "a.bin" 3)) (demoEnv "a.bin" 3)
    { demoWorld demoServer [1, 2, 3] with
      net := [Delivery.ok, Delivery.ok, Delivery.ok, Delivery.ok, Delivery.lost] }
    "http://h:8080" "/data/a.bin"

/-- The environment of a later run: the clock text differs, so init issues another id. -/
def laterEnv : Env := { demoEnv "a.bin" 3 with nowString := "u" }

/-- Spec side (C14): the local bytes in `[i·chunk_size, min((i+1)·chunk_size, total_size))`. -/
def localChunk (data : Bytes) (totalSize i : Int) : Bytes :=
  (data.drop (i * chunkSize).toNat).take
    (min ((i + 1) * chunkSize) totalSize - i * chunkSize).toNat

/-- Spec side (C14): the server has no entry for `i`, reports `exists = false`, or reports a
hash different from the hex SHA-256 of the local bytes of chunk `i`. -/
def neededSpec (env : Env) (data : Bytes) (ss : ServerChunkStatus) (i : Int) : Bool :=
  match chunkEntry ss i with
  | none => true
  | some serverChunk =>
    !serverChunk.Exists || decide (serverChunk.Hash ≠
      hexEncode (env.sha256 (localChunk data ss.TotalSize i)))
/-- A stand-in digest that tells lengths apart: one byte, the length modulo 256. -/
def lengthDigest (b : Bytes) : Bytes := [UInt8.ofNat b.length]

/-- An environment with the digest `lengthDigest`, on a file system that accepts every
`int64` offset. -/
def limitEnv : Env := { demoEnv "a.bin" 0 with sha256 := lengthDigest, maxOffset := maxInt64 }

/-- A local file of `2^63 - 1` zero bytes. -/
def limitFile : Bytes := List.replicate (2 ^ 63 - 1) 0

/-- A chunk status with `total_size = 2^63 - 100`, whose last chunk (index 879609302220,
8388508 bytes) is reported with the digest of that many zero bytes. -/
def limitStatus : ServerChunkStatus :=
  { FileID := "x", FileName := "a.bin", TotalSize := 2 ^ 63 - 100,
    TotalChunks := 879609302221, ChunkSize := chunkSize,
    Chunks := [(879609302220, { Exists := true, Size := 8388508, Hash := "9c" })] }
/-- A chunk status for a file of three bytes whose only chunk is reported with the digest
of `[1, 2, 3]`. -/
def smallStatus : ServerChunkStatus :=
  { FileID := "x", FileName := "a.bin", TotalSize := 3, TotalChunks := 1,
    ChunkSize := chunkSize,
    Chunks := [(0, { Exists := true, Size := 3, Hash := hexEncode (demoDigest [1, 2, 3]) })] }

/-- Says that an attempt of the pump worker counts as failed: a transport error or a reply
whose status is not 200 (client/main.go:757, 767). -/
def failedReply : Option Response → Bool
  | some resp => decide (resp.Status ≠ 200)
  | none => true

/-- The world after an attempt with request `req` and the pause that follows it. -/
def afterAttempt (c : Client) (req : Request) (w : World) (pause : Nat) : World :=
  sleep (httpDo c w req).1 pause

/-- A pump that starts in world `w` with an empty record and no error. -/
def freshPump (w : World) : Pump :=
  { world := w
    state :=
      { FileID := "", FileName := "", FilePath := "", ServerAddr := "", TotalSize := 0,
        TotalChunks := 0, Uploaded := [], StartTime := 0, LastUpdate := 0, Completed := false,
        Checksum := "" }
    errors := []
    panicked := false }
/-- The world of `demoWorld` in which the next three round trips are lost. -/
def lossyWorld : World :=
  { demoWorld demoServer [1, 2, 3] with net := [Delivery.lost, Delivery.lost, Delivery.lost] }

/-- The path of the chunk POST for chunk `i` of session `fileID`. -/
def chunkURL (fileID : String) (i : Int) : String :=
  "/upload/chunk/" ++ fileID ++ "/" ++ sprintInt i

/-- Says whether the log holds a POST of chunk `i` of session `fileID`. -/
def posted (fileID : String) (i : Int) (t : List Event) : Bool :=
  t.any fun e =>
    match e with
    | Event.http m p _ => decide (m = "POST" ∧ p = chunkURL fileID i)
    | _ => false

/-- Says whether the log holds a finalize request for session `fileID`. -/
def finalizeSent (fileID : String) (t : List Event) : Bool :=
  t.any fun e =>
    match e with
    | Event.http m p _ => decide (m = "POST" ∧ p = "/upload/complete/" ++ fileID)
    | _ => false

/-- Says whether the log holds the removal of a record file. -/
def recordRemoved (t : List Event) : Bool :=
  t.any fun e =>
    match e with
    | Event.removed _ => true
    | _ => false

/-- The names of the entries of `.upload_state`. -/
def recordNames (w : World) : List String := w.stateDir.map Prod.fst

/-- The events a pump worker for chunk `j` of session `fileID` can leave in the log:
attempts to POST that chunk, pauses and writes of the record. -/
def workerEvent (fileID : String) (j : Int) : Event → Prop
  | Event.http m p _ => m = "POST" ∧ p = chunkURL fileID j
  | Event.slept _ => True
  | Event.saved _ => True
  | Event.removed _ => False

/-- Says that `w2` comes from `w1` by steps of the pump: the log grows by events in `P`, no
record file disappears and the local files stay as they are. -/
def Grows (P : Event → Prop) (w1 w2 : World) : Prop :=
  (∃ new, w2.trace = w1.trace ++ new ∧ ∀ e ∈ new, P e) ∧
  (∀ name ∈ recordNames w1, name ∈ recordNames w2) ∧ w2.files = w1.files

/-- Says whether the worker of chunk `j` can read its chunk from the local file. -/
def readable (file : Node) (fileSize : Int) (j : Int) : Bool :=
  (readAt file (pumpStart j) (pumpChunkLen fileSize j)).isSome

/-- The events the pump can leave in the log when it visits the indices `L`: events of the
worker of an index in `L` that is not in the skip list and whose chunk can be read. -/
def pumpEvent (fileID : String) (fileSize : Int) (file : Node) (skip : List Int)
    (L : List Nat) (e : Event) : Prop :=
  ∃ j ∈ L, (j : Int) ∉ skip ∧ readable file fileSize (j : Int) = true ∧
    workerEvent fileID (j : Int) e

/-- The events of the requests that only read: a GET. -/
def getEvent : Event → Prop
  | Event.http m _ _ => m = "GET"
  | _ => False

/-- The events that `uploadChunks` can leave in the log before it finalizes: GET requests,
chunk POSTs of the session, pauses and writes of the record. -/
def uploadEvent (fileID : String) : Event → Prop
  | Event.http m q _ => m = "GET" ∨ (m = "POST" ∧ ∃ j : Int, q = chunkURL fileID j)
  | Event.slept _ => True
  | Event.saved _ => True
  | Event.removed _ => False

/-- The world that `firstRun` leaves, with an empty log and the given fate of the coming
round trips: chunk 0 of session `demoID "a.bin" 3` is staged and recorded on the server, and
the local record lists it as uploaded. -/
def resumeWorld (net : List Delivery) : World := { firstRun.1 with net := net, trace := [] }

/-- A server program that differs from `serveMux` in one route: a GET of
`/upload/status/<id>/chunks` is answered by `handleChunkStatus` for the session `<id>`,
behind `authMiddleware`.  It stands for a server whose per-chunk probe succeeds. -/
def probePeer (env : Env) : Handler := fun s r =>
  if r.Method = "GET" ∧ startsWith r.Path "/upload/status/" = true ∧
      endsWith r.Path "/chunks" = true then
    authMiddleware (fun s' r' =>
      handleChunkStatus env s'
        (String.mk ((trimLeading r'.Path "/upload/status/").data.reverse.drop 7).reverse)) s r
  else serveMux env s r

/-- A client without key that talks to `probePeer`. -/
def probeClient (env : Env) : Client := { demoClient env with peer := probePeer env }

/-- The world that `firstRun` leaves, except that the local record lists no chunk as
uploaded (the record written before the pump started). -/
def staleRecordWorld : World :=
  { resumeWorld [] with
    stateDir :=
      [(demoID "a.bin" 3 ++ ".json",
        StateFile.record
          { FileID := demoID "a.bin" 3, FileName := "a.bin", FilePath := "/data/a.bin",
            ServerAddr := "http://h:8080", TotalSize := 3, TotalChunks := 1, Uploaded := [],
            StartTime := 1, LastUpdate := 1, Completed := false, Checksum := "" })] }

/-- The world that `firstRun` leaves, seen from a later run started with `-resume` in the
directory of the file, after the first byte of the local file was changed. -/
def editedWorld : World :=
  { resumeWorld [] with
    files := fun p => if p = "a.bin" then some (Node.file [9, 2, 3]) else none }

/-- A server with one session of one chunk whose chunk `[1, 2, 3]` is staged and recorded. -/
def stagedServer : Server :=
  uploadAll (demoEnv "a.bin" 3) (fun _ => 2) (demoID "a.bin" 3) (fun _ => [1, 2, 3]) [0]
    (demoSession "a.bin" 3)

/-- The variable `availableSpace` of `checkDiskSpace` (server/disk_unix.go:19):
`stat.Bavail * uint64(stat.Bsize)` in `uint64` arithmetic. -/
def availableSpace (bavail bsize : Int) : Int := wrapU64 (wrapU64 bavail * wrapU64 bsize)

/-- The record that `handleUploadInit` registers (server/main.go:156-165). -/
def freshStatus (env : Env) (fileName : String) (totalSize : Int) : UploadStatus :=
  { FileID := generateFileID env fileName totalSize, FileName := fileName,
    TotalSize := totalSize, TotalChunks := totalChunksOf totalSize, ChunkSize := chunkSize,
    Uploaded := [], StartTime := env.now, LastUpdate := env.now, Completed := false,
    Checksum := "" }

/-- An environment whose volume reports exactly `avail` free bytes in blocks of one byte. -/
def spaceEnv (avail : Int) : Env := { demoEnv "a.bin" 5 with statfs := some (avail, 1) }

/-- A chunk POST whose body breaks off with a read error after `received` has arrived. -/
def brokenChunkRequest (fileID : String) (chunkNum : Int) (received : Bytes) : Request :=
  { chunkRequest fileID chunkNum received with BodyErr := true }

/-- The server after the session of `stagedServer` has been finalized. -/
def finalizedServer : Server :=
  (handleUploadComplete (demoEnv "a.bin" 3) stagedServer (completeRequest (demoID "a.bin" 3))).1

/-- The server after a session for `fileName` (3 bytes, one chunk) has been opened and its
chunk 0 staged. -/
def stagedFor (fileName : String) : Server :=
  uploadAll (demoEnv fileName 3) (fun _ => 2) (demoID fileName 3) (fun _ => [1, 2, 3]) [0]
    (demoSession fileName 3)

/-- Where a running `handleChunkUpload` stands between its three accesses to shared state:
before the registry lookup, after the membership loop found the index missing, after the
staged file is written, and after the reply. -/
inductive ChunkPhase where
  | start
  | checked
  | written
  | replied (resp : Response)
deriving DecidableEq

/-- One step of `handleChunkUpload` (server/main.go:204-245) for session `fileID` and index
`chunkNum`: the lookup under `RLock` with the membership loop (204-219), creating and writing
the staged file (222-236), and the append under `Lock` (239-242).  The variable `status` of
the source is a pointer to the registered record, so the append acts on the record as it is
when the lock is taken. -/
def chunkStep (env : Env) (fileID : String) (chunkNum : Int) (r : Request) (s : Server) :
    ChunkPhase → Server × ChunkPhase
  | ChunkPhase.start =>
    match s.uploadStatuses fileID with
    | none => (s, ChunkPhase.replied (httpError [] "Upload not initialized" 404))
    | some status =>
      if chunkNum ∈ status.Uploaded then (s, ChunkPhase.replied replyOK)
      else (s, ChunkPhase.checked)
  | ChunkPhase.checked =>
    match osCreate s.fs (chunkPath fileID chunkNum) with
    | none => (s, ChunkPhase.replied (httpError [] "Failed to create chunk file" 500))
    | some fs1 =>
      let fs2 := appendFile fs1 (chunkPath fileID chunkNum) r.Body
      if r.BodyErr then
        ({ s with fs := fs2 }, ChunkPhase.replied (httpError [] "Failed to save chunk" 500))
      else ({ s with fs := fs2 }, ChunkPhase.written)
  | ChunkPhase.written =>
    match s.uploadStatuses fileID with
    | none => (s, ChunkPhase.replied replyOK)
    | some status =>
      ({ s with
          uploadStatuses := setStatus s.uploadStatuses fileID
            { status with
              Uploaded := status.Uploaded ++ [chunkNum]
              LastUpdate := env.now } },
        ChunkPhase.replied replyOK)
  | ChunkPhase.replied resp => (s, ChunkPhase.replied resp)

/-- Two requests for the same session and index in flight at once. -/
structure Race where
  server : Server
  phaseA : ChunkPhase
  phaseB : ChunkPhase

/-- The scheduler lets one of the two requests take its next step: `false` is the first
request, `true` the second. -/
def raceStep (env : Env) (fileID : String) (chunkNum : Int) (rA rB : Request) (x : Race)
    (b : Bool) : Race :=
  if b then
    { server := (chunkStep env fileID chunkNum rB x.server x.phaseB).1
      phaseA := x.phaseA
      phaseB := (chunkStep env fileID chunkNum rB x.server x.phaseB).2 }
  else
    { server := (chunkStep env fileID chunkNum rA x.server x.phaseA).1
      phaseA := (chunkStep env fileID chunkNum rA x.server x.phaseA).2
      phaseB := x.phaseB }

/-- The two requests run under the given schedule, both starting before the lookup. -/
def race (env : Env) (fileID : String) (chunkNum : Int) (rA rB : Request) (s : Server)
    (schedule : List Bool) : Race :=
  schedule.foldl (raceStep env fileID chunkNum rA rB)
    { server := s, phaseA := ChunkPhase.start, phaseB := ChunkPhase.start }

/-- The schedule in which the two requests alternate step by step. -/
def alternating : List Bool := [false, true, false, true, false, true]

/-- An environment whose digest has the length of a SHA-256 digest, 32 bytes. -/
def Env.sound (env : Env) : Prop := ∀ b, (env.sha256 b).length = 32

/-- A request served by one of the three upload handlers, with the environment it is served
in. -/
inductive Call where
  | init (env : Env) (r : Request)
  | chunk (env : Env) (r : Request)
  | finalize (env : Env) (r : Request)

def Call.env : Call → Env
  | Call.init env _ => env
  | Call.chunk env _ => env
  | Call.finalize env _ => env

/-- The server after one call. -/
def serve (s : Server) : Call → Server
  | Call.init env r => (handleUploadInit env s r).1
  | Call.chunk env r => (handleChunkUpload env s r).1
  | Call.finalize env r => (handleUploadComplete env s r).1

/-- The server after a sequence of calls. -/
def serveAll (s : Server) (calls : List Call) : Server := calls.foldl serve s

/-- A server at start-up: the registry is empty (server/main.go:31), the service key and the
file tree are whatever they are. -/
def bootServer (key : String) (fs : FS) : Server :=
  { serviceKey := key, uploadStatuses := fun _ => none, fs := fs }

/-- The invariant of the registry: every session id is a plain name; a completed session has
all its chunks recorded, a checksum, and no staging directory; a session that is not
completed has no checksum. -/
def Server.wellFormed (s : Server) : Prop :=
  ∀ k st, s.uploadStatuses k = some st →
    plainName k ∧
    (st.Completed = true →
      (st.Uploaded.length : Int) = st.TotalChunks ∧ st.Checksum ≠ "" ∧
      s.fs (Join [tempDir, k]) ≠ some Node.dir) ∧
    (st.Completed = false → st.Checksum = "")

/-- Init, upload of the only chunk and finalize of a three-byte file. -/
def demoCalls : List Call :=
  [Call.init (demoEnv "a.bin" 3) initRequest,
   Call.chunk (demoEnv "a.bin" 3) (chunkRequest (demoID "a.bin" 3) 0 [1, 2, 3]),
   Call.finalize (demoEnv "a.bin" 3) (completeRequest (demoID "a.bin" 3))]
/-- A session for `a.bin` is completed, then a second session for the same name is opened. -/
def sharedNameCalls : List Call :=
  demoCalls ++ [Call.init (demoEnv "a.bin" 5) initRequest]

/-- A session with one chunk receives a chunk with index 1 and is then finalized. -/
def brokenFinalizeCalls : List Call :=
  [Call.init (demoEnv "a.bin" 5) initRequest,
   Call.chunk (demoEnv "a.bin" 5) (chunkRequest (demoID "a.bin" 5) 1 [1, 2, 3]),
   Call.finalize (demoEnv "a.bin" 5) (completeRequest (demoID "a.bin" 5))]

/-- Says that the probe `/upload/status/<id>/chunks` for the record `st`, sent in the world
`w`, succeeds and reports the session id of the record (client/main.go:467-478). -/
def probeConfirms (c : Client) (w : World) (st : UploadState) : Bool :=
  match (getServerChunkStatus c w st.FileID).2 with
  | some serverStatus => decide (serverStatus.FileID = st.FileID)
  | none => false

/-- The record that `firstRun` leaves in `.upload_state`. -/
def savedRecord : UploadState :=
  { FileID := demoID "a.bin" 3, FileName := "a.bin", FilePath := "/data/a.bin",
    ServerAddr := "http://h:8080", TotalSize := 3, TotalChunks := 1, Uploaded := [0],
    StartTime := 1, LastUpdate := 1, Completed := false, Checksum := "" }

/-- The world that `firstRun` leaves, with a server that has since been given the service
key `k`; the client still runs without `-key`. -/
def lockedWorld : World :=
  { resumeWorld [] with server := { (resumeWorld []).server with serviceKey := "k" } }

/-- Two uploads of chunk 0 of a fresh one-chunk session alternate until the first has
appended the index and the second has written its staged file. -/
def raceBeforeFinalize : Race :=
  race (demoEnv "a.bin" 3) (demoID "a.bin" 3) 0 (chunkRequest (demoID "a.bin" 3) 0 [1, 2, 3])
    (chunkRequest (demoID "a.bin" 3) 0 [1, 2, 3]) (demoSession "a.bin" 3)
    [false, true, false, true, false]

/-- The run of `raceBeforeFinalize`, then a finalize request served in full, then the last
step of the second upload: its append under the lock. -/
def raceAroundFinalize : Server × ChunkPhase :=
  chunkStep (demoEnv "a.bin" 3) (demoID "a.bin" 3) 0 (chunkRequest (demoID "a.bin" 3) 0 [1, 2, 3])
    (handleUploadComplete (demoEnv "a.bin" 3) raceBeforeFinalize.server
      (completeRequest (demoID "a.bin" 3))).1
    raceBeforeFinalize.phaseB

/-! # Theorems -/

/-! ## Strings -/

theorem dropLeading_append (p s : List Char) : dropLeading p (p ++ s) = some s := by
  induction p with
  | nil => cases s <;> rfl
  | cons a p ih => simp [dropLeading, ih]

theorem trimLeading_append (pre x : String) : trimLeading (pre ++ x) pre = x := by
  simp [trimLeading, String.data_append, dropLeading_append]


/-! ## Decimal numerals -/

theorem digitChar_small (k : Nat) (hk : k < 10) :
    isDigit (Nat.digitChar k) = true ∧ digitVal (Nat.digitChar k) = k := by
  interval_cases k <;> decide

theorem digitsValue_nil (a : Nat) : digitsValue a [] = a := rfl

theorem digitsValue_cons (a : Nat) (c : Char) (cs : List Char) :
    digitsValue a (c :: cs) = digitsValue (a * 10 + digitVal c) cs := rfl

theorem digitsValue_append (a : Nat) (xs ys : List Char) :
    digitsValue a (xs ++ ys) = digitsValue (digitsValue a xs) ys := by
  induction xs generalizing a with
  | nil => rfl
  | cons x xs ih => exact ih (a * 10 + digitVal x)

theorem toDigitsCore_succ (fuel n : Nat) (acc : List Char) :
    Nat.toDigitsCore 10 (fuel + 1) n acc =
      if n / 10 = 0 then Nat.digitChar (n % 10) :: acc
      else Nat.toDigitsCore 10 fuel (n / 10) (Nat.digitChar (n % 10) :: acc) := rfl

/-- The digits written by `Nat.toDigitsCore` in base ten, given fuel above the number: a
non-empty run of decimal digits, put in front of the accumulator, whose value is the number. -/
theorem decimal_core (fuel n : Nat) (acc : List Char) (hfuel : n < fuel) :
    ∃ ds : List Char, (∀ c ∈ ds, isDigit c = true) ∧ ds ≠ [] ∧
      (∀ a, digitsValue a ds = a * 10 ^ ds.length + n) ∧
      Nat.toDigitsCore 10 fuel n acc = ds ++ acc := by
  induction fuel generalizing n acc with
  | zero => omega
  | succ fuel ih =>
    have hd := digitChar_small (n % 10) (Nat.mod_lt _ (by decide))
    by_cases h0 : n / 10 = 0
    · refine ⟨[Nat.digitChar (n % 10)], ?_, by simp, ?_, ?_⟩
      · intro c hc
        simp only [List.mem_singleton] at hc
        rw [hc]; exact hd.1
      · intro a
        rw [digitsValue_cons, digitsValue_nil, hd.2, List.length_singleton, pow_one]
        omega
      · rw [toDigitsCore_succ, if_pos h0]; rfl
    · obtain ⟨ds, h3, _, h4, h1⟩ := ih (n / 10) (Nat.digitChar (n % 10) :: acc) (by omega)
      refine ⟨ds ++ [Nat.digitChar (n % 10)], ?_, by simp, ?_, ?_⟩
      · intro c hc
        rcases List.mem_append.1 hc with hc | hc
        · exact h3 c hc
        · simp only [List.mem_singleton] at hc
          rw [hc]; exact hd.1
      · intro a
        rw [digitsValue_append, h4]
        rw [digitsValue_cons, digitsValue_nil, hd.2, List.length_append, List.length_singleton,
          pow_succ]
        have := Nat.div_add_mod n 10
        nlinarith [this]
      · rw [toDigitsCore_succ, if_neg h0, h1]; simp

theorem toDigits_spec (n : Nat) :
    Nat.toDigits 10 n ≠ [] ∧ (∀ c ∈ Nat.toDigits 10 n, isDigit c = true) ∧
      digitsValue 0 (Nat.toDigits 10 n) = n := by
  obtain ⟨ds, h3, h2, h4, h1⟩ := decimal_core (n + 1) n [] (Nat.lt_succ_self n)
  have h : Nat.toDigits 10 n = ds := by simpa [Nat.toDigits] using h1
  rw [h]
  exact ⟨h2, h3, by simpa using h4 0⟩

theorem isDigit_facts (c : Char) (h : isDigit c = true) :
    c ≠ '/' ∧ c ≠ '-' ∧ c ≠ '+' ∧ c ≠ '\r' ∧ c ≠ '\n' ∧ isSpaceRune c = false ∧
      isScanDigit c = true := by
  have h' : 48 ≤ c.toNat ∧ c.toNat ≤ 57 := by
    simpa [isDigit] using h
  refine ⟨?_, ?_, ?_, ?_, ?_, ?_, ?_⟩
  · rintro rfl; revert h'; decide
  · rintro rfl; revert h'; decide
  · rintro rfl; revert h'; decide
  · rintro rfl; revert h'; decide
  · rintro rfl; revert h'; decide
  · simp only [isSpaceRune, Bool.or_eq_false_iff, Bool.and_eq_false_iff, decide_eq_false_iff_not]
    omega
  · simp [isScanDigit, h]

/-! ## Parsing decimal numerals -/

theorem parseInt64_digits (ds : List Char) (hne : ds ≠ []) (hd : ∀ c ∈ ds, isDigit c = true) :
    parseInt64 ds =
      if (digitsValue 0 ds : Int) ≤ maxInt64 then some (digitsValue 0 ds : Int) else none := by
  have hall : ds.all isDigit = true := List.all_eq_true.2 hd
  have hemp : ds.isEmpty = false := by cases ds <;> simp_all
  have hmin : minInt64 ≤ (digitsValue 0 ds : Int) := by
    have : (0 : Int) ≤ (digitsValue 0 ds : Int) := Int.natCast_nonneg _
    unfold minInt64; omega
  cases ds with
  | nil => exact absurd rfl hne
  | cons c cs =>
    have hc := isDigit_facts c (hd c (List.mem_cons_self _ _))
    unfold parseInt64
    split
    · rename_i h; exact absurd (List.cons.inj h).1 hc.2.1
    · rename_i h; exact absurd (List.cons.inj h).1 hc.2.2.1
    · simp only [hall, hemp, hmin, true_and]
      simp [hmin]

theorem parseInt64_toDigits (n : Nat) :
    parseInt64 (Nat.toDigits 10 n) = if (n : Int) ≤ maxInt64 then some (n : Int) else none := by
  obtain ⟨h1, h2, h3⟩ := toDigits_spec n
  rw [parseInt64_digits _ h1 h2, h3]

theorem fmtInt_natCast (n : Nat) : fmtInt (n : Int) = Nat.toDigits 10 n := by
  simp [fmtInt]

theorem Atoi_sprintInt_natCast (n : Nat) :
    Atoi (sprintInt (n : Int)) = if (n : Int) ≤ maxInt64 then some (n : Int) else none := by
  simp only [Atoi, sprintInt, fmtInt_natCast, parseInt64_toDigits]

theorem takeWhile_append_stop {α : Type} (p : α → Bool) (xs rest : List α)
    (hx : ∀ x ∈ xs, p x = true) (hr : ∀ y, rest.head? = some y → p y = false) :
    (xs ++ rest).takeWhile p = xs ∧ (xs ++ rest).dropWhile p = rest := by
  induction xs with
  | nil =>
    cases rest with
    | nil => simp
    | cons y ys => simp [List.takeWhile, List.dropWhile, hr y rfl]
  | cons x xs ih =>
    have hx' := hx x (List.mem_cons_self _ _)
    have := ih (fun z hz => hx z (List.mem_cons_of_mem _ hz))
    simp [List.takeWhile, List.dropWhile, hx', this.1, this.2]

theorem skipSpace_digit (c : Char) (cs : List Char) (h : isDigit c = true) :
    skipSpace (c :: cs) = some (c :: cs) := by
  have hc := isDigit_facts c h
  unfold skipSpace
  simp [hc.2.2.2.1, hc.2.2.2.2.1, hc.2.2.2.2.2.1]

/-- Scanning `%d` over a decimal numeral that is followed by a character outside
`decimalDigits` (or by nothing). -/
theorem scanInt_toDigits (n : Nat) (rest : List Char) (hn : (n : Int) ≤ maxInt64)
    (hr : ∀ y, rest.head? = some y → isScanDigit y = false) :
    scanInt (Nat.toDigits 10 n ++ rest) = some ((n : Int), rest) := by
  obtain ⟨h1, h2, h3⟩ := toDigits_spec n
  have hp := parseInt64_toDigits n
  rw [if_pos hn] at hp
  generalize Nat.toDigits 10 n = ds at h1 h2 h3 hp
  cases ds with
  | nil => exact absurd rfl h1
  | cons c cs =>
    have hc := isDigit_facts c (h2 c (List.mem_cons_self _ _))
    have htd := takeWhile_append_stop isScanDigit (c :: cs) rest
      (fun x hx => (isDigit_facts x (h2 x hx)).2.2.2.2.2.2) hr
    unfold scanInt
    rw [List.cons_append, skipSpace_digit c _ (h2 c (List.mem_cons_self _ _))]
    simp only [hc.2.1, hc.2.2.1, or_self, if_false, List.nil_append]
    rw [← List.cons_append, htd.1, htd.2, hp]
    simp

theorem scanInt_nil : scanInt [] = none := rfl

/-! ## Machine integers and headers -/

theorem wrap64_of_inRange (x : Int) (h1 : minInt64 ≤ x) (h2 : x ≤ maxInt64) : wrap64 x = x := by
  unfold wrap64
  unfold minInt64 at h1
  unfold maxInt64 at h2
  rw [Int.emod_eq_of_lt (by omega) (by omega)]
  omega

theorem Header.find_filter_ne (h : Header) (k : String) :
    (h.filter fun kv => kv.1 ≠ k).find? (fun kv => kv.1 = k) = none := by
  rw [List.find?_eq_none]
  intro x hx
  have := (List.mem_filter.1 hx).2
  simpa using this

theorem Header.get_set_same (h : Header) (k v : String) : (h.set k v).get k = v := by
  unfold Header.get Header.set
  rw [List.find?_append, Header.find_filter_ne]
  simp [List.find?]

theorem Header.find_filter_other (h : Header) (k k' : String) (hk : k' ≠ k) :
    (h.filter fun kv => kv.1 ≠ k).find? (fun kv => kv.1 = k') =
      h.find? (fun kv => kv.1 = k') := by
  induction h with
  | nil => rfl
  | cons x xs ih =>
    by_cases hx' : x.1 = k'
    · have hx : x.1 ≠ k := fun e => hk (hx'.symm.trans e)
      rw [List.filter_cons_of_pos (by simpa using hx), List.find?_cons_of_pos _ (by simpa using hx'),
        List.find?_cons_of_pos _ (by simpa using hx')]
    · rw [List.find?_cons_of_neg _ (by simpa using hx')]
      by_cases hx : x.1 = k
      · rw [List.filter_cons_of_neg (by simpa using hx)]
        exact ih
      · rw [List.filter_cons_of_pos (by simpa using hx), List.find?_cons_of_neg _ (by simpa using hx')]
        exact ih

theorem Header.get_set_other (h : Header) (k k' v : String) (hk : k' ≠ k) :
    (h.set k v).get k' = h.get k' := by
  have hk2 : ¬ k = k' := fun e => hk e.symm
  unfold Header.get Header.set
  rw [List.find?_append, Header.find_filter_other h k k' hk]
  cases h.find? (fun kv => kv.1 = k') with
  | some kv => rfl
  | none => simp [List.find?, hk2]

/-! ## Range download -/

theorem sscanfRange_open (S : Nat) (hS : (S : Int) ≤ maxInt64) :
    sscanfRange (openRange (S : Int)).data = ((S : Int), 0) := by
  have hd : (openRange (S : Int)).data = "bytes=".data ++ (Nat.toDigits 10 S ++ ['-']) := by
    simp [openRange, String.data_append, sprintInt, fmtInt_natCast]
  have hs := scanInt_toDigits S ['-'] hS (by intro y hy; cases hy; decide)
  unfold sscanfRange
  rw [hd, dropLeading_append]
  simp only [hs, scanInt_nil]

/-- **C10.** A GET with the open-ended header `Range: bytes=S-`, `0 ≤ S < size`, on a regular
file of `size` bytes is answered with status 206, the body `file[S ..]`, `Content-Range:
bytes S-(size-1)/size` and `Content-Length: size-S`. -/
theorem range_open_ended (fs : FS) (hdr : Header) (filepath : Path) (data : Bytes) (S : Nat)
    (hfile : fs filepath = some (Node.file data))
    (hsize : (data.length : Int) ≤ maxInt64) (hS : S < data.length) :
    (handleRangeDownload fs hdr filepath data.length (openRange S)).Status = 206 ∧
    (handleRangeDownload fs hdr filepath data.length (openRange S)).Body =
      RespBody.raw (data.drop S) ∧
    (handleRangeDownload fs hdr filepath data.length (openRange S)).Header.get "Content-Range" =
      "bytes " ++ sprintInt S ++ "-" ++ sprintInt ((data.length : Int) - 1) ++ "/" ++
        sprintInt data.length ∧
    (handleRangeDownload fs hdr filepath data.length (openRange S)).Header.get "Content-Length" =
      sprintInt ((data.length : Int) - S) := by
  have hSle : (S : Int) ≤ maxInt64 := by omega
  have hw1 : wrap64 ((data.length : Int) - 1) = (data.length : Int) - 1 :=
    wrap64_of_inRange _ (by unfold minInt64; omega) (by omega)
  have hw2 : wrap64 ((data.length : Int) - 1 - S) = (data.length : Int) - 1 - S :=
    wrap64_of_inRange _ (by unfold minInt64; omega) (by omega)
  have hw3 : wrap64 ((data.length : Int) - 1 - S + 1) = (data.length : Int) - S :=
    (wrap64_of_inRange _ (by unfold minInt64; omega) (by omega)).trans (by omega)
  have hcond : ¬ ((S : Int) ≥ data.length ∨ (data.length : Int) - 1 ≥ data.length ∨
      (S : Int) > (data.length : Int) - 1) := by omega
  have hneg : ¬ ((S : Int) < 0) := by omega
  have htake : (data.drop S).take ((data.length : Int) - S).toNat = data.drop S := by
    apply List.take_of_length_le
    simp only [List.length_drop]
    omega
  have hres : handleRangeDownload fs hdr filepath data.length (openRange S) =
      { Status := 206
        Header := (((hdr.set "Content-Range"
          ("bytes " ++ sprintInt S ++ "-" ++ sprintInt ((data.length : Int) - 1) ++ "/" ++
            sprintInt data.length)).set
          "Content-Length" (sprintInt ((data.length : Int) - S))).set
          "Content-Type" "application/octet-stream").set "Accept-Ranges" "bytes"
        Body := RespBody.raw (data.drop S) } := by
    unfold handleRangeDownload
    simp only [sscanfRange_open S hSle, if_true, hw1, hcond, if_false, hfile, hw2, hw3, hneg,
      Int.toNat_ofNat, htake]
  rw [hres]
  refine ⟨rfl, rfl, ?_, ?_⟩
  · rw [Header.get_set_other _ _ _ _ (by decide), Header.get_set_other _ _ _ _ (by decide),
      Header.get_set_other _ _ _ _ (by decide), Header.get_set_same]
  · rw [Header.get_set_other _ _ _ _ (by decide), Header.get_set_other _ _ _ _ (by decide),
      Header.get_set_same]

/-! ## Upload handlers -/

/-- **C5.** For an existing session with `|uploaded| ≠ total_chunks`, finalize replies 400
("Not all chunks uploaded") and the server state is unchanged: the session record, the staging
directory and the destination file are what they were (the destination is neither created nor
truncated). -/
theorem finalize_incomplete_rejected (env : Env) (s : Server) (fileID : String)
    (st : UploadStatus) (hs : s.uploadStatuses fileID = some st)
    (hne : (st.Uploaded.length : Int) ≠ st.TotalChunks) :
    handleUploadComplete env s (completeRequest fileID) =
      (s, httpError [] "Not all chunks uploaded" 400) := by
  simp only [handleUploadComplete, completeRequest, trimLeading_append, hs]
  simp [hne]

/-- A chunk whose upload was answered 200 is recorded, and staging it again changes nothing. -/
theorem storeChunk_again (env env' : Env) (s : Server) (fileID : String) (k : Int)
    (r r' : Request) (hok : (storeChunk env s fileID k r).2.Status = 200) :
    storeChunk env' (storeChunk env s fileID k r).1 fileID k r' =
      ((storeChunk env s fileID k r).1, replyOK) := by
  unfold storeChunk at hok ⊢
  cases hs : s.uploadStatuses fileID with
  | none => simp [hs, httpError] at hok
  | some st =>
    simp only [hs] at hok ⊢
    by_cases hmem : k ∈ st.Uploaded
    · simp [hmem, hs]
    · simp only [hmem, if_false] at hok ⊢
      cases hc : osCreate s.fs (chunkPath fileID k) with
      | none => simp [hc, httpError] at hok
      | some fs1 =>
        simp only [hc] at hok ⊢
        by_cases hb : r.BodyErr = true
        · simp [hb, httpError] at hok
        · simp [hb, setStatus]

/-- **C3.** Idempotent chunk upload.  When a chunk upload was answered 200, a second request
for the same URL (the same session and index), with any body, is answered 200 and leaves the
whole server state unchanged: the `uploaded` list and the staged file are what they were. -/
theorem chunk_upload_idempotent (env env' : Env) (s : Server) (r r' : Request)
    (hM : r'.Method = r.Method) (hP : r'.Path = r.Path)
    (hok : (handleChunkUpload env s r).2.Status = 200) :
    handleChunkUpload env' (handleChunkUpload env s r).1 r' =
      ((handleChunkUpload env s r).1, replyOK) := by
  unfold handleChunkUpload at hok ⊢
  rw [hM, hP]
  by_cases hm : r.Method ≠ "POST"
  · simp [hm, httpError] at hok
  · simp only [hm, if_false] at hok ⊢
    by_cases hl : (stringsSplit r.Path).length ≠ 5
    · simp [hl, httpError] at hok
    · simp only [hl, if_false] at hok ⊢
      generalize Atoi ((stringsSplit r.Path).getD 4 "") = a at hok ⊢
      cases a with
      | none => simp [httpError] at hok
      | some k => exact storeChunk_again env env' s _ k r r' hok

/-! ## Splitting and cleaning paths -/

theorem splitSlash_cons_slash (cs : List Char) : splitSlash ('/' :: cs) = [] :: splitSlash cs := by
  rw [splitSlash]; simp

theorem splitSlash_ne_nil (x : List Char) : splitSlash x ≠ [] := by
  induction x with
  | nil => simp [splitSlash]
  | cons c cs ih =>
    rw [splitSlash]
    split
    · simp
    · split <;> simp

theorem splitSlash_cons_other (c : Char) (cs : List Char) (hc : c ≠ '/') :
    splitSlash (c :: cs) =
      (c :: (splitSlash cs).headD []) :: (splitSlash cs).tail := by
  rw [splitSlash, if_neg hc]
  cases h : splitSlash cs with
  | nil => exact absurd h (splitSlash_ne_nil cs)
  | cons p ps => rfl

theorem splitSlash_noSlash (x : List Char) (h : '/' ∉ x) : splitSlash x = [x] := by
  induction x with
  | nil => rfl
  | cons c cs ih =>
    have hc : c ≠ '/' := fun e => h (e ▸ List.mem_cons_self _ _)
    have hcs : '/' ∉ cs := fun e => h (List.mem_cons_of_mem _ e)
    rw [splitSlash_cons_other c cs hc, ih hcs]
    rfl

theorem splitSlash_append_slash (x y : List Char) :
    splitSlash (x ++ '/' :: y) = splitSlash x ++ splitSlash y := by
  induction x with
  | nil => rw [List.nil_append, splitSlash_cons_slash]; rfl
  | cons c cs ih =>
    by_cases hc : c = '/'
    · subst hc
      rw [List.cons_append, splitSlash_cons_slash, splitSlash_cons_slash, ih]
      rfl
    · rw [List.cons_append, splitSlash_cons_other c _ hc, splitSlash_cons_other c cs hc, ih]
      cases h : splitSlash cs with
      | nil => exact absurd h (splitSlash_ne_nil cs)
      | cons p ps => rfl

theorem stringsSplit_append_slash (x y : String) :
    stringsSplit (x ++ "/" ++ y) = stringsSplit x ++ stringsSplit y := by
  have hd : (x ++ "/" ++ y).data = x.data ++ '/' :: y.data := by
    simp [String.data_append]
  unfold stringsSplit
  rw [hd, splitSlash_append_slash, List.map_append]

theorem stringsSplit_noSlash (x : String) (h : '/' ∉ x.data) : stringsSplit x = [x] := by
  unfold stringsSplit
  rw [splitSlash_noSlash x.data h]
  rfl

theorem cleanStep_plain (rooted : Bool) (stack : List String) (c : String)
    (h1 : c ≠ "") (h2 : c ≠ ".") (h3 : c ≠ "..") : cleanStep rooted stack c = c :: stack := by
  simp [cleanStep, h1, h2, h3]

theorem head_tempDir_slash (x : String) : (tempDir ++ "/" ++ x).data.head? = some '.' := by
  simp [tempDir, String.data_append]

theorem head_uploadDir_slash (x : String) : (uploadDir ++ "/" ++ x).data.head? = some '.' := by
  simp [uploadDir, String.data_append]

theorem Join_temp2 (id : String) : Join [tempDir, id] = cleanPath (tempDir ++ "/" ++ id) := rfl

theorem Join_temp3 (id c : String) :
    Join [tempDir, id, c] = cleanPath (tempDir ++ "/" ++ id ++ "/" ++ c) := rfl

theorem Join_temp_rooted (id : String) : (Join [tempDir, id]).rooted = false := by
  rw [Join_temp2]
  simp only [cleanPath, head_tempDir_slash]
  decide

/-- The path of a plain name inside a session's staging directory. -/
theorem Join_temp_child (id c : String) (hc : plainName c) :
    Join [tempDir, id, c] = { rooted := false, comps := (Join [tempDir, id]).comps ++ [c] } := by
  obtain ⟨h0, h1, h2, h3⟩ := hc
  have hh : (tempDir ++ "/" ++ id ++ "/" ++ c).data.head? = some '.' := by
    simp [tempDir, String.data_append]
  rw [Join_temp3, Join_temp2]
  simp only [cleanPath, hh, head_tempDir_slash]
  rw [stringsSplit_append_slash (tempDir ++ "/" ++ id) c, stringsSplit_noSlash c h0,
    List.foldl_append]
  simp [cleanStep_plain _ _ c h1 h2 h3]

/-- The staging directory of a session whose id is a plain name is `temp/<id>`. -/
theorem Join_temp_plain (id : String) (hid : plainName id) :
    Join [tempDir, id] = { rooted := false, comps := ["temp", id] } := by
  obtain ⟨h0, h1, h2, h3⟩ := hid
  have ht : stringsSplit tempDir = [".", "temp"] := by decide
  rw [Join_temp2]
  simp only [cleanPath, head_tempDir_slash]
  rw [stringsSplit_append_slash tempDir id, stringsSplit_noSlash id h0, ht]
  simp [cleanStep, h1, h2, h3]

/-! ## Chunk paths -/

theorem fmtInt_digits (i : Int) : ∀ c ∈ fmtInt i, isDigit c = true ∨ c = '-' := by
  intro c hc
  unfold fmtInt at hc
  split at hc
  · rcases List.mem_cons.1 hc with h | h
    · exact Or.inr h
    · exact Or.inl ((toDigits_spec _).2.1 c h)
  · exact Or.inl ((toDigits_spec _).2.1 c hc)

theorem toDigits_head_ne_minus (n : Nat) (rest : List Char) : Nat.toDigits 10 n ≠ '-' :: rest := by
  intro h
  have := (toDigits_spec n).2.1 '-' (by rw [h]; exact List.mem_cons_self _ _)
  revert this; decide

theorem toDigits_injective (m n : Nat) (h : Nat.toDigits 10 m = Nat.toDigits 10 n) : m = n := by
  have hm := (toDigits_spec m).2.2
  rw [h, (toDigits_spec n).2.2] at hm
  exact hm.symm

theorem fmtInt_injective (i j : Int) (h : fmtInt i = fmtInt j) : i = j := by
  unfold fmtInt at h
  by_cases hi : i < 0 <;> by_cases hj : j < 0
  · rw [if_pos hi, if_pos hj] at h
    have := toDigits_injective _ _ (List.cons.inj h).2
    omega
  · rw [if_pos hi, if_neg hj] at h
    exact absurd h.symm (toDigits_head_ne_minus _ _)
  · rw [if_neg hi, if_pos hj] at h
    exact absurd h (toDigits_head_ne_minus _ _)
  · rw [if_neg hi, if_neg hj] at h
    have := toDigits_injective _ _ h
    omega

theorem chunkName_plain (i : Int) : plainName ("chunk_" ++ sprintInt i) := by
  have hd : ("chunk_" ++ sprintInt i).data = 'c' :: 'h' :: 'u' :: 'n' :: 'k' :: '_' :: fmtInt i := by
    simp [String.data_append, sprintInt]
  refine ⟨?_, ?_, ?_, ?_⟩
  · rw [hd]
    intro hm
    simp only [List.mem_cons] at hm
    rcases hm with h | h | h | h | h | h | h
    any_goals (revert h; decide)
    rcases fmtInt_digits i _ h with h' | h'
    · exact (isDigit_facts _ h').1 rfl
    · revert h'; decide
  all_goals
    intro he
    have := congrArg String.data he
    rw [hd] at this
    revert this
    simp

theorem chunkName_injective (i j : Int)
    (h : "chunk_" ++ sprintInt i = "chunk_" ++ sprintInt j) : i = j := by
  have := congrArg String.data h
  simp only [String.data_append, sprintInt, List.append_cancel_left_eq] at this
  exact fmtInt_injective i j this

theorem chunkPath_eq (id : String) (i : Int) :
    chunkPath id i =
      { rooted := false, comps := (Join [tempDir, id]).comps ++ ["chunk_" ++ sprintInt i] } :=
  Join_temp_child id _ (chunkName_plain i)

theorem chunkPath_parent (id : String) (i : Int) : (chunkPath id i).parent = Join [tempDir, id] := by
  rw [chunkPath_eq]
  have := Join_temp_rooted id
  cases hJ : Join [tempDir, id] with
  | mk r cs =>
    rw [hJ] at this
    simp only at this
    simp [Path.parent, this]

theorem chunkPath_within (id : String) (i : Int) :
    (Join [tempDir, id]).within (chunkPath id i) = true := by
  rw [chunkPath_eq]
  simp [Path.within, Join_temp_rooted]

theorem chunkPath_injective (id : String) (i j : Int) (h : chunkPath id i = chunkPath id j) :
    i = j := by
  rw [chunkPath_eq, chunkPath_eq] at h
  have := (Path.mk.inj h).2
  simp only [List.append_cancel_left_eq, List.cons.injEq, and_true] at this
  exact chunkName_injective i j this

theorem chunkPath_ne_parent (id : String) (i j : Int) :
    chunkPath id i ≠ (chunkPath id j).parent := by
  rw [chunkPath_parent, chunkPath_eq]
  intro h
  have := congrArg (fun p => p.comps.length) h
  simp at this

/-! ## File system -/

theorem FS.set_same (fs : FS) (p : Path) (n : Node) : (fs.set p n) p = some n := by
  simp [FS.set]

theorem FS.set_other (fs : FS) (p q : Path) (n : Node) (h : q ≠ p) : (fs.set p n) q = fs q := by
  simp [FS.set, h]

theorem FS.set_set (fs : FS) (p : Path) (m n : Node) : (fs.set p m).set p n = fs.set p n := by
  funext q
  by_cases h : q = p <;> simp [FS.set, h]

theorem FS.set_comm (fs : FS) (p q : Path) (m n : Node) (h : p ≠ q) :
    (fs.set p m).set q n = (fs.set q n).set p m := by
  funext x
  by_cases h1 : x = p
  · have h2 : x ≠ q := fun e => h (h1.symm.trans e)
    rw [FS.set_other _ _ _ _ h2, h1, FS.set_same, FS.set_same]
  · by_cases h2 : x = q
    · rw [FS.set_other _ _ _ _ h1, h2, FS.set_same, FS.set_same]
    · rw [FS.set_other _ _ _ _ h2, FS.set_other _ _ _ _ h1, FS.set_other _ _ _ _ h1,
        FS.set_other _ _ _ _ h2]

theorem osCreate_eq_some (fs fs1 : FS) (p : Path) (h : osCreate fs p = some fs1) :
    fs p ≠ some Node.dir ∧ fs p.parent = some Node.dir ∧ fs1 = fs.set p (Node.file []) := by
  unfold osCreate at h
  split at h
  · exact absurd h (by simp)
  · rename_i hnd
    split at h
    · rename_i hp
      exact ⟨fun e => hnd e, hp, (Option.some.inj h).symm⟩
    · exact absurd h (by simp)

theorem osCreate_of (fs : FS) (p : Path) (h1 : fs p ≠ some Node.dir)
    (h2 : fs p.parent = some Node.dir) : osCreate fs p = some (fs.set p (Node.file [])) := by
  unfold osCreate
  split
  · rename_i h; exact absurd h h1
  · rw [h2]

theorem appendFile_set (fs : FS) (p : Path) (old data : Bytes) :
    appendFile (fs.set p (Node.file old)) p data = fs.set p (Node.file (old ++ data)) := by
  simp only [appendFile, FS.set_same, FS.set_set]

theorem osRemoveAll_apply (fs : FS) (d q : Path) (hd : d.comps.isEmpty = false) :
    osRemoveAll fs d q = if d.within q = true then none else fs q := by
  simp [osRemoveAll, hd]

theorem within_self_ne (d p q : Path) (hp : d.within p = true) (hq : d.within q = false) :
    p ≠ q := by
  intro h
  rw [h, hq] at hp
  exact absurd hp (by simp)

/-! ## Finalize -/

/-- The assembly loop over staged chunks that are all regular files, none of which is the
destination: the destination receives the chunks in the order of the index list. -/
theorem assembleChunks_ok (fileID : String) (finalPath : Path) (chunks : Nat → Bytes)
    (fs : FS) (hout : (Join [tempDir, fileID]).within finalPath = false) :
    ∀ (l : List Nat) (acc : Bytes),
      (∀ i ∈ l, fs (chunkPath fileID (i : Int)) = some (Node.file (chunks i))) →
      assembleChunks fileID finalPath l (fs.set finalPath (Node.file acc)) acc =
        (fs.set finalPath (Node.file (acc ++ l.flatMap chunks)), acc ++ l.flatMap chunks,
          AssembleEnd.done) := by
  intro l
  induction l with
  | nil => intro acc _; simp [assembleChunks]
  | cons i rest ih =>
    intro acc h
    have hne : chunkPath fileID (i : Int) ≠ finalPath :=
      within_self_ne _ _ _ (chunkPath_within fileID i) hout
    have hread : osReadAll (fs.set finalPath (Node.file acc)) (chunkPath fileID (i : Int)) =
        ReadResult.ok (chunks i) := by
      unfold osReadAll
      rw [FS.set_other _ _ _ _ hne, h i (List.mem_cons_self _ _)]
    rw [assembleChunks]
    simp only [hread]
    rw [appendFile_set, ih (acc ++ chunks i) (fun j hj => h j (List.mem_cons_of_mem _ hj))]
    simp [List.flatMap_cons, List.append_assoc]

/-- **C1 (amended).** For a session whose id is a plain name, with `n = total_chunks`,
`|uploaded| = n` and staged files `chunk_0 .. chunk_{n-1}` that are all regular files: when the
destination `<upload>/<file_name>` can be created and does not lie inside the session's
staging directory, finalize replies 200 with `{status: "completed", checksum}`, where
`checksum` is the hex digest of `chunk_0 ‖ … ‖ chunk_{n-1}`; afterwards the destination holds
exactly that byte stream, the session is completed with that checksum, and nothing is left
of the staging directory. -/
theorem finalize_assembles_in_index_order (env : Env) (s : Server) (fileID : String)
    (st : UploadStatus) (chunks : Nat → Bytes)
    (hid : plainName fileID)
    (hs : s.uploadStatuses fileID = some st)
    (hlen : (st.Uploaded.length : Int) = st.TotalChunks)
    (hread : ∀ i : Nat, (i : Int) < st.TotalChunks →
      s.fs (chunkPath fileID (i : Int)) = some (Node.file (chunks i)))
    (hcreate : (osCreate s.fs (Join [uploadDir, st.FileName])).isSome = true)
    (hout : (Join [tempDir, fileID]).within (Join [uploadDir, st.FileName]) = false) :
    (handleUploadComplete env s (completeRequest fileID)).2 =
      { Status := 200, Header := []
        Body := RespBody.json
          [("checksum", hexEncode (env.sha256
              ((List.range st.TotalChunks.toNat).flatMap chunks))),
            ("status", "completed")] } ∧
    (handleUploadComplete env s (completeRequest fileID)).1.fs (Join [uploadDir, st.FileName]) =
      some (Node.file ((List.range st.TotalChunks.toNat).flatMap chunks)) ∧
    (handleUploadComplete env s (completeRequest fileID)).1.uploadStatuses fileID =
      some { st with
        Completed := true
        Checksum := hexEncode (env.sha256
          ((List.range st.TotalChunks.toNat).flatMap chunks)) } ∧
    ∀ p, (Join [tempDir, fileID]).within p = true →
      (handleUploadComplete env s (completeRequest fileID)).1.fs p = none := by
  obtain ⟨fs1, hfs1⟩ := Option.isSome_iff_exists.1 hcreate
  obtain ⟨_, _, hfs1eq⟩ := osCreate_eq_some _ _ _ hfs1
  have hloop := assembleChunks_ok fileID (Join [uploadDir, st.FileName]) chunks s.fs hout
    (List.range st.TotalChunks.toNat) []
    (fun i hi => hread i (by
      have := List.mem_range.1 hi
      omega))
  rw [List.nil_append, ← hfs1eq] at hloop
  have hdir : (Join [tempDir, fileID]).comps.isEmpty = false := by
    rw [Join_temp_plain fileID hid]; rfl
  have hres : handleUploadComplete env s (completeRequest fileID) =
      ({ s with
          uploadStatuses := setStatus s.uploadStatuses fileID
            { st with
              Completed := true
              Checksum := hexEncode (env.sha256
                ((List.range st.TotalChunks.toNat).flatMap chunks)) }
          fs := osRemoveAll
            ((s.fs).set (Join [uploadDir, st.FileName])
              (Node.file ((List.range st.TotalChunks.toNat).flatMap chunks)))
            (Join [tempDir, fileID]) },
        { Status := 200, Header := []
          Body := RespBody.json
            [("checksum", hexEncode (env.sha256
                ((List.range st.TotalChunks.toNat).flatMap chunks))),
              ("status", "completed")] }) := by
    simp only [handleUploadComplete, completeRequest, trimLeading_append, hs, hfs1, hloop]
    simp [hlen]
  rw [hres]
  refine ⟨rfl, ?_, ?_, ?_⟩
  · show osRemoveAll _ _ _ = _
    rw [osRemoveAll_apply _ _ _ hdir, hout, FS.set_same]
    simp
  · simp [setStatus]
  · intro p hp
    show osRemoveAll _ _ _ = _
    rw [osRemoveAll_apply _ _ _ hdir, hp]
    simp

/-! ## Order independence of chunk uploads -/

theorem sameUpTo_refl (x : UploadStatus) : sameUpTo x x :=
  ⟨rfl, rfl, rfl, rfl, rfl, rfl, rfl, rfl, List.Perm.refl _⟩

theorem sameUpTo_trans {x y z : UploadStatus} (h1 : sameUpTo x y) (h2 : sameUpTo y z) :
    sameUpTo x z := by
  obtain ⟨a1, a2, a3, a4, a5, a6, a7, a8, a9⟩ := h1
  obtain ⟨b1, b2, b3, b4, b5, b6, b7, b8, b9⟩ := h2
  exact ⟨a1.trans b1, a2.trans b2, a3.trans b3, a4.trans b4, a5.trans b5, a6.trans b6,
    a7.trans b7, a8.trans b8, a9.trans b9⟩

theorem entrySim_refl (a : Option UploadStatus) : entrySim a a := by
  cases a with
  | none => trivial
  | some x => exact sameUpTo_refl x

theorem entrySim_trans {a b c : Option UploadStatus} (h1 : entrySim a b) (h2 : entrySim b c) :
    entrySim a c := by
  cases a <;> cases b <;> cases c <;> simp only [entrySim] at h1 h2 ⊢
  exact sameUpTo_trans h1 h2

theorem Sim.refl (s : Server) : Sim s s := ⟨rfl, rfl, fun _ => entrySim_refl _⟩

theorem Sim.trans {s t u : Server} (h1 : Sim s t) (h2 : Sim t u) : Sim s u :=
  ⟨h1.1.trans h2.1, h1.2.1.trans h2.2.1, fun k => entrySim_trans (h1.2.2 k) (h2.2.2 k)⟩

theorem entrySim_setStatus (m m' : String → Option UploadStatus) (id : String)
    (x y : UploadStatus) (h : ∀ k, entrySim (m k) (m' k)) (hxy : sameUpTo x y) :
    ∀ k, entrySim (setStatus m id x k) (setStatus m' id y k) := by
  intro k
  unfold setStatus
  by_cases hk : k = id
  · simp only [hk, if_true]; exact hxy
  · simp only [hk, if_false]; exact h k

/-- Staging a chunk maps related states to related states, whatever the clock shows. -/
theorem storeChunk_sim (env₁ env₂ : Env) (s t : Server) (id : String) (k : Int) (r : Request)
    (h : Sim s t) : Sim (storeChunk env₁ s id k r).1 (storeChunk env₂ t id k r).1 := by
  obtain ⟨hk, hfs, hst⟩ := h
  have hid := hst id
  unfold storeChunk
  cases hx : s.uploadStatuses id with
  | none =>
    cases hy : t.uploadStatuses id with
    | none => exact ⟨hk, hfs, hst⟩
    | some y => rw [hx, hy] at hid; exact absurd hid (by simp [entrySim])
  | some x =>
    cases hy : t.uploadStatuses id with
    | none => rw [hx, hy] at hid; exact absurd hid (by simp [entrySim])
    | some y =>
      rw [hx, hy] at hid
      have hxy : sameUpTo x y := hid
      have hmem : k ∈ x.Uploaded ↔ k ∈ y.Uploaded := hxy.2.2.2.2.2.2.2.2.mem_iff
      simp only
      by_cases hm : k ∈ x.Uploaded
      · rw [if_pos hm, if_pos (hmem.1 hm)]; exact ⟨hk, hfs, hst⟩
      · rw [if_neg hm, if_neg (fun e => hm (hmem.2 e)), ← hfs]
        cases hc : osCreate s.fs (chunkPath id k) with
        | none => exact ⟨hk, hfs, hst⟩
        | some fs1 =>
          simp only
          by_cases hb : r.BodyErr = true
          · rw [if_pos hb, if_pos hb]; exact ⟨hk, rfl, hst⟩
          · rw [if_neg hb, if_neg hb]
            refine ⟨hk, rfl, entrySim_setStatus _ _ _ _ _ hst ?_⟩
            obtain ⟨a1, a2, a3, a4, a5, a6, a7, a8, a9⟩ := hxy
            exact ⟨a1, a2, a3, a4, a5, a6, a7, a8, a9.append_right _⟩

theorem handleChunkUpload_sim (env₁ env₂ : Env) (s t : Server) (r : Request) (h : Sim s t) :
    Sim (handleChunkUpload env₁ s r).1 (handleChunkUpload env₂ t r).1 := by
  unfold handleChunkUpload
  by_cases hm : r.Method ≠ "POST"
  · rw [if_pos hm, if_pos hm]; exact h
  · rw [if_neg hm, if_neg hm]
    simp only
    by_cases hl : (stringsSplit r.Path).length ≠ 5
    · rw [if_pos hl, if_pos hl]; exact h
    · rw [if_neg hl, if_neg hl]
      cases Atoi ((stringsSplit r.Path).getD 4 "") with
      | none => exact h
      | some k => exact storeChunk_sim env₁ env₂ s t _ k r h

/-- Finalize gives the same reply on related states and leaves them related. -/
theorem handleUploadComplete_sim (env : Env) (s t : Server) (r : Request) (h : Sim s t) :
    (handleUploadComplete env s r).2 = (handleUploadComplete env t r).2 ∧
      Sim (handleUploadComplete env s r).1 (handleUploadComplete env t r).1 := by
  obtain ⟨hk, hfs, hst⟩ := h
  unfold handleUploadComplete
  by_cases hm : r.Method ≠ "POST"
  · rw [if_pos hm, if_pos hm]; exact ⟨rfl, hk, hfs, hst⟩
  · rw [if_neg hm, if_neg hm]
    simp only
    have hid := hst (trimLeading r.Path "/upload/complete/")
    cases hx : s.uploadStatuses (trimLeading r.Path "/upload/complete/") with
    | none =>
      cases hy : t.uploadStatuses (trimLeading r.Path "/upload/complete/") with
      | none => exact ⟨rfl, hk, hfs, hst⟩
      | some y => rw [hx, hy] at hid; exact absurd hid (by simp [entrySim])
    | some x =>
      cases hy : t.uploadStatuses (trimLeading r.Path "/upload/complete/") with
      | none => rw [hx, hy] at hid; exact absurd hid (by simp [entrySim])
      | some y =>
        rw [hx, hy] at hid
        have hxy : sameUpTo x y := hid
        obtain ⟨a1, a2, a3, a4, a5, a6, a7, a8, a9⟩ := hxy
        simp only
        rw [← a9.length_eq, ← a4, ← a2, ← hfs]
        by_cases hl : (x.Uploaded.length : Int) ≠ x.TotalChunks
        · rw [if_pos hl, if_pos hl]; exact ⟨rfl, hk, hfs, hst⟩
        · rw [if_neg hl, if_neg hl]
          cases hc : osCreate s.fs (Join [uploadDir, x.FileName]) with
          | none => exact ⟨rfl, hk, hfs, hst⟩
          | some fs1 =>
            simp only
            generalize assembleChunks (trimLeading r.Path "/upload/complete/")
              (Join [uploadDir, x.FileName]) (List.range x.TotalChunks.toNat) fs1 [] = res
            obtain ⟨fs2, hashed, e⟩ := res
            cases e with
            | openFailed => exact ⟨rfl, hk, rfl, hst⟩
            | copyFailed => exact ⟨rfl, hk, rfl, hst⟩
            | done =>
              refine ⟨rfl, hk, rfl, entrySim_setStatus _ _ _ _ _ hst ?_⟩
              exact ⟨a1, rfl, a3, rfl, a5, a6, rfl, rfl, a9⟩

theorem osCreate_eq_ite (fs : FS) (p : Path) :
    osCreate fs p =
      if fs p ≠ some Node.dir ∧ fs p.parent = some Node.dir then some (fs.set p (Node.file []))
      else none := by
  by_cases h : fs p ≠ some Node.dir ∧ fs p.parent = some Node.dir
  · rw [if_pos h, osCreate_of fs p h.1 h.2]
  · rw [if_neg h]
    cases hc : osCreate fs p with
    | none => rfl
    | some fs1 =>
      obtain ⟨h1, h2, _⟩ := osCreate_eq_some _ _ _ hc
      exact absurd ⟨h1, h2⟩ h

/-- The state after `storeChunk`, as a write to the file tree and an update of the registry. -/
theorem storeChunk_state (env : Env) (s : Server) (id : String) (i : Int) (r : Request) :
    (storeChunk env s id i r).1 =
      { s with
        fs := if wouldStore s id i then s.fs.set (chunkPath id i) (Node.file r.Body) else s.fs
        uploadStatuses :=
          if wouldStore s id i && !r.BodyErr then markUploaded s.uploadStatuses id i env.now
          else s.uploadStatuses } := by
  unfold storeChunk wouldStore markUploaded
  cases hx : s.uploadStatuses id with
  | none => simp
  | some x =>
    simp only
    by_cases hm : i ∈ x.Uploaded
    · simp [hm]
    · rw [if_neg hm, osCreate_eq_ite, chunkPath_parent]
      by_cases hc : s.fs (chunkPath id i) ≠ some Node.dir ∧ s.fs (Join [tempDir, id]) = some Node.dir
      · rw [if_pos hc]
        simp only [appendFile_set, List.nil_append]
        by_cases hb : r.BodyErr = true
        · simp [hm, hc.1, hc.2, hb]
        · simp [hm, hc.1, hc.2, hb]
      · rw [if_neg hc]
        rcases not_and_or.1 hc with h1 | h2
        · have h1' : s.fs (chunkPath id i) = some Node.dir := not_not.1 h1
          simp [h1']
        · simp [h2]

theorem markUploaded_at (m : String → Option UploadStatus) (id : String) (i : Int) (now : Nat) :
    markUploaded m id i now id =
      (m id).map fun x => { x with Uploaded := x.Uploaded ++ [i], LastUpdate := now } := by
  unfold markUploaded
  cases h : m id with
  | none => simp [h]
  | some x => simp [setStatus]

theorem markUploaded_other (m : String → Option UploadStatus) (id k : String) (i : Int)
    (now : Nat) (hk : k ≠ id) : markUploaded m id i now k = m k := by
  unfold markUploaded
  cases h : m id with
  | none => rfl
  | some x => simp [setStatus, hk]

theorem wouldStore_after (env : Env) (s : Server) (id : String) (i j : Int) (r : Request)
    (hij : i ≠ j) : wouldStore (storeChunk env s id i r).1 id j = wouldStore s id j := by
  have hP : chunkPath id j ≠ chunkPath id i := fun e => hij (chunkPath_injective id j i e).symm
  have hD : Join [tempDir, id] ≠ chunkPath id i := by
    have := chunkPath_ne_parent id i i
    rw [chunkPath_parent] at this
    exact fun e => this e.symm
  have hfs : ∀ q, q ≠ chunkPath id i → (storeChunk env s id i r).1.fs q = s.fs q := by
    intro q hq
    rw [storeChunk_state]
    by_cases hw : wouldStore s id i = true
    · simp only [hw, if_true]; exact FS.set_other _ _ _ _ hq
    · simp only [hw]; rfl
  have hst : (storeChunk env s id i r).1.uploadStatuses id = s.uploadStatuses id ∨
      (storeChunk env s id i r).1.uploadStatuses id =
        (s.uploadStatuses id).map fun x =>
          { x with Uploaded := x.Uploaded ++ [i], LastUpdate := env.now } := by
    rw [storeChunk_state]
    by_cases hw : (wouldStore s id i && !r.BodyErr) = true
    · right; simp only [hw, if_true]; exact markUploaded_at _ _ _ _
    · left; simp only [hw]; rfl
  unfold wouldStore
  rw [hfs _ hP, hfs _ hD]
  rcases hst with h | h
  · rw [h]
  · rw [h]
    cases s.uploadStatuses id with
    | none => rfl
    | some x =>
      have hji : ¬ j = i := fun e => hij e.symm
      simp [hji]

theorem entrySim_markUploaded (m m' : String → Option UploadStatus) (id : String) (i : Int)
    (n₁ n₂ : Nat) (h : ∀ k, entrySim (m k) (m' k)) :
    ∀ k, entrySim (markUploaded m id i n₁ k) (markUploaded m' id i n₂ k) := by
  intro k
  by_cases hk : k = id
  · subst hk
    rw [markUploaded_at, markUploaded_at]
    have := h k
    cases hx : m k <;> cases hy : m' k <;> rw [hx, hy] at this <;>
      simp only [entrySim, Option.map] at this ⊢
    obtain ⟨a1, a2, a3, a4, a5, a6, a7, a8, a9⟩ := this
    exact ⟨a1, a2, a3, a4, a5, a6, a7, a8, a9.append_right _⟩
  · rw [markUploaded_other _ _ _ _ _ hk, markUploaded_other _ _ _ _ _ hk]
    exact h k

theorem entrySim_markUploaded_swap (m : String → Option UploadStatus) (id : String)
    (i j : Int) (n₁ n₂ n₃ n₄ : Nat) :
    ∀ k, entrySim (markUploaded (markUploaded m id i n₁) id j n₂ k)
      (markUploaded (markUploaded m id j n₃) id i n₄ k) := by
  intro k
  by_cases hk : k = id
  · subst hk
    rw [markUploaded_at, markUploaded_at, markUploaded_at, markUploaded_at]
    cases m k with
    | none => trivial
    | some x =>
      refine ⟨rfl, rfl, rfl, rfl, rfl, rfl, rfl, rfl, ?_⟩
      simp only [List.append_assoc]
      exact List.Perm.append_left _ (List.Perm.swap _ _ _)
  · rw [markUploaded_other _ _ _ _ _ hk, markUploaded_other _ _ _ _ _ hk,
      markUploaded_other _ _ _ _ _ hk, markUploaded_other _ _ _ _ _ hk]
    exact entrySim_refl _

/-- Staging two chunks with different indices in either order gives related states. -/
theorem storeChunk_swap (e₁ e₂ e₃ e₄ : Env) (s : Server) (id : String) (i j : Int)
    (r₁ r₂ : Request) (hij : i ≠ j) :
    Sim (storeChunk e₂ (storeChunk e₁ s id i r₁).1 id j r₂).1
      (storeChunk e₄ (storeChunk e₃ s id j r₂).1 id i r₁).1 := by
  have hP : chunkPath id i ≠ chunkPath id j := fun e => hij (chunkPath_injective id i j e)
  rw [storeChunk_state e₂, storeChunk_state e₄, wouldStore_after e₁ s id i j r₁ hij,
    wouldStore_after e₃ s id j i r₂ hij.symm, storeChunk_state e₁, storeChunk_state e₃]
  refine ⟨rfl, ?_, ?_⟩
  · cases wouldStore s id i <;> cases wouldStore s id j <;> simp [FS.set_comm _ _ _ _ _ hP]
  · cases wouldStore s id i <;> cases wouldStore s id j <;> cases r₁.BodyErr <;>
      cases r₂.BodyErr <;> simp only [Bool.false_and, Bool.true_and, Bool.not_true,
        Bool.not_false, if_true, if_false, Bool.false_eq_true] <;>
      first
        | exact fun k => entrySim_refl _
        | exact entrySim_markUploaded_swap _ _ _ _ _ _ _ _
        | exact entrySim_markUploaded _ _ _ _ _ _ (fun k => entrySim_refl _)

theorem stringsSplit_ne_nil (x : String) : stringsSplit x ≠ [] := by
  unfold stringsSplit
  intro h
  exact splitSlash_ne_nil x.data (List.map_eq_nil_iff.1 h)

theorem sprintInt_noSlash (i : Int) : '/' ∉ (sprintInt i).data := by
  intro h
  rcases fmtInt_digits i _ h with h' | h'
  · exact (isDigit_facts _ h').1 rfl
  · revert h'; decide

theorem chunkRequest_parts (id : String) (i : Int) (body : Bytes) :
    stringsSplit (chunkRequest id i body).Path =
      ["", "upload", "chunk"] ++ stringsSplit id ++ [sprintInt i] := by
  have h1 : (chunkRequest id i body).Path = ("/upload/chunk" ++ "/" ++ id) ++ "/" ++ sprintInt i := by
    apply String.ext
    simp [chunkRequest, String.data_append]
  have h2 : stringsSplit "/upload/chunk" = ["", "upload", "chunk"] := by decide
  rw [h1, stringsSplit_append_slash, stringsSplit_append_slash, h2,
    stringsSplit_noSlash _ (sprintInt_noSlash i)]

/-- What `handleChunkUpload` does with the requests of the pump for session `id`: either the
URL never has five parts and every request is refused, or every request whose index fits in
`int` reaches `storeChunk` with one and the same session key. -/
theorem handleChunkUpload_chunkRequest (id : String) :
    (∀ (env : Env) (s : Server) (i : Nat) (body : Bytes),
        (handleChunkUpload env s (chunkRequest id i body)).1 = s) ∨
    ∃ fid : String, ∀ (env : Env) (s : Server) (i : Nat) (body : Bytes),
        (handleChunkUpload env s (chunkRequest id i body)).1 =
          if (i : Int) ≤ maxInt64 then
            (storeChunk env s fid (i : Int) (chunkRequest id i body)).1
          else s := by
  have hM : ∀ (i : Int) (body : Bytes), ¬ (chunkRequest id i body).Method ≠ "POST" := by
    intro i body; simp [chunkRequest]
  cases hsp : stringsSplit id with
  | nil => exact absurd hsp (stringsSplit_ne_nil id)
  | cons a rest =>
    cases rest with
    | nil =>
      right
      refine ⟨a, ?_⟩
      intro env s i body
      unfold handleChunkUpload
      rw [if_neg (hM _ _)]
      simp only [chunkRequest_parts, hsp]
      have hA := Atoi_sprintInt_natCast i
      by_cases hi : (i : Int) ≤ maxInt64
      · rw [if_pos hi] at hA
        simp [hA, hi]
      · rw [if_neg hi] at hA
        simp [hA, hi]
    | cons b rest' =>
      left
      intro env s i body
      unfold handleChunkUpload
      rw [if_neg (hM _ _)]
      simp only [chunkRequest_parts, hsp]
      simp

theorem handleChunkUpload_swap (e₁ e₂ e₃ e₄ : Env) (s : Server) (id : String) (i j : Nat)
    (b₁ b₂ : Bytes) (hij : i ≠ j) :
    Sim (handleChunkUpload e₂ (handleChunkUpload e₁ s (chunkRequest id i b₁)).1
          (chunkRequest id j b₂)).1
      (handleChunkUpload e₄ (handleChunkUpload e₃ s (chunkRequest id j b₂)).1
          (chunkRequest id i b₁)).1 := by
  rcases handleChunkUpload_chunkRequest id with hno | ⟨fid, hst⟩
  · rw [hno, hno, hno, hno]; exact Sim.refl s
  · simp only [hst]
    have hne : (i : Int) ≠ (j : Int) := fun e => hij (Int.ofNat.inj e)
    by_cases hi : (i : Int) ≤ maxInt64 <;> by_cases hj : (j : Int) ≤ maxInt64
    · simp only [hi, hj, if_true]
      exact storeChunk_swap e₁ e₂ e₃ e₄ s fid i j _ _ hne
    · simp only [hi, hj, if_true, if_false]
      exact storeChunk_sim e₁ e₄ s s fid i _ (Sim.refl s)
    · simp only [hi, hj, if_true, if_false]
      exact storeChunk_sim e₂ e₃ s s fid j _ (Sim.refl s)
    · simp only [hi, hj, if_false]
      exact Sim.refl s

theorem uploadAll_sim (env : Env) (c₁ c₂ : Nat → Nat) (id : String) (body : Nat → Bytes)
    (l : List Nat) : ∀ s t, Sim s t → Sim (uploadAll env c₁ id body l s) (uploadAll env c₂ id body l t) := by
  induction l with
  | nil => intro s t h; exact h
  | cons i rest ih =>
    intro s t h
    exact ih _ _ (handleChunkUpload_sim _ _ s t _ h)

/-- Runs of chunk uploads over two orderings of the same indices end in related states. -/
theorem uploadAll_perm (env : Env) (id : String) (body : Nat → Bytes) (σ₁ σ₂ : List Nat)
    (h : σ₁.Perm σ₂) :
    ∀ (c₁ c₂ : Nat → Nat) (s t : Server), Sim s t →
      Sim (uploadAll env c₁ id body σ₁ s) (uploadAll env c₂ id body σ₂ t) := by
  induction h with
  | nil => intro _ _ s t hs; exact hs
  | cons x _ ih =>
    intro c₁ c₂ s t hs
    exact ih c₁ c₂ _ _ (handleChunkUpload_sim _ _ s t _ hs)
  | swap x y l =>
    intro c₁ c₂ s t hs
    show Sim
      (uploadAll env c₁ id body l
        (handleChunkUpload { env with now := c₁ x }
          (handleChunkUpload { env with now := c₁ y } s (chunkRequest id (y : Int) (body y))).1
          (chunkRequest id (x : Int) (body x))).1)
      (uploadAll env c₂ id body l
        (handleChunkUpload { env with now := c₂ y }
          (handleChunkUpload { env with now := c₂ x } t (chunkRequest id (x : Int) (body x))).1
          (chunkRequest id (y : Int) (body y))).1)
    apply uploadAll_sim
    have hst : Sim
        (handleChunkUpload { env with now := c₂ y }
          (handleChunkUpload { env with now := c₂ x } s (chunkRequest id (x : Int) (body x))).1
          (chunkRequest id (y : Int) (body y))).1
        (handleChunkUpload { env with now := c₂ y }
          (handleChunkUpload { env with now := c₂ x } t (chunkRequest id (x : Int) (body x))).1
          (chunkRequest id (y : Int) (body y))).1 :=
      handleChunkUpload_sim _ _ _ _ _ (handleChunkUpload_sim _ _ s t _ hs)
    refine Sim.trans ?_ hst
    by_cases hxy : y = x
    · subst hxy
      exact handleChunkUpload_sim _ _ _ _ _ (handleChunkUpload_sim _ _ s s _ (Sim.refl s))
    · exact handleChunkUpload_swap { env with now := c₁ y } { env with now := c₁ x }
        { env with now := c₂ x } { env with now := c₂ y } s id y x (body y) (body x) hxy
  | trans _ _ ih₁ ih₂ =>
    intro c₁ c₂ s t hs
    exact (ih₁ c₁ c₁ s s (Sim.refl s)).trans (ih₂ c₁ c₂ s t hs)

theorem Sim.checksum {s t : Server} (h : Sim s t) (k : String) :
    (s.uploadStatuses k).map (fun st => st.Checksum) =
      (t.uploadStatuses k).map (fun st => st.Checksum) := by
  have := h.2.2 k
  cases hx : s.uploadStatuses k <;> cases hy : t.uploadStatuses k <;> rw [hx, hy] at this <;>
    simp only [entrySim] at this
  · exact congrArg some this.2.2.2.2.2.2.2.1

/-- **C2.** Order independence.  For two orderings `σ₁`, `σ₂` of the chunk indices
`0 .. n-1`, with the same body for each index: uploading the chunks through
`handleChunkUpload` in either order and then finalizing gives the same reply (hence the same
checksum in it), the same file tree (hence the same destination bytes) and the same stored
checksum for every session. -/
theorem upload_order_independent (env : Env) (clock₁ clock₂ : Nat → Nat) (s : Server)
    (fileID : String) (n : Nat) (body : Nat → Bytes) (σ₁ σ₂ : List Nat)
    (h₁ : σ₁.Perm (List.range n)) (h₂ : σ₂.Perm (List.range n)) :
    (handleUploadComplete env (uploadAll env clock₁ fileID body σ₁ s)
        (completeRequest fileID)).2 =
      (handleUploadComplete env (uploadAll env clock₂ fileID body σ₂ s)
        (completeRequest fileID)).2 ∧
    (handleUploadComplete env (uploadAll env clock₁ fileID body σ₁ s)
        (completeRequest fileID)).1.fs =
      (handleUploadComplete env (uploadAll env clock₂ fileID body σ₂ s)
        (completeRequest fileID)).1.fs ∧
    ∀ k, ((handleUploadComplete env (uploadAll env clock₁ fileID body σ₁ s)
        (completeRequest fileID)).1.uploadStatuses k).map (fun st => st.Checksum) =
      ((handleUploadComplete env (uploadAll env clock₂ fileID body σ₂ s)
        (completeRequest fileID)).1.uploadStatuses k).map (fun st => st.Checksum) := by
  have hsim := uploadAll_perm env fileID body σ₁ σ₂ (h₁.trans h₂.symm) clock₁ clock₂ s s
    (Sim.refl s)
  have hfin := handleUploadComplete_sim env _ _ (completeRequest fileID) hsim
  exact ⟨hfin.1, hfin.2.2.1, fun k => hfin.2.checksum k⟩

/-! ## Hex encoding and session ids -/

theorem hexDigit_mem (n : Nat) : hexDigit n ∈ "0123456789abcdef".data := by
  unfold hexDigit
  by_cases h : n < 16
  · interval_cases n <;> decide
  · rw [List.getD_eq_default _ _ (by simpa using Nat.le_of_not_lt h)]
    decide

/-- The output of `hexEncode` consists of lowercase hexadecimal digits. -/
theorem hexEncode_chars (b : Bytes) : ∀ c ∈ (hexEncode b).data, c ∈ "0123456789abcdef".data := by
  intro c hc
  simp only [hexEncode, List.mem_flatMap] at hc
  obtain ⟨x, _, hx⟩ := hc
  simp only [List.mem_cons, List.mem_singleton, List.not_mem_nil, or_false] at hx
  rcases hx with h | h <;> rw [h] <;> exact hexDigit_mem _

theorem hexEncode_ne_nil (b : Bytes) (hb : b ≠ []) : (hexEncode b).data ≠ [] := by
  cases b with
  | nil => exact absurd rfl hb
  | cons x xs => simp [hexEncode, List.flatMap_cons]

/-- A session id issued by `generateFileID` from a non-empty digest is a plain name. -/
theorem generateFileID_plain (env : Env) (filename : String) (size : Int)
    (hd : env.sha256 (stringBytes filename ++ stringBytes (sprintInt size) ++
      stringBytes env.nowString) ≠ []) :
    plainName (generateFileID env filename size) := by
  have hchars : ∀ c ∈ (generateFileID env filename size).data,
      c ∈ "0123456789abcdef".data := by
    intro c hc
    exact hexEncode_chars _ c (List.mem_of_mem_take hc)
  have hne : (generateFileID env filename size).data ≠ [] := by
    have := hexEncode_ne_nil _ hd
    unfold generateFileID
    cases h : (hexEncode (env.sha256 (stringBytes filename ++ stringBytes (sprintInt size) ++
      stringBytes env.nowString))).data with
    | nil => exact absurd h this
    | cons c cs => simp
  have hslash : '/' ∉ (generateFileID env filename size).data := by
    intro h
    have := hchars _ h
    revert this; decide
  have hdot : '.' ∉ (generateFileID env filename size).data := by
    intro h
    have := hchars _ h
    revert this; decide
  refine ⟨hslash, ?_, ?_, ?_⟩
  · intro h
    exact hne (by rw [h])
  · intro h
    exact hdot (by rw [h]; decide)
  · intro h
    exact hdot (by rw [h]; decide)

/-! ## Chunk arithmetic -/

theorem ceil_chunk_iff (ts n : Int) :
    Int.ceil ((ts : ℚ) / ((chunkSize : Int) : ℚ)) = n ↔
      (n - 1) * chunkSize < ts ∧ ts ≤ n * chunkSize := by
  have hc : (0 : ℚ) < ((chunkSize : Int) : ℚ) := by
    unfold chunkSize; norm_num
  rw [Int.ceil_eq_iff, lt_div_iff₀ hc, div_le_iff₀ hc]
  constructor
  · rintro ⟨h1, h2⟩
    constructor
    · have : (((n - 1) * chunkSize : Int) : ℚ) < (ts : ℚ) := by push_cast; linarith
      exact_mod_cast this
    · have : ((ts : Int) : ℚ) ≤ ((n * chunkSize : Int) : ℚ) := by push_cast; linarith
      exact_mod_cast this
  · rintro ⟨h1, h2⟩
    constructor
    · have : (((n - 1) * chunkSize : Int) : ℚ) < (ts : ℚ) := by exact_mod_cast h1
      push_cast at this; linarith
    · have : ((ts : Int) : ℚ) ≤ ((n * chunkSize : Int) : ℚ) := by exact_mod_cast h2
      push_cast at this; linarith

theorem wrap64_wrap64_add (x y : Int) : wrap64 (wrap64 x + y) = wrap64 (x + y) := by
  unfold wrap64
  omega

theorem totalChunksOf_eq (ts : Int) :
    totalChunksOf ts = (wrap64 (ts + chunkSize - 1)).tdiv chunkSize := by
  unfold totalChunksOf
  rw [sub_eq_add_neg, wrap64_wrap64_add, ← sub_eq_add_neg]

/-- Where `total_size + chunkSize - 1` fits in `int64`, the chunk count of the source is
`ceil(total_size / chunkSize)`. -/
theorem totalChunksOf_inRange (ts : Int) (h0 : 0 ≤ ts) (h1 : ts + chunkSize - 1 ≤ maxInt64) :
    totalChunksOf ts = Int.ceil ((ts : ℚ) / ((chunkSize : Int) : ℚ)) := by
  have hcs : chunkSize = 10485760 := by decide
  rw [hcs] at h1
  unfold maxInt64 at h1
  have hw2 : wrap64 (ts + chunkSize - 1) = ts + chunkSize - 1 :=
    wrap64_of_inRange _ (by unfold minInt64; omega) (by unfold maxInt64; omega)
  symm
  rw [ceil_chunk_iff, totalChunksOf_eq, hw2, hcs, Int.tdiv_eq_ediv (by omega) (by omega)]
  constructor <;> omega

/-- For every `int64` size `total_size ≥ 0`, wrapped or not, the chunk count of the source
is zero exactly when `total_size` is zero. -/
theorem totalChunksOf_eq_zero_iff (ts : Int) (h0 : 0 ≤ ts) (h1 : ts ≤ maxInt64) :
    totalChunksOf ts = 0 ↔ ts = 0 := by
  have hcs : chunkSize = 10485760 := by decide
  unfold maxInt64 at h1
  rw [totalChunksOf_eq, hcs]
  unfold wrap64
  by_cases hfit : ts + 10485760 - 1 ≤ 2 ^ 63 - 1
  · have e2 : (ts + 10485760 - 1 + 2 ^ 63) % 2 ^ 64 - 2 ^ 63 = ts + 10485760 - 1 := by omega
    rw [e2, Int.tdiv_eq_ediv (by omega) (by omega)]
    omega
  · have e2 : (ts + 10485760 - 1 + 2 ^ 63) % 2 ^ 64 - 2 ^ 63 =
        -(2 ^ 64 + 1 - ts - 10485760) := by omega
    rw [e2, Int.neg_tdiv, Int.tdiv_eq_ediv (by omega) (by omega)]
    omega

theorem pumpChunkLen_full (ts i : Int) (h0 : 0 ≤ i) (h1 : (i + 1) * chunkSize ≤ ts)
    (h2 : ts ≤ maxInt64) : pumpChunkLen ts i = chunkSize := by
  have hcs : chunkSize = 10485760 := by decide
  unfold maxInt64 at h2
  rw [hcs] at h1
  have hs : pumpStart i = i * 10485760 := by
    unfold pumpStart
    rw [hcs]
    exact wrap64_of_inRange _ (by unfold minInt64; omega) (by unfold maxInt64; omega)
  have he : wrap64 (i * 10485760 + 10485760) = i * 10485760 + 10485760 :=
    wrap64_of_inRange _ (by unfold minInt64; omega) (by unfold maxInt64; omega)
  unfold pumpChunkLen pumpEnd
  simp only [hs, hcs, he]
  rw [if_neg (by omega)]
  exact (wrap64_of_inRange _ (by unfold minInt64; omega) (by unfold maxInt64; omega)).trans
    (by omega)

theorem pumpChunkLen_last (ts i : Int) (h0 : 0 ≤ i) (h1 : i * chunkSize < ts)
    (h2 : ts ≤ (i + 1) * chunkSize) (h3 : (i + 1) * chunkSize ≤ maxInt64) :
    pumpChunkLen ts i = ts - i * chunkSize := by
  have hcs : chunkSize = 10485760 := by decide
  unfold maxInt64 at h3
  rw [hcs] at h1 h2 h3
  have hs : pumpStart i = i * 10485760 := by
    unfold pumpStart
    rw [hcs]
    exact wrap64_of_inRange _ (by unfold minInt64; omega) (by unfold maxInt64; omega)
  have he : wrap64 (i * 10485760 + 10485760) = i * 10485760 + 10485760 :=
    wrap64_of_inRange _ (by unfold minInt64; omega) (by unfold maxInt64; omega)
  unfold pumpChunkLen pumpEnd
  simp only [hs, hcs, he]
  by_cases hlt : i * 10485760 + 10485760 > ts
  · rw [if_pos hlt]
    exact wrap64_of_inRange _ (by unfold minInt64; omega) (by unfold maxInt64; omega)
  · rw [if_neg hlt]
    exact (wrap64_of_inRange _ (by unfold minInt64; omega) (by unfold maxInt64; omega)).trans
      (by omega)

/-- Where `n · chunkSize` fits in `int64`, `n = ceil(total_size / chunkSize)`: the lengths the
pump computes are `chunkSize` for every index below `n - 1` and
`total_size - (n-1) · chunkSize`, a value in `1 .. chunkSize`, for index `n - 1`; they add up
to `total_size`. -/
theorem pumpChunkLen_inRange (ts n : Int) (h0 : 0 ≤ ts)
    (hn : Int.ceil ((ts : ℚ) / ((chunkSize : Int) : ℚ)) = n)
    (hfit : n * chunkSize ≤ maxInt64) :
    (∀ i : Int, 0 ≤ i → i < n - 1 → pumpChunkLen ts i = chunkSize) ∧
    (0 < n → pumpChunkLen ts (n - 1) = ts - (n - 1) * chunkSize ∧
      1 ≤ ts - (n - 1) * chunkSize ∧ ts - (n - 1) * chunkSize ≤ chunkSize) ∧
    (Finset.range n.toNat).sum (fun i => pumpChunkLen ts (i : Int)) = ts := by
  have hcs : chunkSize = 10485760 := by decide
  obtain ⟨hlo, hhi⟩ := (ceil_chunk_iff ts n).1 hn
  have hts : ts ≤ maxInt64 := le_trans hhi hfit
  have hfull : ∀ i : Int, 0 ≤ i → i < n - 1 → pumpChunkLen ts i = chunkSize := by
    intro i hi0 hi1
    apply pumpChunkLen_full ts i hi0 _ hts
    have : (i + 1) * chunkSize ≤ (n - 1) * chunkSize :=
      Int.mul_le_mul_of_nonneg_right (by omega) (by rw [hcs]; omega)
    omega
  have hlast : 0 < n → pumpChunkLen ts (n - 1) = ts - (n - 1) * chunkSize := by
    intro hpos
    apply pumpChunkLen_last ts (n - 1) (by omega) hlo
    · rw [sub_add_cancel]; exact hhi
    · rw [sub_add_cancel]; exact hfit
  refine ⟨hfull, fun hpos => ⟨hlast hpos, ?_, ?_⟩, ?_⟩
  · omega
  · have : (n - 1) * chunkSize = n * chunkSize - chunkSize := by ring
    omega
  · by_cases hpos : 0 < n
    · obtain ⟨m, hm⟩ : ∃ m : Nat, n = (m : Int) + 1 := ⟨(n - 1).toNat, by omega⟩
      subst hm
      have htn : ((m : Int) + 1).toNat = m + 1 := by omega
      rw [htn, Finset.sum_range_succ]
      have hsum : (Finset.range m).sum (fun i => pumpChunkLen ts (i : Int)) =
          (Finset.range m).sum (fun _ => chunkSize) := by
        apply Finset.sum_congr rfl
        intro i hi
        have := Finset.mem_range.1 hi
        exact hfull i (by omega) (by omega)
      have hl := hlast hpos
      simp only [add_sub_cancel_right] at hl
      rw [hsum, Finset.sum_const, Finset.card_range, hl]
      simp only [nsmul_eq_mul]
      ring
    · have hn0 : n = 0 := by
        by_contra hne
        have hneg : n ≤ -1 := by omega
        have : n * chunkSize ≤ -1 * chunkSize :=
          Int.mul_le_mul_of_nonneg_right hneg (by rw [hcs]; omega)
        rw [hcs] at this hhi
        omega
      subst hn0
      simp only [zero_mul] at hhi
      simp
      omega

/-- **C6 (amended).** For every `int64` size `total_size ≥ 0`: where
`total_size + chunkSize - 1` does not exceed `2^63 - 1`, the chunk count of the source equals
`ceil(total_size / chunkSize)`; and in every case, wrapped or not, the chunk count is zero
exactly when `total_size` is zero. -/
theorem totalChunksOf_spec (ts : Int) (h0 : 0 ≤ ts) (h1 : ts ≤ maxInt64) :
    (ts + chunkSize - 1 ≤ maxInt64 →
      totalChunksOf ts = Int.ceil ((ts : ℚ) / ((chunkSize : Int) : ℚ))) ∧
    (totalChunksOf ts = 0 ↔ ts = 0) :=
  ⟨fun hfit => totalChunksOf_inRange ts h0 hfit, totalChunksOf_eq_zero_iff ts h0 h1⟩

/-- Witness of `totalChunksOf_spec`: a file of 25 MiB has three chunks. -/
theorem totalChunksOf_spec_witness :
    (0 : Int) ≤ 26214400 ∧ (26214400 : Int) ≤ maxInt64 ∧
    (26214400 + chunkSize - 1 ≤ maxInt64 →
      totalChunksOf 26214400 = Int.ceil (((26214400 : Int) : ℚ) / ((chunkSize : Int) : ℚ))) ∧
    (totalChunksOf 26214400 = 0 ↔ (26214400 : Int) = 0) ∧
    totalChunksOf 26214400 = 3 :=
  ⟨by decide, by decide, (totalChunksOf_spec 26214400 (by decide) (by decide)).1,
    (totalChunksOf_spec 26214400 (by decide) (by decide)).2, by decide⟩

/-- **C7 (amended).** For every `total_size ≥ 0` with `n = ceil(total_size / chunkSize)` and
`n · chunkSize ≤ 2^63 - 1`, the lengths the pump worker computes are `chunkSize` for every
index `i < n - 1` and `total_size - (n-1) · chunkSize`, a value in `1 .. chunkSize`, for
`i = n - 1`; their sum over `0 .. n-1` is `total_size`. -/
theorem pump_chunk_lengths (ts n : Int) (h0 : 0 ≤ ts)
    (hn : Int.ceil ((ts : ℚ) / ((chunkSize : Int) : ℚ)) = n)
    (hfit : n * chunkSize ≤ maxInt64) :
    (∀ i : Int, 0 ≤ i → i < n - 1 → pumpChunkLen ts i = chunkSize) ∧
    (0 < n → pumpChunkLen ts (n - 1) = ts - (n - 1) * chunkSize ∧
      1 ≤ ts - (n - 1) * chunkSize ∧ ts - (n - 1) * chunkSize ≤ chunkSize) ∧
    (Finset.range n.toNat).sum (fun i => pumpChunkLen ts (i : Int)) = ts :=
  pumpChunkLen_inRange ts n h0 hn hfit

/-- Witness of `pump_chunk_lengths`: a file of 25 MiB, chunks of 10, 10 and 5 MiB. -/
theorem pump_chunk_lengths_witness :
    Int.ceil (((26214400 : Int) : ℚ) / ((chunkSize : Int) : ℚ)) = 3 ∧
    (Finset.range (3 : Int).toNat).sum (fun i => pumpChunkLen 26214400 (i : Int)) = 26214400 ∧
    pumpChunkLen 26214400 0 = 10485760 ∧ pumpChunkLen 26214400 1 = 10485760 ∧
    pumpChunkLen 26214400 2 = 5242880 :=
  ⟨(ceil_chunk_iff 26214400 3).2 ⟨by decide, by decide⟩,
    (pump_chunk_lengths 26214400 3 (by decide)
      ((ceil_chunk_iff 26214400 3).2 ⟨by decide, by decide⟩) (by decide)).2.2,
    by decide, by decide, by decide⟩

theorem sscanfRange_closed (S E : Nat) (hS : (S : Int) ≤ maxInt64) (hE : (E : Int) ≤ maxInt64) :
    sscanfRange (closedRange (S : Int) (E : Int)).data = ((S : Int), (E : Int)) := by
  have hd : (closedRange (S : Int) (E : Int)).data =
      "bytes=".data ++ (Nat.toDigits 10 S ++ ('-' :: (Nat.toDigits 10 E ++ []))) := by
    simp [closedRange, String.data_append, sprintInt, fmtInt_natCast]
  have hs := scanInt_toDigits S ('-' :: (Nat.toDigits 10 E ++ [])) hS
    (by intro y hy; cases hy; decide)
  have he := scanInt_toDigits E [] hE (by intro y hy; cases hy)
  unfold sscanfRange
  rw [hd, dropLeading_append]
  simp only [hs, he]

/-- A closed range `bytes=S-E` with `0 ≤ S ≤ E < size` and `E ≠ 0` is served as asked:
status 206, body `file[S .. E]`, `Content-Range: bytes S-E/size`, `Content-Length: E-S+1`. -/
theorem range_closed_nonzero_end (fs : FS) (hdr : Header) (filepath : Path) (data : Bytes)
    (S E : Nat) (hfile : fs filepath = some (Node.file data))
    (hsize : (data.length : Int) ≤ maxInt64) (hSE : S ≤ E) (hE : E < data.length)
    (hE0 : E ≠ 0) :
    handleRangeDownload fs hdr filepath data.length (closedRange S E) =
      { Status := 206
        Header := (((hdr.set "Content-Range"
          ("bytes " ++ sprintInt S ++ "-" ++ sprintInt E ++ "/" ++ sprintInt data.length)).set
          "Content-Length" (sprintInt ((E : Int) - S + 1))).set
          "Content-Type" "application/octet-stream").set "Accept-Ranges" "bytes"
        Body := RespBody.raw ((data.drop S).take (E - S + 1)) } := by
  have hSle : (S : Int) ≤ maxInt64 := by omega
  have hEle : (E : Int) ≤ maxInt64 := by omega
  have hE0' : ¬ ((E : Int) = 0) := by omega
  have hw2 : wrap64 ((E : Int) - S) = (E : Int) - S :=
    wrap64_of_inRange _ (by unfold minInt64; omega) (by omega)
  have hw3 : wrap64 ((E : Int) - S + 1) = (E : Int) - S + 1 :=
    wrap64_of_inRange _ (by unfold minInt64; omega) (by omega)
  have hcond : ¬ ((S : Int) ≥ data.length ∨ (E : Int) ≥ data.length ∨ (S : Int) > (E : Int)) := by
    omega
  have hneg : ¬ ((S : Int) < 0) := by omega
  have hn : ((E : Int) - S + 1).toNat = E - S + 1 := by omega
  unfold handleRangeDownload
  simp only [sscanfRange_closed S E hSle hEle, hE0', if_false, hcond, hfile, hw2, hw3, hneg,
    Int.toNat_ofNat, hn]

/-! ## Evaluations at concrete inputs -/

/-- **C1 (counterexample).** A session for `file_name = "docs/a.bin"` (5 bytes, one chunk)
whose only chunk is staged and readable: finalize answers 500 because `uploads/docs` does
not exist, the session stays uncompleted and no destination file is written. -/
theorem finalize_fails_without_destination_directory :
    ((demoSession "docs/a.bin" 5).uploadStatuses (demoID "docs/a.bin" 5)).map
        (fun st => (st.FileName, st.TotalChunks, st.Uploaded)) = some ("docs/a.bin", 1, []) ∧
    ((uploadAll (demoEnv "docs/a.bin" 5) (fun _ => 2) (demoID "docs/a.bin" 5) (fun _ => [1, 2, 3])
        [0] (demoSession "docs/a.bin" 5)).uploadStatuses (demoID "docs/a.bin" 5)).map
        (fun st => (st.TotalChunks, st.Uploaded)) = some (1, [0]) ∧
    (uploadAll (demoEnv "docs/a.bin" 5) (fun _ => 2) (demoID "docs/a.bin" 5) (fun _ => [1, 2, 3])
        [0] (demoSession "docs/a.bin" 5)).fs (chunkPath (demoID "docs/a.bin" 5) 0) =
      some (Node.file [1, 2, 3]) ∧
    (handleUploadComplete (demoEnv "docs/a.bin" 5)
        (uploadAll (demoEnv "docs/a.bin" 5) (fun _ => 2) (demoID "docs/a.bin" 5)
          (fun _ => [1, 2, 3]) [0] (demoSession "docs/a.bin" 5))
        (completeRequest (demoID "docs/a.bin" 5))).2 =
      httpError [] "Failed to create final file" 500 ∧
    (handleUploadComplete (demoEnv "docs/a.bin" 5)
        (uploadAll (demoEnv "docs/a.bin" 5) (fun _ => 2) (demoID "docs/a.bin" 5)
          (fun _ => [1, 2, 3]) [0] (demoSession "docs/a.bin" 5))
        (completeRequest (demoID "docs/a.bin" 5))).1.fs (Join [uploadDir, "docs/a.bin"]) = none := by
  decide

/-- **C4.** Evaluation at the failing input: in a session with `total_chunks = 1` the chunk
uploads with index 7 and with index -1 are answered 200 and the index is recorded. -/
theorem chunk_index_outside_range_is_recorded :
    ((demoSession "a.bin" 5).uploadStatuses (demoID "a.bin" 5)).map
        (fun st => (st.TotalChunks, st.Uploaded)) = some (1, []) ∧
    (handleChunkUpload (demoEnv "a.bin" 5) (demoSession "a.bin" 5)
        (chunkRequest (demoID "a.bin" 5) 7 [1, 2, 3])).2 = replyOK ∧
    ((handleChunkUpload (demoEnv "a.bin" 5) (demoSession "a.bin" 5)
        (chunkRequest (demoID "a.bin" 5) 7 [1, 2, 3])).1.uploadStatuses (demoID "a.bin" 5)).map
        (fun st => (st.TotalChunks, st.Uploaded)) = some (1, [7]) ∧
    (handleChunkUpload (demoEnv "a.bin" 5) (demoSession "a.bin" 5)
        (chunkRequest (demoID "a.bin" 5) (-1) [1, 2, 3])).2 = replyOK ∧
    ((handleChunkUpload (demoEnv "a.bin" 5) (demoSession "a.bin" 5)
        (chunkRequest (demoID "a.bin" 5) (-1) [1, 2, 3])).1.uploadStatuses (demoID "a.bin" 5)).map
        (fun st => (st.TotalChunks, st.Uploaded)) = some (1, [-1]) := by
  decide

/-- **C6.** Evaluation at the failing input `total_size = 2^63 - 1`: the sum
`total_size + chunkSize - 1` wraps around and the computed chunk count is negative, while
`ceil(total_size / chunkSize)` is 879609302221. -/
theorem totalChunksOf_maxInt64 :
    totalChunksOf maxInt64 = -879609302219 ∧
    Int.ceil (((maxInt64 : Int) : ℚ) / ((chunkSize : Int) : ℚ)) = 879609302221 := by
  refine ⟨by decide, ?_⟩
  rw [Int.ceil_eq_iff]
  simp only [maxInt64, chunkSize]
  norm_num

/-- **C7.** Evaluation at the failing input `total_size = 2^63 - 1`, last index
`n - 1 = 879609302220`: `start + chunkSize` wraps around, the bound `end > fileSize` is not
applied, and the computed length is `chunkSize` instead of the 8388607 bytes that remain. -/
theorem pumpChunkLen_maxInt64 :
    Int.ceil (((maxInt64 : Int) : ℚ) / ((chunkSize : Int) : ℚ)) = 879609302220 + 1 ∧
    pumpChunkLen maxInt64 879609302220 = chunkSize ∧
    maxInt64 - 879609302220 * chunkSize = 8388607 := by
  refine ⟨?_, by decide, by decide⟩
  rw [Int.ceil_eq_iff]
  simp only [maxInt64, chunkSize]
  norm_num

/-- **C8.** Evaluation at the failing input: on a file of three bytes, `Range: bytes=0-0`
is answered with the whole file, `Content-Range: bytes 0-2/3` and `Content-Length: 3`. -/
theorem range_zero_zero_returns_whole_file :
    handleRangeDownload (oneFileFS [1, 2, 3]) [] (Join [uploadDir, "x"]) 3 (closedRange 0 0) =
      { Status := 206
        Header := [("Content-Range", "bytes 0-2/3"), ("Content-Length", "3"),
          ("Content-Type", "application/octet-stream"), ("Accept-Ranges", "bytes")]
        Body := RespBody.raw [1, 2, 3] } := by
  decide

/-- **C9.** Evaluation at failing inputs: on a file of three bytes the malformed headers
`garbage` and `bytes=abc` are answered 206 with the whole file, and `bytes=-1-1` is answered
206 with the parsed start -1. -/
theorem malformed_range_is_answered_206 :
    handleRangeDownload (oneFileFS [1, 2, 3]) [] (Join [uploadDir, "x"]) 3 "garbage" =
      { Status := 206
        Header := [("Content-Range", "bytes 0-2/3"), ("Content-Length", "3"),
          ("Content-Type", "application/octet-stream"), ("Accept-Ranges", "bytes")]
        Body := RespBody.raw [1, 2, 3] } ∧
    handleRangeDownload (oneFileFS [1, 2, 3]) [] (Join [uploadDir, "x"]) 3 "bytes=abc" =
      { Status := 206
        Header := [("Content-Range", "bytes 0-2/3"), ("Content-Length", "3"),
          ("Content-Type", "application/octet-stream"), ("Accept-Ranges", "bytes")]
        Body := RespBody.raw [1, 2, 3] } ∧
    sscanfRange "bytes=-1-1".data = (-1, 1) ∧
    (handleRangeDownload (oneFileFS [1, 2, 3]) [] (Join [uploadDir, "x"]) 3 "bytes=-1-1").Status =
      206 := by
  decide

/-! ## Witnesses -/

/-- Witness of `finalize_assembles_in_index_order`: a one-chunk session whose chunk is staged. -/
theorem finalize_assembles_in_index_order_witness :
    (handleUploadComplete (demoEnv "a.bin" 5)
        (uploadAll (demoEnv "a.bin" 5) (fun _ => 2) (demoID "a.bin" 5) (fun _ => [1, 2, 3]) [0]
          (demoSession "a.bin" 5))
        (completeRequest (demoID "a.bin" 5))).1.fs (Join [uploadDir, "a.bin"]) =
      some (Node.file ((List.range (totalChunksOf 5).toNat).flatMap fun _ => [1, 2, 3])) :=
  (finalize_assembles_in_index_order (demoEnv "a.bin" 5)
    (uploadAll (demoEnv "a.bin" 5) (fun _ => 2) (demoID "a.bin" 5) (fun _ => [1, 2, 3]) [0]
      (demoSession "a.bin" 5))
    (demoID "a.bin" 5) (demoStatus "a.bin" 5 [0] 2) (fun _ => [1, 2, 3])
    (by unfold plainName; decide) (by decide) (by decide)
    (by
      intro i hi
      have h0 : i = 0 := by
        have : (demoStatus "a.bin" 5 [0] 2).TotalChunks = 1 := by decide
        rw [this] at hi
        omega
      subst h0
      decide)
    (by decide) (by decide)).2.1

/-- Witness of `upload_order_independent`: three chunks sent as 0, 1, 2 and as 2, 0, 1. -/
theorem upload_order_independent_witness :
    [0, 1, 2].Perm (List.range 3) ∧ [2, 0, 1].Perm (List.range 3) ∧
    (handleUploadComplete (demoEnv "a.bin" 26214400)
        (uploadAll (demoEnv "a.bin" 26214400) (fun i => i + 2) (demoID "a.bin" 26214400)
          (fun i => [UInt8.ofNat i, 7]) [0, 1, 2] (demoSession "a.bin" 26214400))
        (completeRequest (demoID "a.bin" 26214400))).2 =
      (handleUploadComplete (demoEnv "a.bin" 26214400)
        (uploadAll (demoEnv "a.bin" 26214400) (fun i => 9 - i) (demoID "a.bin" 26214400)
          (fun i => [UInt8.ofNat i, 7]) [2, 0, 1] (demoSession "a.bin" 26214400))
        (completeRequest (demoID "a.bin" 26214400))).2 ∧
    (handleUploadComplete (demoEnv "a.bin" 26214400)
        (uploadAll (demoEnv "a.bin" 26214400) (fun i => 9 - i) (demoID "a.bin" 26214400)
          (fun i => [UInt8.ofNat i, 7]) [2, 0, 1] (demoSession "a.bin" 26214400))
        (completeRequest (demoID "a.bin" 26214400))).1.fs (Join [uploadDir, "a.bin"]) =
      some (Node.file [0, 7, 1, 7, 2, 7]) :=
  ⟨by decide, by decide,
    (upload_order_independent (demoEnv "a.bin" 26214400) (fun i => i + 2) (fun i => 9 - i)
      (demoSession "a.bin" 26214400) (demoID "a.bin" 26214400) 3 (fun i => [UInt8.ofNat i, 7])
      [0, 1, 2] [2, 0, 1] (by decide) (by decide)).1,
    by decide⟩

/-- Witness of `chunk_upload_idempotent`: chunk 0 sent twice, the second time with another
body. -/
theorem chunk_upload_idempotent_witness :
    (handleChunkUpload (demoEnv "a.bin" 5) (demoSession "a.bin" 5)
        (chunkRequest (demoID "a.bin" 5) 0 [1, 2, 3])).2.Status = 200 ∧
    handleChunkUpload (demoEnv "a.bin" 5)
        (handleChunkUpload (demoEnv "a.bin" 5) (demoSession "a.bin" 5)
          (chunkRequest (demoID "a.bin" 5) 0 [1, 2, 3])).1
        (chunkRequest (demoID "a.bin" 5) 0 [9]) =
      ((handleChunkUpload (demoEnv "a.bin" 5) (demoSession "a.bin" 5)
          (chunkRequest (demoID "a.bin" 5) 0 [1, 2, 3])).1, replyOK) :=
  ⟨by decide,
    chunk_upload_idempotent (demoEnv "a.bin" 5) (demoEnv "a.bin" 5) (demoSession "a.bin" 5)
      (chunkRequest (demoID "a.bin" 5) 0 [1, 2, 3]) (chunkRequest (demoID "a.bin" 5) 0 [9])
      rfl rfl (by decide)⟩

/-- Witness of `finalize_incomplete_rejected`: a one-chunk session with nothing uploaded. -/
theorem finalize_incomplete_rejected_witness :
    (demoSession "a.bin" 5).uploadStatuses (demoID "a.bin" 5) =
      some (demoStatus "a.bin" 5 [] 1) ∧
    handleUploadComplete (demoEnv "a.bin" 5) (demoSession "a.bin" 5)
        (completeRequest (demoID "a.bin" 5)) =
      (demoSession "a.bin" 5, httpError [] "Not all chunks uploaded" 400) :=
  ⟨by decide,
    finalize_incomplete_rejected (demoEnv "a.bin" 5) (demoSession "a.bin" 5) (demoID "a.bin" 5)
      (demoStatus "a.bin" 5 [] 1) (by decide) (by decide)⟩

/-- Witness of `range_open_ended`: `bytes=1-` on a file of three bytes. -/
theorem range_open_ended_witness :
    (handleRangeDownload (oneFileFS [1, 2, 3]) [] (Join [uploadDir, "x"])
        (([1, 2, 3] : Bytes).length : Int) (openRange ((1 : Nat) : Int))).Status = 206 ∧
    (handleRangeDownload (oneFileFS [1, 2, 3]) [] (Join [uploadDir, "x"])
        (([1, 2, 3] : Bytes).length : Int) (openRange ((1 : Nat) : Int))).Body =
      RespBody.raw (([1, 2, 3] : Bytes).drop 1) :=
  ⟨(range_open_ended (oneFileFS [1, 2, 3]) [] (Join [uploadDir, "x"]) [1, 2, 3] 1 (by decide)
      (by decide) (by decide)).1,
    (range_open_ended (oneFileFS [1, 2, 3]) [] (Join [uploadDir, "x"]) [1, 2, 3] 1 (by decide)
      (by decide) (by decide)).2.1⟩

/-! ## Download paths -/

theorem dropLeading_some (p s r : List Char) (h : dropLeading p s = some r) : s = p ++ r := by
  induction p generalizing s with
  | nil =>
    cases s <;> simp [dropLeading] at h <;> simp [h]
  | cons a p ih =>
    cases s with
    | nil => simp [dropLeading] at h
    | cons b s =>
      simp only [dropLeading] at h
      split at h
      · next hab => rw [hab, ih s h]; rfl
      · cases h

theorem splitSlash_pieces (x : List Char) : ∀ p ∈ splitSlash x, '/' ∉ p := by
  induction x with
  | nil => intro p hp; simp [splitSlash] at hp; simp [hp]
  | cons c cs ih =>
    intro p hp
    by_cases hc : c = '/'
    · subst hc
      rw [splitSlash_cons_slash] at hp
      rcases List.mem_cons.1 hp with h | h
      · simp [h]
      · exact ih p h
    · rw [splitSlash_cons_other c cs hc] at hp
      cases hs : splitSlash cs with
      | nil => exact absurd hs (splitSlash_ne_nil cs)
      | cons q qs =>
        rw [hs] at hp ih
        rcases List.mem_cons.1 hp with h | h
        · subst h
          intro hm
          rcases List.mem_cons.1 hm with h1 | h1
          · exact hc h1.symm
          · exact ih q (List.mem_cons_self _ _) h1
        · exact ih p (List.mem_cons_of_mem _ h)

/-- A component of a path: no separator in it and not empty. -/
theorem cleanStep_comps (rooted : Bool) (stack : List String) (c : String)
    (hc : '/' ∉ c.data) (hs : ∀ t ∈ stack, '/' ∉ t.data ∧ t ≠ "") :
    ∀ t ∈ cleanStep rooted stack c, '/' ∉ t.data ∧ t ≠ "" := by
  have hdd : '/' ∉ "..".data ∧ ".." ≠ "" := by decide
  unfold cleanStep
  split
  · exact hs
  · next h1 =>
    split
    · cases stack with
      | nil =>
        cases rooted
        · intro t ht
          simp at ht
          subst ht
          exact hdd
        · intro t ht
          simp at ht
      | cons u rest =>
        simp only
        split
        · intro t ht
          rcases List.mem_cons.1 ht with h | h
          · subst h; exact hdd
          · exact hs t h
        · intro t ht
          exact hs t (List.mem_cons_of_mem _ ht)
    · intro t ht
      rcases List.mem_cons.1 ht with h | h
      · subst h
        exact ⟨hc, fun e => h1 (Or.inl e)⟩
      · exact hs t h

theorem foldl_cleanStep_comps (rooted : Bool) (cs : List String) (stack : List String)
    (hcs : ∀ c ∈ cs, '/' ∉ c.data) (hs : ∀ t ∈ stack, '/' ∉ t.data ∧ t ≠ "") :
    ∀ t ∈ cs.foldl (cleanStep rooted) stack, '/' ∉ t.data ∧ t ≠ "" := by
  induction cs generalizing stack with
  | nil => exact hs
  | cons c cs ih =>
    rw [List.foldl_cons]
    exact ih _ (fun d hd => hcs d (List.mem_cons_of_mem _ hd))
      (cleanStep_comps rooted stack c (hcs c (List.mem_cons_self _ _)) hs)

theorem cleanPath_comps (s : String) : ∀ t ∈ (cleanPath s).comps, '/' ∉ t.data ∧ t ≠ "" := by
  intro t ht
  unfold cleanPath at ht
  simp only [List.mem_reverse] at ht
  refine foldl_cleanStep_comps _ (stringsSplit s) [] ?_ (by simp) t ht
  intro c hc
  unfold stringsSplit at hc
  obtain ⟨p, hp, rfl⟩ := List.mem_map.1 hc
  exact splitSlash_pieces s.data p hp

theorem intercalate_go_data (acc sep : String) (l : List String) :
    (String.intercalate.go acc sep l).data =
      acc.data ++ l.flatMap fun a => sep.data ++ a.data := by
  induction l generalizing acc with
  | nil => simp [String.intercalate.go]
  | cons a l ih =>
    rw [String.intercalate.go, ih]
    simp [String.data_append, List.flatMap_cons, List.append_assoc]

/-- The text of a relative path with at least one component. -/
theorem render_relative (c : String) (rest : List String) :
    (Path.render { rooted := false, comps := c :: rest }).data =
      c.data ++ rest.flatMap fun a => '/' :: a.data := by
  have : (Path.render { rooted := false, comps := c :: rest }) =
      String.intercalate.go c "/" rest := by
    simp [Path.render, String.intercalate]
  rw [this, intercalate_go_data]
  rfl

/-- A text without separator that is followed by nothing or by a separator, and that starts
with `uploads/`, is `uploads` followed by a separator. -/
theorem uploads_prefix (c tail r : List Char) (hc : '/' ∉ c)
    (ht : tail = [] ∨ ∃ t, tail = '/' :: t)
    (h : c ++ tail = "uploads/".data ++ r) : c = "uploads".data ∧ tail ≠ [] := by
  have hu : "uploads/".data = "uploads".data ++ ['/'] := by decide
  rw [hu, List.append_assoc] at h
  have hno : '/' ∉ "uploads".data := by decide
  rcases ht with ht | ⟨t, ht⟩
  · subst ht
    rw [List.append_nil] at h
    exact absurd (h ▸ (by simp : '/' ∈ "uploads".data ++ (['/'] ++ r))) hc
  · subst ht
    have key := List.append_eq_append_iff.1 h
    rcases key with ⟨a, ha1, ha2⟩ | ⟨a, ha1, ha2⟩
    · -- "uploads" = c ++ a and '/' :: t = a ++ ...
      cases a with
      | nil => simp at ha1; exact ⟨ha1.symm ▸ rfl, by simp⟩
      | cons x a =>
        have hx : x = '/' := by
          have := ha2
          simp at this
          exact this.1.symm
        subst hx
        exact absurd (ha1 ▸ (by simp : '/' ∈ c ++ '/' :: a)) hno
    · cases a with
      | nil => simp at ha1; exact ⟨ha1, by simp⟩
      | cons x a =>
        have hx : x = '/' := by
          have := ha2
          simp at this
          exact this.1.symm
        subst hx
        exact absurd (ha1 ▸ (by simp : '/' ∈ "uploads".data ++ '/' :: a)) hc

/-- The test of `handleDownload` on the text of the joined path implies that the path lies
strictly below the upload root. -/
theorem below_of_startsWith (x : String)
    (h : startsWith (cleanPath x).render ((cleanPath uploadDir).render ++ "/") = true) :
    Path.below (cleanPath uploadDir) (cleanPath x) = true := by
  have hroot : cleanPath uploadDir = { rooted := false, comps := ["uploads"] } := by decide
  have hpre : (cleanPath uploadDir).render ++ "/" = "uploads/" := by decide
  rw [hpre] at h
  rw [hroot]
  have hcomps := cleanPath_comps x
  generalize cleanPath x = p at h hcomps ⊢
  obtain ⟨rooted, comps⟩ := p
  unfold startsWith at h
  rw [Option.isSome_iff_exists] at h
  obtain ⟨r, hr⟩ := h
  have hdata := dropLeading_some _ _ _ hr
  cases rooted with
  | true =>
    exfalso
    have : (Path.render { rooted := true, comps := comps }).data =
        '/' :: (String.intercalate "/" comps).data := by
      simp [Path.render, String.data_append]
    rw [this] at hdata
    have hu : "uploads/".data = 'u' :: "ploads/".data := by decide
    rw [hu] at hdata
    simp at hdata
  | false =>
    cases comps with
    | nil =>
      exfalso
      have : (Path.render { rooted := false, comps := [] }).data = ['.'] := by decide
      rw [this] at hdata
      have hu : "uploads/".data = 'u' :: "ploads/".data := by decide
      rw [hu] at hdata
      simp at hdata
    | cons c rest =>
      rw [render_relative] at hdata
      have hc := (hcomps c (List.mem_cons_self _ _)).1
      have ht : (rest.flatMap fun a => '/' :: a.data) = [] ∨
          ∃ t, (rest.flatMap fun a => '/' :: a.data) = '/' :: t := by
        cases rest with
        | nil => exact Or.inl rfl
        | cons d rest =>
          exact Or.inr ⟨d.data ++ rest.flatMap fun a => '/' :: a.data, by
            simp [List.flatMap_cons]⟩
      obtain ⟨h1, h2⟩ := uploads_prefix _ _ _ hc ht hdata
      have hce : c = "uploads" := String.ext h1
      subst hce
      cases rest with
      | nil => exact absurd rfl h2
      | cons d rest => simp [Path.below, Path.within]

theorem handleRangeDownload_congr (fs1 fs2 : FS) (hdr : Header) (p : Path) (size : Int)
    (rangeHeader : String) (h : fs1 p = fs2 p) :
    handleRangeDownload fs1 hdr p size rangeHeader =
      handleRangeDownload fs2 hdr p size rangeHeader := by
  unfold handleRangeDownload
  rw [h]

/-- The reply of `handleDownload` once the path is decoded: what the handler does from line
419 on. -/
theorem handleDownload_decoded (env : Env) (s : Server) (r : Request) (decoded : String)
    (hm : r.Method = "GET" ∨ r.Method = "HEAD")
    (hne : trimLeading r.Path "/download/" ≠ "")
    (hq : QueryUnescape (trimLeading r.Path "/download/") = some decoded) :
    handleDownload env s r =
      if !startsWith (Join [uploadDir, decoded]).render ((cleanPath uploadDir).render ++ "/") then
        (s, httpError [] "Invalid file path" 400)
      else
        match s.fs (Join [uploadDir, decoded]) with
        | none => (s, httpError [] "File not found" 404)
        | some Node.dir => (s, httpError [] "Cannot download directory" 400)
        | some (Node.file data) =>
          if r.Method = "HEAD" then
            (s, { Status := 200
                  Header := ((((Header.set [] "Content-Disposition"
                    ("attachment; filename=" ++ filepathBase decoded)).set
                    "Content-Type" "application/octet-stream").set
                    "Content-Length" (sprintInt (data.length : Int))).set "Accept-Ranges" "bytes")
                  Body := RespBody.empty })
          else if r.Header.get "Range" ≠ "" then
            (s, handleRangeDownload s.fs ((((Header.set [] "Content-Disposition"
                    ("attachment; filename=" ++ filepathBase decoded)).set
                    "Content-Type" "application/octet-stream").set
                    "Content-Length" (sprintInt (data.length : Int))).set "Accept-Ranges" "bytes")
                (Join [uploadDir, decoded]) (data.length : Int) (r.Header.get "Range"))
          else
            (s, env.serveFile r ((((Header.set [] "Content-Disposition"
                    ("attachment; filename=" ++ filepathBase decoded)).set
                    "Content-Type" "application/octet-stream").set
                    "Content-Length" (sprintInt (data.length : Int))).set "Accept-Ranges" "bytes")
                (Node.file data)) := by
  have hm2 : ¬ (r.Method ≠ "GET" ∧ r.Method ≠ "HEAD") := by
    rcases hm with h | h <;> simp [h]
  unfold handleDownload
  rw [if_neg hm2]
  simp only [if_neg hne, hq]

/-- **C11.** `handleDownload` never changes the server, and its reply depends on the file
tree only through paths strictly below the cleaned upload root: two file trees that agree
there get the same reply.  When the decoded request path, joined with the upload root and
cleaned, does not lie strictly below the root, a GET or HEAD request is answered 400 and the
reply is the same for every file tree, so no file is looked up, opened or served. -/
theorem download_path_safety (env : Env) (s : Server) (r : Request) :
    (handleDownload env s r).1 = s ∧
    (∀ fs1 fs2 : FS, (∀ p, Path.below (cleanPath uploadDir) p = true → fs1 p = fs2 p) →
      (handleDownload env { s with fs := fs1 } r).2 =
        (handleDownload env { s with fs := fs2 } r).2) ∧
    (∀ decoded, (r.Method = "GET" ∨ r.Method = "HEAD") →
      QueryUnescape (trimLeading r.Path "/download/") = some decoded →
      Path.below (cleanPath uploadDir) (Join [uploadDir, decoded]) = false →
      ∃ resp : Response, resp.Status = 400 ∧
        ∀ fs : FS, handleDownload env { s with fs := fs } r = ({ s with fs := fs }, resp)) := by
  have hbelow : ∀ decoded,
      startsWith (Join [uploadDir, decoded]).render ((cleanPath uploadDir).render ++ "/") = true →
      Path.below (cleanPath uploadDir) (Join [uploadDir, decoded]) = true :=
    fun decoded h => below_of_startsWith _ h
  refine ⟨?_, ?_, ?_⟩
  · by_cases hm : r.Method = "GET" ∨ r.Method = "HEAD"
    · by_cases hne : trimLeading r.Path "/download/" = ""
      · have hm2 : ¬ (r.Method ≠ "GET" ∧ r.Method ≠ "HEAD") := by
          rcases hm with h | h <;> simp [h]
        unfold handleDownload
        rw [if_neg hm2]
        simp only [if_pos hne]
      · cases hq : QueryUnescape (trimLeading r.Path "/download/") with
        | none =>
          have hm2 : ¬ (r.Method ≠ "GET" ∧ r.Method ≠ "HEAD") := by
            rcases hm with h | h <;> simp [h]
          unfold handleDownload
          rw [if_neg hm2]
          simp only [if_neg hne, hq]
        | some decoded =>
          rw [handleDownload_decoded env s r decoded hm hne hq]
          split
          · rfl
          · split
            · rfl
            · rfl
            · split
              · rfl
              · split <;> rfl
    · have hm2 : r.Method ≠ "GET" ∧ r.Method ≠ "HEAD" := by
        constructor
        · exact fun h => hm (Or.inl h)
        · exact fun h => hm (Or.inr h)
      unfold handleDownload
      rw [if_pos hm2]
  · intro fs1 fs2 hagree
    by_cases hm : r.Method = "GET" ∨ r.Method = "HEAD"
    · by_cases hne : trimLeading r.Path "/download/" = ""
      · have hm2 : ¬ (r.Method ≠ "GET" ∧ r.Method ≠ "HEAD") := by
          rcases hm with h | h <;> simp [h]
        unfold handleDownload
        rw [if_neg hm2, if_neg hm2]
        simp only [if_pos hne]
      · cases hq : QueryUnescape (trimLeading r.Path "/download/") with
        | none =>
          have hm2 : ¬ (r.Method ≠ "GET" ∧ r.Method ≠ "HEAD") := by
            rcases hm with h | h <;> simp [h]
          unfold handleDownload
          rw [if_neg hm2, if_neg hm2]
          simp only [if_neg hne, hq]
        | some decoded =>
          rw [handleDownload_decoded env _ r decoded hm hne hq,
            handleDownload_decoded env _ r decoded hm hne hq]
          by_cases hc : startsWith (Join [uploadDir, decoded]).render
              ((cleanPath uploadDir).render ++ "/") = true
          · have hfs : fs1 (Join [uploadDir, decoded]) = fs2 (Join [uploadDir, decoded]) :=
              hagree _ (hbelow decoded hc)
            simp only [hc, Bool.not_true, Bool.false_eq_true, if_false, hfs,
              handleRangeDownload_congr fs1 fs2 _ _ _ _ hfs]
            cases fs2 (Join [uploadDir, decoded]) with
            | none => rfl
            | some n =>
              cases n with
              | dir => rfl
              | file data =>
                simp only
                split
                · rfl
                · split <;> rfl
          · simp only [hc, Bool.not_false, if_true]
    · have hm2 : r.Method ≠ "GET" ∧ r.Method ≠ "HEAD" := by
        constructor
        · exact fun h => hm (Or.inl h)
        · exact fun h => hm (Or.inr h)
      unfold handleDownload
      rw [if_pos hm2, if_pos hm2]
  · intro decoded hm hq hnb
    have hm2 : ¬ (r.Method ≠ "GET" ∧ r.Method ≠ "HEAD") := by
      rcases hm with h | h <;> simp [h]
    by_cases hne : trimLeading r.Path "/download/" = ""
    · refine ⟨httpError [] "File path not provided" 400, rfl, fun fs => ?_⟩
      unfold handleDownload
      rw [if_neg hm2]
      simp only [if_pos hne]
    · refine ⟨httpError [] "Invalid file path" 400, rfl, fun fs => ?_⟩
      rw [handleDownload_decoded env _ r decoded hm hne hq]
      have hc : ¬ startsWith (Join [uploadDir, decoded]).render
          ((cleanPath uploadDir).render ++ "/") = true := by
        intro h
        rw [hbelow decoded h] at hnb
        cases hnb
      simp only [hc, Bool.not_false, if_true]

/-- Witness of `download_path_safety`: the request path `/download/%2e%2e/secret` decodes to
`../secret`, which joined with the upload root is `secret`. -/
theorem download_path_safety_witness :
    QueryUnescape (trimLeading "/download/%2e%2e/secret" "/download/") = some "../secret" ∧
    Join [uploadDir, "../secret"] = { rooted := false, comps := ["secret"] } ∧
    ∃ resp : Response, resp.Status = 400 ∧
      ∀ fs : FS, handleDownload (demoEnv "a.bin" 5) { demoServer with fs := fs }
          (bareRequest "GET" "/download/%2e%2e/secret") =
        ({ demoServer with fs := fs }, resp) :=
  ⟨by decide, by decide,
    (download_path_safety (demoEnv "a.bin" 5) demoServer
      (bareRequest "GET" "/download/%2e%2e/secret")).2.2 "../secret" (by decide) (by decide)
      (by decide)⟩

/-! ## Authorization -/

/-- **C12.** With an empty configured key the wrapped handler answers every request.  With a
non-empty key it answers exactly the requests whose `X-Service-Key` header equals the key;
every other request (header missing, empty or different) is answered 401 with the server
unchanged, and the reply is the same whatever handler is wrapped, so the wrapped handler is
not run. -/
theorem auth_gating (next : Handler) (s : Server) (r : Request) :
    (s.serviceKey = "" → authMiddleware next s r = next s r) ∧
    (s.serviceKey ≠ "" → r.Header.get authHeader = s.serviceKey →
      authMiddleware next s r = next s r) ∧
    (s.serviceKey ≠ "" → r.Header.get authHeader ≠ s.serviceKey →
      ∃ msg, ∀ other : Handler, authMiddleware other s r = (s, httpError [] msg 401)) := by
  refine ⟨?_, ?_, ?_⟩
  · intro h
    simp [authMiddleware, h]
  · intro h hk
    have hne : r.Header.get authHeader ≠ "" := by rw [hk]; exact h
    simp [authMiddleware, h, hk]
  · intro h hk
    by_cases he : r.Header.get authHeader = ""
    · exact ⟨"Service key required", fun other => by simp [authMiddleware, h, he]⟩
    · exact ⟨"Invalid service key", fun other => by simp [authMiddleware, h, he, hk]⟩

/-- Witness of `auth_gating`: a server with key `k`, a request that carries the key and one
that carries another value. -/
theorem auth_gating_witness :
    authMiddleware (handleUploadStatus (demoEnv "a.bin" 5))
        { demoServer with serviceKey := "k" }
        { bareRequest "GET" "/upload/status/x" with Header := [(authHeader, "k")] } =
      handleUploadStatus (demoEnv "a.bin" 5) { demoServer with serviceKey := "k" }
        { bareRequest "GET" "/upload/status/x" with Header := [(authHeader, "k")] } ∧
    ∃ msg, ∀ other : Handler,
      authMiddleware other { demoServer with serviceKey := "k" }
          { bareRequest "GET" "/upload/status/x" with Header := [(authHeader, "K")] } =
        ({ demoServer with serviceKey := "k" }, httpError [] msg 401) :=
  ⟨(auth_gating _ { demoServer with serviceKey := "k" }
      { bareRequest "GET" "/upload/status/x" with Header := [(authHeader, "k")] }).2.1
      (by decide) (by decide),
    (auth_gating (handleUploadStatus (demoEnv "a.bin" 5)) { demoServer with serviceKey := "k" }
      { bareRequest "GET" "/upload/status/x" with Header := [(authHeader, "K")] }).2.2
      (by decide) (by decide)⟩

/-! ## Status endpoints -/

/-- The per-chunk status route looks the session up under the id followed by `/chunks`. -/
theorem handleUploadStatus_chunks (env : Env) (s : Server) (r : Request) (h : r.Method = "GET")
    (hs : endsWith r.Path "/chunks" = true) :
    handleUploadStatus env s r =
      handleChunkStatus env s (trimLeading r.Path "/upload/status/") := by
  simp [handleUploadStatus, h, hs]

/-- A request whose path ends in `/chunks` is answered 404 unless the registry has a key
that itself ends in `/chunks`. -/
theorem chunksProbe_notFound (env : Env) (s : Server) (r : Request) (h : r.Method = "GET")
    (hs : endsWith r.Path "/chunks" = true)
    (hnone : s.uploadStatuses (trimLeading r.Path "/upload/status/") = none) :
    handleUploadStatus env s r = (s, httpError [] "Upload not found" 404) := by
  rw [handleUploadStatus_chunks env s r h hs]
  simp [handleChunkStatus, hnone]

/-- **C13.** Evaluation at the failing input: right after init has registered a session, the
GET of `/upload/status/<id>/chunks` is answered 404 "Upload not found", while the GET of
`/upload/status/<id>` is answered 200.  `handleUploadStatus` hands the path rest
`<id>/chunks` to `handleChunkStatus`, which looks that text up as a session id. -/
theorem chunk_status_probe_not_found :
    (demoSession "a.bin" 5).uploadStatuses (demoID "a.bin" 5) =
      some (demoStatus "a.bin" 5 [] 1) ∧
    (handleUploadStatus (demoEnv "a.bin" 5) (demoSession "a.bin" 5)
      (bareRequest "GET" ("/upload/status/" ++ demoID "a.bin" 5 ++ "/chunks"))).2 =
      httpError [] "Upload not found" 404 ∧
    (handleUploadStatus (demoEnv "a.bin" 5) (demoSession "a.bin" 5)
      (bareRequest "GET" ("/upload/status/" ++ demoID "a.bin" 5))).2.Status = 200 := by
  decide

/-! ## Comparing chunks -/

theorem compareLoop_filter (env : Env) (file : Node) (ss : ServerChunkStatus) (L : List Nat)
    (h : ∀ i ∈ L, compareVisit env file ss (i : Int) ≠ Visit.panic) :
    compareLoop env file ss L =
      some ((L.filter fun i : Nat => compareVisit env file ss (i : Int) = Visit.need).map
        fun i : Nat => (i : Int)) := by
  induction L with
  | nil => rfl
  | cons i rest ih =>
    have hi := h i (List.mem_cons_self _ _)
    have hr := ih fun j hj => h j (List.mem_cons_of_mem _ hj)
    rw [compareLoop]
    cases hv : compareVisit env file ss (i : Int) with
    | panic => exact absurd hv hi
    | pass =>
      simp only [hr]
      rw [List.filter_cons_of_neg (by simp [hv])]
    | need =>
      simp only [hr]
      rw [List.filter_cons_of_pos (by simp [hv])]
      rfl

/-- The offsets of `compareChunks` for an index whose lower offset `i · chunkSize` lies
below the total size: the start does not wrap, and the length is the rest of the file up to
one chunk, or a full chunk where `start + chunkSize` wraps around. -/
theorem compare_offsets (ss : ServerChunkStatus) (i : Int) (hcs : ss.ChunkSize = chunkSize)
    (h0 : 0 ≤ i) (h1 : i * chunkSize < ss.TotalSize) (h2 : ss.TotalSize ≤ maxInt64) :
    compareStart ss i = i * chunkSize ∧
    compareLen ss i =
      (if (i + 1) * chunkSize ≤ maxInt64 then min ((i + 1) * chunkSize) ss.TotalSize - i * chunkSize
       else chunkSize) := by
  have hc : chunkSize = 10485760 := by decide
  unfold maxInt64 at h2 ⊢
  rw [hc] at h1 ⊢
  have hs : compareStart ss i = i * 10485760 := by
    unfold compareStart
    rw [hcs, hc]
    exact wrap64_of_inRange _ (by unfold minInt64; omega) (by unfold maxInt64; omega)
  refine ⟨hs, ?_⟩
  unfold compareLen
  simp only [hs, hcs, hc]
  by_cases hfit : (i + 1) * 10485760 ≤ 2 ^ 63 - 1
  · have he : wrap64 (i * 10485760 + 10485760) = i * 10485760 + 10485760 :=
      wrap64_of_inRange _ (by unfold minInt64; omega) (by unfold maxInt64; omega)
    rw [he, if_pos hfit]
    by_cases hgt : i * 10485760 + 10485760 > ss.TotalSize
    · rw [if_pos hgt]
      rw [wrap64_of_inRange _ (by unfold minInt64; omega) (by unfold maxInt64; omega)]
      omega
    · rw [if_neg hgt]
      rw [wrap64_of_inRange _ (by unfold minInt64; omega) (by unfold maxInt64; omega)]
      omega
  · have he : wrap64 (i * 10485760 + 10485760) = i * 10485760 + 10485760 - 2 ^ 64 := by
      unfold wrap64
      omega
    rw [he, if_neg hfit]
    have hgt : ¬ (i * 10485760 + 10485760 - 2 ^ 64 > ss.TotalSize) := by omega
    rw [if_neg hgt]
    unfold wrap64
    omega

theorem compare_len_bounds (ss : ServerChunkStatus) (i : Int) (hcs : ss.ChunkSize = chunkSize)
    (h0 : 0 ≤ i) (h1 : i * chunkSize < ss.TotalSize) (h2 : ss.TotalSize ≤ maxInt64) :
    0 ≤ compareStart ss i ∧ 0 ≤ compareLen ss i ∧ compareLen ss i ≤ chunkSize := by
  obtain ⟨hs, hl⟩ := compare_offsets ss i hcs h0 h1 h2
  have hc : chunkSize = 10485760 := by decide
  rw [hs, hl]
  rw [hc] at h1 ⊢
  refine ⟨by omega, ?_, ?_⟩
  · split <;> omega
  · split <;> omega
theorem hexDigit_injective (m n : Nat) (hm : m < 16) (hn : n < 16)
    (h : hexDigit m = hexDigit n) : m = n := by
  have key : ∀ a b : Fin 16, hexDigit a.val = hexDigit b.val → a = b := by decide
  exact congrArg Fin.val (key ⟨m, hm⟩ ⟨n, hn⟩ h)

/-- The encoding `hex.EncodeToString` loses nothing. -/
theorem hexEncode_injective (a b : Bytes) (h : hexEncode a = hexEncode b) : a = b := by
  have hd : (a.flatMap fun x => [hexDigit (x.toNat / 16), hexDigit (x.toNat % 16)]) =
      (b.flatMap fun x => [hexDigit (x.toNat / 16), hexDigit (x.toNat % 16)]) :=
    congrArg String.data h
  clear h
  induction a generalizing b with
  | nil =>
    cases b with
    | nil => rfl
    | cons y ys => simp [List.flatMap_cons] at hd
  | cons x xs ih =>
    cases b with
    | nil => simp [List.flatMap_cons] at hd
    | cons y ys =>
      simp only [List.flatMap_cons, List.cons_append, List.nil_append, List.cons.injEq] at hd
      obtain ⟨h1, h2, h3⟩ := hd
      have hx : x.toNat < 256 := x.toNat_lt
      have hy : y.toNat < 256 := y.toNat_lt
      have e1 := hexDigit_injective _ _ (by omega) (by omega) h1
      have e2 := hexDigit_injective _ _ (by omega) (by omega) h2
      have hxy : x.toNat = y.toNat := by omega
      have : x = y := UInt8.ext hxy
      rw [this, ih ys h3]

/-- Where no offset wraps around and the seek succeeds, a pass of the loop of `compareChunks`
appends the index exactly when the spec-side test holds. -/
theorem compareVisit_spec (env : Env) (data : Bytes) (ss : ServerChunkStatus) (i : Int)
    (hcs : ss.ChunkSize = chunkSize) (h0 : 0 ≤ i) (h1 : i * chunkSize < ss.TotalSize)
    (h2 : (i + 1) * chunkSize ≤ maxInt64) (h3 : ss.TotalSize ≤ maxInt64)
    (h4 : i * chunkSize ≤ env.maxOffset) :
    compareVisit env (Node.file data) ss i =
      if neededSpec env data ss i = true then Visit.need else Visit.pass := by
  obtain ⟨hs, hl⟩ := compare_offsets ss i hcs h0 h1 h3
  obtain ⟨b0, b1, b2⟩ := compare_len_bounds ss i hcs h0 h1 h3
  rw [if_pos h2] at hl
  have hread : readFull data (compareStart ss i) (compareLen ss i) =
      localChunk data ss.TotalSize i := by
    unfold readFull localChunk
    rw [hs, hl]
  have hin : ¬ (compareStart ss i < 0 ∨ compareStart ss i > env.maxOffset) := by
    rw [hs] at b0 ⊢
    omega
  unfold compareVisit neededSpec
  rw [if_neg hin, if_neg (by omega)]
  simp only [readFullOf, hread]
  cases chunkEntry ss i with
  | none => simp
  | some e =>
    cases e.Exists <;> simp

theorem range_cast_pairwise (L : List Nat) (h : L.Pairwise (· < ·)) :
    (L.map fun i : Nat => (i : Int)).Pairwise (· < ·) := by
  rw [List.pairwise_map]
  exact h.imp (fun hab => by exact_mod_cast hab)
/-- **C14 (amended).** For a local regular file and a server chunk status with
`chunk_size = 10 MiB`, `total_chunks = ceil(total_size / chunk_size)`,
`total_chunks · chunk_size ≤ 2^63 - 1` and every chunk start `i · chunk_size`
(`i < total_chunks`) an offset that the file system of the local file lets the client seek
to, `compareChunks` returns a list that is strictly ascending and holds exactly the indices
`i` in `0 .. total_chunks-1` for which the server has no entry, reports `exists = false`, or
reports a hash other than the hex digest of the local bytes in
`[i·chunk_size, min((i+1)·chunk_size, total_size))`.  So an index whose entry carries the hex
digest of staged bytes with a digest other than that of the local bytes is in the list.  (An
index whose seek fails is left out of the list whatever the server reports.) -/
theorem compareChunks_spec (env : Env) (data : Bytes) (ss : ServerChunkStatus)
    (hcs : ss.ChunkSize = chunkSize)
    (hn : Int.ceil ((ss.TotalSize : ℚ) / ((chunkSize : Int) : ℚ)) = ss.TotalChunks)
    (hfit : ss.TotalChunks * chunkSize ≤ maxInt64)
    (hseek : ∀ i : Int, 0 ≤ i → i < ss.TotalChunks → i * chunkSize ≤ env.maxOffset) :
    ∃ l, compareChunks env (some (Node.file data)) ss = some l ∧
      l.Pairwise (· < ·) ∧
      (∀ i, i ∈ l ↔ 0 ≤ i ∧ i < ss.TotalChunks ∧ neededSpec env data ss i = true) ∧
      (∀ i serverChunk staged, 0 ≤ i → i < ss.TotalChunks →
        chunkEntry ss i = some serverChunk →
        serverChunk.Hash = hexEncode (env.sha256 staged) →
        env.sha256 staged ≠ env.sha256 (localChunk data ss.TotalSize i) → i ∈ l) := by
  have hc : chunkSize = 10485760 := by decide
  obtain ⟨hlo, hhi⟩ := (ceil_chunk_iff ss.TotalSize ss.TotalChunks).1 hn
  have hts : ss.TotalSize ≤ maxInt64 := le_trans hhi hfit
  have hvisit : ∀ i : Int, 0 ≤ i → i < ss.TotalChunks →
      compareVisit env (Node.file data) ss i =
        if neededSpec env data ss i = true then Visit.need else Visit.pass := by
    intro i h0 h1
    apply compareVisit_spec env data ss i hcs h0 _ _ hts (hseek i h0 h1)
    · rw [hc] at hlo ⊢; omega
    · rw [hc] at hfit ⊢; omega
  have hmem : ∀ i : Int,
      i ∈ ((List.range ss.TotalChunks.toNat).filter fun k : Nat =>
          compareVisit env (Node.file data) ss (k : Int) = Visit.need).map
          (fun k : Nat => (k : Int)) ↔
        0 ≤ i ∧ i < ss.TotalChunks ∧ neededSpec env data ss i = true := by
    intro i
    simp only [List.mem_map, List.mem_filter, List.mem_range, decide_eq_true_eq]
    constructor
    · rintro ⟨k, ⟨hk, hv⟩, rfl⟩
      have h0 : (0 : Int) ≤ (k : Int) := Int.ofNat_nonneg k
      have h1 : (k : Int) < ss.TotalChunks := by omega
      refine ⟨h0, h1, ?_⟩
      rw [hvisit _ h0 h1] at hv
      by_contra hne
      rw [if_neg hne] at hv
      cases hv
    · rintro ⟨h0, h1, hneed⟩
      refine ⟨i.toNat, ⟨by omega, ?_⟩, by omega⟩
      have hi : ((i.toNat : Nat) : Int) = i := by omega
      rw [hi, hvisit i h0 h1, if_pos hneed]
  refine ⟨_, ?_, ?_, hmem, ?_⟩
  · unfold compareChunks
    simp only
    apply compareLoop_filter
    intro k hk
    have hk' := List.mem_range.1 hk
    rw [hvisit _ (Int.ofNat_nonneg k) (by omega)]
    split <;> simp
  · exact range_cast_pairwise _ ((List.pairwise_lt_range _).filter _)
  · intro i serverChunk staged h0 h1 he hh hne
    rw [hmem]
    refine ⟨h0, h1, ?_⟩
    unfold neededSpec
    rw [he]
    have : serverChunk.Hash ≠ hexEncode (env.sha256 (localChunk data ss.TotalSize i)) := by
      rw [hh]
      exact fun e => hne (hexEncode_injective _ _ e)
    simp [this]
/-- Witness of `compareChunks_spec`: a file of three bytes whose first byte was edited after
the chunk was staged. -/
theorem compareChunks_spec_witness :
    compareChunks (demoEnv "a.bin" 3) (some (Node.file [9, 2, 3])) smallStatus = some [0] ∧
    ∃ l, compareChunks (demoEnv "a.bin" 3) (some (Node.file [9, 2, 3])) smallStatus = some l ∧
      l.Pairwise (· < ·) ∧
      (∀ i, i ∈ l ↔ 0 ≤ i ∧ i < smallStatus.TotalChunks ∧
        neededSpec (demoEnv "a.bin" 3) [9, 2, 3] smallStatus i = true) ∧
      (∀ i serverChunk staged, 0 ≤ i → i < smallStatus.TotalChunks →
        chunkEntry smallStatus i = some serverChunk →
        serverChunk.Hash = hexEncode ((demoEnv "a.bin" 3).sha256 staged) →
        (demoEnv "a.bin" 3).sha256 staged ≠
          (demoEnv "a.bin" 3).sha256 (localChunk [9, 2, 3] smallStatus.TotalSize i) → i ∈ l) :=
  ⟨by decide,
    compareChunks_spec (demoEnv "a.bin" 3) [9, 2, 3] smallStatus rfl
      ((ceil_chunk_iff 3 1).2 (by decide)) (by decide)
      (fun i h0 h1 => by
        have h2 : i < 1 := h1
        have h3 : i = 0 := by omega
        rw [h3]
        decide)⟩

theorem limit_last_offsets :
    compareStart limitStatus 879609302220 = 9223372036846387200 ∧
    compareLen limitStatus 879609302220 = 10485760 := by
  have h := compare_offsets limitStatus 879609302220 rfl (by decide) (by decide) (by decide)
  rw [if_neg (by decide)] at h
  exact ⟨h.1.trans (by decide), h.2.trans (by decide)⟩

/-- **C14, counterexample.** On a file system that accepts every `int64` offset: with
`total_size = 2^63 - 100` the chunk count is 879609302221 and the last chunk has 8388508
bytes.  The server reports that chunk with the digest of the
local bytes in its range, so the index is not needed; but `end := start + chunk_size` wraps
around, `compareChunks` hashes all 8388607 bytes the local file of `2^63 - 1` bytes holds
from the chunk start on, and returns the index. -/
theorem compareChunks_at_int64_limit :
    Int.ceil (((limitStatus.TotalSize : Int) : ℚ) / ((chunkSize : Int) : ℚ)) =
      limitStatus.TotalChunks ∧
    limitStatus.ChunkSize = chunkSize ∧
    neededSpec limitEnv limitFile limitStatus 879609302220 = false ∧
    ∃ l, compareChunks limitEnv (some (Node.file limitFile)) limitStatus = some l ∧
      (879609302220 : Int) ∈ l := by
  have hentry : chunkEntry limitStatus 879609302220 =
      some { Exists := true, Size := 8388508, Hash := "9c" } := by decide
  have hlocal : localChunk limitFile limitStatus.TotalSize 879609302220 =
      List.replicate 8388508 0 := by
    unfold localChunk limitFile
    rw [List.drop_replicate, List.take_replicate]
    congr 1
  have hread : readFull limitFile 9223372036846387200 10485760 = List.replicate 8388607 0 := by
    unfold readFull limitFile
    rw [List.drop_replicate, List.take_replicate]
    congr 1
  have hd1 : hexEncode (limitEnv.sha256 (List.replicate 8388508 0)) = "9c" := by
    show hexEncode [UInt8.ofNat (List.replicate 8388508 (0 : Byte)).length] = "9c"
    rw [List.length_replicate]
    decide
  have hd2 : hexEncode (limitEnv.sha256 (List.replicate 8388607 0)) = "ff" := by
    show hexEncode [UInt8.ofNat (List.replicate 8388607 (0 : Byte)).length] = "ff"
    rw [List.length_replicate]
    decide
  have hloop : compareChunks limitEnv (some (Node.file limitFile)) limitStatus =
      some (((List.range limitStatus.TotalChunks.toNat).filter fun k : Nat =>
        compareVisit limitEnv (Node.file limitFile) limitStatus (k : Int) = Visit.need).map
        fun k : Nat => (k : Int)) := by
    unfold compareChunks
    simp only
    apply compareLoop_filter
    intro k hk
    have hk' := List.mem_range.1 hk
    have hkt : (k : Int) < 879609302221 := by
      have : limitStatus.TotalChunks.toNat = 879609302221 := by decide
      omega
    have hb := compare_len_bounds limitStatus (k : Int) rfl (Int.ofNat_nonneg k)
      (by
        have hc : chunkSize = 10485760 := by decide
        have ht : limitStatus.TotalSize = 2 ^ 63 - 100 := rfl
        rw [hc, ht]; omega)
      (by decide)
    have hlim : compareStart limitStatus (k : Int) ≤ limitEnv.maxOffset := by
      have ho := (compare_offsets limitStatus (k : Int) rfl (Int.ofNat_nonneg k)
        (by
          have hc : chunkSize = 10485760 := by decide
          have ht : limitStatus.TotalSize = 2 ^ 63 - 100 := rfl
          rw [hc, ht]; omega)
        (by decide)).1
      have hc : chunkSize = 10485760 := by decide
      have hm : limitEnv.maxOffset = 2 ^ 63 - 1 := rfl
      rw [ho, hc, hm]
      omega
    have hin : ¬ (compareStart limitStatus (k : Int) < 0 ∨
        compareStart limitStatus (k : Int) > limitEnv.maxOffset) := by omega
    unfold compareVisit
    rw [if_neg hin, if_neg (by omega)]
    simp only [readFullOf]
    split
    · simp
    · split <;> simp
  refine ⟨(ceil_chunk_iff _ _).2 (by decide), rfl, ?_, _, hloop, ?_⟩
  · unfold neededSpec
    rw [hentry]
    simp only [hlocal, hd1]
    decide
  · rw [List.mem_map]
    refine ⟨879609302220, ?_, rfl⟩
    rw [List.mem_filter]
    refine ⟨List.mem_range.2 (by decide), ?_⟩
    have hv : compareVisit limitEnv (Node.file limitFile) limitStatus 879609302220 =
        Visit.need := by
      have hm : limitEnv.maxOffset = 9223372036854775807 := rfl
      unfold compareVisit
      rw [limit_last_offsets.1, limit_last_offsets.2, hm]
      rw [if_neg (by decide), if_neg (by decide)]
      simp only [readFullOf, hread, hd2, hentry]
      decide
    simpa using hv

/-! ## The retry loop of the pump -/

theorem httpDo_trace (c : Client) (w : World) (req : Request) :
    (httpDo c w req).1.trace =
      w.trace ++ [Event.http req.Method req.Path
        ((httpDo c w req).2.map fun resp => resp.Status)] := by
  have hm : (if c.key = "" then req
      else { req with Header := req.Header.set authHeader c.key }).Method = req.Method := by
    split <;> rfl
  have hp : (if c.key = "" then req
      else { req with Header := req.Header.set authHeader c.key }).Path = req.Path := by
    split <;> rfl
  unfold httpDo
  simp only
  split
  · simp only [Option.map, hm, hp]
  · simp only [Option.map, hm, hp]

theorem failedReply_status (o : Option Response) (h : failedReply o = true) :
    (o.map fun resp => resp.Status) ≠ some 200 := by
  cases o with
  | none => simp
  | some resp =>
    simp only [failedReply, decide_eq_true_eq] at h
    simpa using h

/-- One pass of the retry loop whose attempt fails. -/
theorem retryLoop_failed (c : Client) (env : Env) (req : Request) (chunkNum : Int)
    (left retry : Nat) (p : Pump) (h : failedReply (httpDo c p.world req).2 = true) :
    retryLoop c env req chunkNum (left + 1) retry p =
      if retry = maxRetries - 1 then
        { p with world := (httpDo c p.world req).1, errors := p.errors ++ [chunkNum] }
      else
        retryLoop c env req chunkNum left (retry + 1)
          { p with world := afterAttempt c req p.world (retry + 1) } := by
  rw [retryLoop]
  have hg : (match (httpDo c p.world req).2 with
      | some resp => decide (resp.Status = 200)
      | none => false) = false := by
    cases ho : (httpDo c p.world req).2 with
    | none => rfl
    | some resp =>
      rw [ho] at h
      simp only [failedReply, decide_eq_true_eq] at h
      simp [h]
  simp only [hg]
  rfl

/-- Three failed attempts in a row: the loop pauses one second and two seconds, and after
the third failure it sends the chunk number to the error channel. -/
theorem retryLoop_three_failures (c : Client) (env : Env) (req : Request) (chunkNum : Int)
    (p : Pump)
    (h1 : failedReply (httpDo c p.world req).2 = true)
    (h2 : failedReply (httpDo c (afterAttempt c req p.world 1) req).2 = true)
    (h3 : failedReply
      (httpDo c (afterAttempt c req (afterAttempt c req p.world 1) 2) req).2 = true) :
    retryLoop c env req chunkNum maxRetries 0 p =
      { p with
        world := (httpDo c (afterAttempt c req (afterAttempt c req p.world 1) 2) req).1
        errors := p.errors ++ [chunkNum] } := by
  have hm : maxRetries = 2 + 1 := rfl
  rw [hm, retryLoop_failed c env req chunkNum 2 0 p h1, if_neg (by decide)]
  rw [retryLoop_failed c env req chunkNum 1 1 _ h2, if_neg (by decide)]
  rw [retryLoop_failed c env req chunkNum 0 2 _ h3, if_pos (by decide)]

/-- The log after three attempts with the pauses of the retry loop between them. -/
theorem attempts_trace (c : Client) (req : Request) (w : World) :
    (httpDo c (afterAttempt c req (afterAttempt c req w 1) 2) req).1.trace =
      w.trace ++ [Event.http req.Method req.Path ((httpDo c w req).2.map fun r => r.Status),
        Event.slept 1,
        Event.http req.Method req.Path
          ((httpDo c (afterAttempt c req w 1) req).2.map fun r => r.Status),
        Event.slept 2,
        Event.http req.Method req.Path
          ((httpDo c (afterAttempt c req (afterAttempt c req w 1) 2) req).2.map
            fun r => r.Status)] := by
  have h2 : (afterAttempt c req (afterAttempt c req w 1) 2).trace =
      (httpDo c (afterAttempt c req w 1) req).1.trace ++ [Event.slept 2] := rfl
  have h1 : (afterAttempt c req w 1).trace = (httpDo c w req).1.trace ++ [Event.slept 1] := rfl
  rw [httpDo_trace, h2, httpDo_trace, h1, httpDo_trace]
  simp [List.append_assoc]

/-- The log after three failed attempts. -/
theorem three_failures_trace (c : Client) (req : Request) (w : World)
    (h1 : failedReply (httpDo c w req).2 = true)
    (h2 : failedReply (httpDo c (afterAttempt c req w 1) req).2 = true)
    (h3 : failedReply (httpDo c (afterAttempt c req (afterAttempt c req w 1) 2) req).2 = true) :
    ∃ s1 s2 s3 : Option Nat, s1 ≠ some 200 ∧ s2 ≠ some 200 ∧ s3 ≠ some 200 ∧
      (httpDo c (afterAttempt c req (afterAttempt c req w 1) 2) req).1.trace =
        w.trace ++ [Event.http req.Method req.Path s1, Event.slept 1,
          Event.http req.Method req.Path s2, Event.slept 2,
          Event.http req.Method req.Path s3] :=
  ⟨_, _, _, failedReply_status _ h1, failedReply_status _ h2, failedReply_status _ h3,
    attempts_trace c req w⟩

/-- **C18 (amended).** A pump worker whose POST fails on every attempt (transport error or a
status other than 200) makes exactly three attempts, `maxRetries` in all, pausing 1 second
after the first and 2 seconds after the second failure; after the third failure it reports
the chunk to the error channel without a further pause or attempt. -/
theorem worker_gives_up_after_third_failure (c : Client) (env : Env) (fileID : String)
    (fileSize : Int) (file : Node) (chunkNum : Int) (chunk : Bytes) (p : Pump)
    (hlen : 0 ≤ pumpChunkLen fileSize chunkNum ∧ pumpChunkLen fileSize chunkNum ≤ maxAlloc)
    (hread : readAt file (pumpStart chunkNum) (pumpChunkLen fileSize chunkNum) = some chunk)
    (h1 : failedReply (httpDo c p.world (chunkRequest fileID chunkNum chunk)).2 = true)
    (h2 : failedReply (httpDo c (afterAttempt c (chunkRequest fileID chunkNum chunk) p.world 1)
      (chunkRequest fileID chunkNum chunk)).2 = true)
    (h3 : failedReply (httpDo c (afterAttempt c (chunkRequest fileID chunkNum chunk)
      (afterAttempt c (chunkRequest fileID chunkNum chunk) p.world 1) 2)
      (chunkRequest fileID chunkNum chunk)).2 = true) :
    (pumpWorker c env fileID fileSize file chunkNum p).errors = p.errors ++ [chunkNum] ∧
    (pumpWorker c env fileID fileSize file chunkNum p).state = p.state ∧
    ∃ s1 s2 s3 : Option Nat, s1 ≠ some 200 ∧ s2 ≠ some 200 ∧ s3 ≠ some 200 ∧
      (pumpWorker c env fileID fileSize file chunkNum p).world.trace =
        p.world.trace ++
          [Event.http "POST" ("/upload/chunk/" ++ fileID ++ "/" ++ sprintInt chunkNum) s1,
           Event.slept 1,
           Event.http "POST" ("/upload/chunk/" ++ fileID ++ "/" ++ sprintInt chunkNum) s2,
           Event.slept 2,
           Event.http "POST" ("/upload/chunk/" ++ fileID ++ "/" ++ sprintInt chunkNum) s3] := by
  have hw : pumpWorker c env fileID fileSize file chunkNum p =
      retryLoop c env (chunkRequest fileID chunkNum chunk) chunkNum maxRetries 0 p := by
    unfold pumpWorker
    rw [if_neg (by omega), hread]
  rw [hw, retryLoop_three_failures c env _ chunkNum p h1 h2 h3]
  exact ⟨rfl, rfl, three_failures_trace c (chunkRequest fileID chunkNum chunk) p.world h1 h2 h3⟩
/-- Witness of `worker_gives_up_after_third_failure`: three lost round trips, after which the
network would deliver again. -/
theorem worker_gives_up_after_third_failure_witness :
    (pumpWorker (demoClient (demoEnv "a.bin" 3)) (demoEnv "a.bin" 3) "s" 3
        (Node.file [1, 2, 3]) 0 (freshPump lossyWorld)).errors = [] ++ [0] ∧
    ∃ s1 s2 s3 : Option Nat, s1 ≠ some 200 ∧ s2 ≠ some 200 ∧ s3 ≠ some 200 ∧
      (pumpWorker (demoClient (demoEnv "a.bin" 3)) (demoEnv "a.bin" 3) "s" 3
          (Node.file [1, 2, 3]) 0 (freshPump lossyWorld)).world.trace =
        (freshPump lossyWorld).world.trace ++
          [Event.http "POST" ("/upload/chunk/" ++ "s" ++ "/" ++ sprintInt 0) s1,
           Event.slept 1,
           Event.http "POST" ("/upload/chunk/" ++ "s" ++ "/" ++ sprintInt 0) s2,
           Event.slept 2,
           Event.http "POST" ("/upload/chunk/" ++ "s" ++ "/" ++ sprintInt 0) s3] :=
  ⟨(worker_gives_up_after_third_failure (demoClient (demoEnv "a.bin" 3)) (demoEnv "a.bin" 3)
      "s" 3 (Node.file [1, 2, 3]) 0 [1, 2, 3] (freshPump lossyWorld) (by decide) (by decide)
      (by decide) (by decide) (by decide)).1,
    (worker_gives_up_after_third_failure (demoClient (demoEnv "a.bin" 3)) (demoEnv "a.bin" 3)
      "s" 3 (Node.file [1, 2, 3]) 0 [1, 2, 3] (freshPump lossyWorld) (by decide) (by decide)
      (by decide) (by decide) (by decide)).2.2⟩

set_option maxRecDepth 8000 in
/-- **C18, counterexample.** With the next three round trips lost and every later one
delivered, the worker of chunk 0 makes three attempts, pauses 1 and 2 seconds, and reports
the chunk as failed: there is no pause of 3 seconds and no fourth attempt, although the
network would have delivered it. -/
theorem worker_makes_no_fourth_attempt :
    (pumpWorker (demoClient (demoEnv "a.bin" 3)) (demoEnv "a.bin" 3) "s" 3
        (Node.file [1, 2, 3]) 0 (freshPump lossyWorld)).world.trace =
      [Event.http "POST" "/upload/chunk/s/0" none, Event.slept 1,
       Event.http "POST" "/upload/chunk/s/0" none, Event.slept 2,
       Event.http "POST" "/upload/chunk/s/0" none] ∧
    (pumpWorker (demoClient (demoEnv "a.bin" 3)) (demoEnv "a.bin" 3) "s" 3
        (Node.file [1, 2, 3]) 0 (freshPump lossyWorld)).errors = [0] ∧
    (pumpWorker (demoClient (demoEnv "a.bin" 3)) (demoEnv "a.bin" 3) "s" 3
        (Node.file [1, 2, 3]) 0 (freshPump lossyWorld)).world.net = [] := by
  decide

set_option maxRecDepth 8000 in
/-- **C19, counterexample.** Against the server right after start-up, which knows no
session, the POST of chunk 0 is answered 404 each time; the worker sends it three times,
with pauses of 1 and 2 seconds, before it reports the chunk as failed. -/
theorem not_found_is_retried :
    (pumpWorker (demoClient (demoEnv "a.bin" 3)) (demoEnv "a.bin" 3) "s" 3
        (Node.file [1, 2, 3]) 0 (freshPump (demoWorld demoServer [1, 2, 3]))).world.trace =
      [Event.http "POST" "/upload/chunk/s/0" (some 404), Event.slept 1,
       Event.http "POST" "/upload/chunk/s/0" (some 404), Event.slept 2,
       Event.http "POST" "/upload/chunk/s/0" (some 404)] ∧
    (pumpWorker (demoClient (demoEnv "a.bin" 3)) (demoEnv "a.bin" 3) "s" 3
        (Node.file [1, 2, 3]) 0 (freshPump (demoWorld demoServer [1, 2, 3]))).errors = [0] := by
  decide
/-! ## The pump against this server -/

theorem chunkRequest_path_data (id : String) (i : Int) (body : Bytes) :
    (chunkRequest id i body).Path.data =
      "/upload/chunk/".data ++ (id.data ++ '/' :: (sprintInt i).data) := by
  simp [chunkRequest, String.data_append]

/-- The mux hands a chunk POST to `handleChunkUpload` behind `authMiddleware`. -/
theorem serveMux_chunk (env : Env) (s : Server) (r : Request) (id : String) (i : Int)
    (hp : r.Path = (chunkRequest id i []).Path) :
    serveMux env s r = authMiddleware (handleChunkUpload env) s r := by
  have hd := chunkRequest_path_data id i []
  rw [← hp] at hd
  have h1 : r.Path ≠ "/upload/init" := by
    intro h
    rw [h] at hd
    have h8 := congrArg (fun l : List Char => l.get? 8) hd
    simp at h8
  have h2 : startsWith r.Path "/upload/chunk/" = true := by
    unfold startsWith
    rw [hd, dropLeading_append]
    rfl
  unfold serveMux
  rw [if_neg h1, if_pos h2]

/-- A chunk POST for a session the registry does not know. -/
theorem handleChunkUpload_unknown (env : Env) (s : Server) (r : Request) (id : String)
    (i : Nat) (hm : r.Method = "POST") (hp : r.Path = (chunkRequest id (i : Int) []).Path)
    (hid : '/' ∉ id.data) (hi : (i : Int) ≤ maxInt64) (hnone : s.uploadStatuses id = none) :
    handleChunkUpload env s r = (s, httpError [] "Upload not initialized" 404) := by
  have hparts : stringsSplit r.Path = ["", "upload", "chunk", id, sprintInt (i : Int)] := by
    rw [hp, chunkRequest_parts, stringsSplit_noSlash id hid]
    rfl
  have hA := Atoi_sprintInt_natCast i
  rw [if_pos hi] at hA
  unfold handleChunkUpload
  rw [if_neg (by simp [hm]), hparts]
  simp [hA, storeChunk, hnone]

/-- The round trip of a chunk POST against this server when the session is unknown, the
network delivers and the keys agree: the reply is 404 and nothing changes but the log. -/
theorem httpDo_unknown (envS : Env) (c : Client) (w : World) (id : String) (i : Nat)
    (body : Bytes) (hpeer : c.peer = serveMux envS) (hnet : w.net = [])
    (hkey : w.server.serviceKey = c.key) (hid : '/' ∉ id.data) (hi : (i : Int) ≤ maxInt64)
    (hnone : w.server.uploadStatuses id = none) :
    (httpDo c w (chunkRequest id (i : Int) body)).2 =
      some (httpError [] "Upload not initialized" 404) ∧
    (httpDo c w (chunkRequest id (i : Int) body)).1.server = w.server ∧
    (httpDo c w (chunkRequest id (i : Int) body)).1.net = [] := by
  have hserve : ∀ r : Request, r.Method = "POST" →
      r.Path = (chunkRequest id (i : Int) []).Path →
      (c.key ≠ "" → r.Header.get authHeader = c.key) →
      c.peer w.server r = (w.server, httpError [] "Upload not initialized" 404) := by
    intro r hm hp hh
    rw [hpeer, serveMux_chunk envS w.server r id i hp]
    have hin := handleChunkUpload_unknown envS w.server r id i hm hp hid hi hnone
    by_cases hk : c.key = ""
    · have : w.server.serviceKey = "" := hkey.trans hk
      simp [authMiddleware, this, hin]
    · have hne : w.server.serviceKey ≠ "" := fun e => hk (hkey.symm.trans e)
      have hg := hh hk
      have hg2 : r.Header.get authHeader = w.server.serviceKey := hg.trans hkey.symm
      simp [authMiddleware, hne, hg2, hin]
  unfold httpDo
  simp only [hnet]
  by_cases hk : c.key = ""
  · simp only [hk, if_true]
    rw [hserve (chunkRequest id (i : Int) body) rfl rfl (fun h => absurd hk h)]
    exact ⟨rfl, rfl, rfl⟩
  · simp only [hk, if_false]
    rw [hserve { chunkRequest id (i : Int) body with
        Header := (chunkRequest id (i : Int) body).Header.set authHeader c.key } rfl rfl
      (fun _ => Header.get_set_same _ _ _)]
    exact ⟨rfl, rfl, rfl⟩

/-- **C19 (amended).** A chunk POST that this server answers 404 because it does not know
the session is retried like any other failure: with the network delivering and the keys in
agreement, the worker sends the request three times, each answered 404, pauses 1 and 2
seconds in between, and then reports the chunk to the error channel; the server is left as
it was. -/
theorem unknown_session_is_retried (envS env : Env) (c : Client) (fileID : String)
    (fileSize : Int) (file : Node) (i : Nat) (chunk : Bytes) (p : Pump)
    (hpeer : c.peer = serveMux envS) (hnet : p.world.net = [])
    (hkey : p.world.server.serviceKey = c.key) (hid : '/' ∉ fileID.data)
    (hi : (i : Int) ≤ maxInt64) (hnone : p.world.server.uploadStatuses fileID = none)
    (hlen : 0 ≤ pumpChunkLen fileSize (i : Int) ∧ pumpChunkLen fileSize (i : Int) ≤ maxAlloc)
    (hread : readAt file (pumpStart (i : Int)) (pumpChunkLen fileSize (i : Int)) = some chunk) :
    (pumpWorker c env fileID fileSize file (i : Int) p).world.trace =
      p.world.trace ++
        [Event.http "POST" ("/upload/chunk/" ++ fileID ++ "/" ++ sprintInt (i : Int)) (some 404),
         Event.slept 1,
         Event.http "POST" ("/upload/chunk/" ++ fileID ++ "/" ++ sprintInt (i : Int)) (some 404),
         Event.slept 2,
         Event.http "POST" ("/upload/chunk/" ++ fileID ++ "/" ++ sprintInt (i : Int))
           (some 404)] ∧
    (pumpWorker c env fileID fileSize file (i : Int) p).errors = p.errors ++ [(i : Int)] ∧
    (pumpWorker c env fileID fileSize file (i : Int) p).world.server = p.world.server := by
  have a1 := httpDo_unknown envS c p.world fileID i chunk hpeer hnet hkey hid hi hnone
  have a2 := httpDo_unknown envS c (afterAttempt c (chunkRequest fileID (i : Int) chunk) p.world 1)
    fileID i chunk hpeer a1.2.2 (a1.2.1.symm ▸ hkey) hid hi (a1.2.1.symm ▸ hnone)
  have a3 := httpDo_unknown envS c
    (afterAttempt c (chunkRequest fileID (i : Int) chunk)
      (afterAttempt c (chunkRequest fileID (i : Int) chunk) p.world 1) 2)
    fileID i chunk hpeer a2.2.2
    (by
      show (httpDo c _ _).1.server.serviceKey = c.key
      rw [a2.2.1]; exact a1.2.1.symm ▸ hkey) hid hi
    (by
      show (httpDo c _ _).1.server.uploadStatuses fileID = none
      rw [a2.2.1]; exact a1.2.1.symm ▸ hnone)
  have hw : pumpWorker c env fileID fileSize file (i : Int) p =
      retryLoop c env (chunkRequest fileID (i : Int) chunk) (i : Int) maxRetries 0 p := by
    unfold pumpWorker
    rw [if_neg (by omega), hread]
  have hf : ∀ o : Option Response, o = some (httpError [] "Upload not initialized" 404) →
      failedReply o = true := by
    intro o ho; rw [ho]; decide
  rw [hw, retryLoop_three_failures c env _ (i : Int) p (hf _ a1.1) (hf _ a2.1) (hf _ a3.1)]
  refine ⟨?_, rfl, ?_⟩
  · show (httpDo c _ _).1.trace = _
    rw [attempts_trace, a1.1, a2.1, a3.1]
    rfl
  · show (httpDo c _ _).1.server = _
    rw [a3.2.1]
    show (httpDo c _ _).1.server = _
    rw [a2.2.1]
    exact a1.2.1
/-- Witness of `unknown_session_is_retried`: the server right after start-up and the chunk
of a file of three bytes. -/
theorem unknown_session_is_retried_witness :
    (pumpWorker (demoClient (demoEnv "a.bin" 3)) (demoEnv "a.bin" 3) "s" 3
        (Node.file [1, 2, 3]) ((0 : Nat) : Int)
        (freshPump (demoWorld demoServer [1, 2, 3]))).errors = [] ++ [((0 : Nat) : Int)] ∧
    (pumpWorker (demoClient (demoEnv "a.bin" 3)) (demoEnv "a.bin" 3) "s" 3
        (Node.file [1, 2, 3]) ((0 : Nat) : Int)
        (freshPump (demoWorld demoServer [1, 2, 3]))).world.server = demoServer :=
  (unknown_session_is_retried (demoEnv "a.bin" 3) (demoEnv "a.bin" 3)
    (demoClient (demoEnv "a.bin" 3)) "s" 3 (Node.file [1, 2, 3]) 0 [1, 2, 3]
    (freshPump (demoWorld demoServer [1, 2, 3])) rfl rfl rfl (by decide) (by decide) rfl
    (by decide) (by decide)).2

/-! ## What the pump leaves in the log -/

theorem Grows.same (P : Event → Prop) (w : World) : Grows P w w :=
  ⟨⟨[], by simp, by simp⟩, fun _ h => h, rfl⟩

theorem Grows.chain {P : Event → Prop} {w1 w2 w3 : World} (h12 : Grows P w1 w2)
    (h23 : Grows P w2 w3) : Grows P w1 w3 := by
  obtain ⟨⟨n1, e1, p1⟩, k1, f1⟩ := h12
  obtain ⟨⟨n2, e2, p2⟩, k2, f2⟩ := h23
  refine ⟨⟨n1 ++ n2, by rw [e2, e1, List.append_assoc], ?_⟩, fun n h => k2 n (k1 n h),
    f2.trans f1⟩
  intro e he
  rcases List.mem_append.1 he with h | h
  · exact p1 e h
  · exact p2 e h

theorem Grows.weaken {P Q : Event → Prop} {w1 w2 : World} (h : Grows P w1 w2)
    (hPQ : ∀ e, P e → Q e) : Grows Q w1 w2 := by
  obtain ⟨⟨n1, e1, p1⟩, k1, f1⟩ := h
  exact ⟨⟨n1, e1, fun e he => hPQ e (p1 e he)⟩, k1, f1⟩

theorem httpDo_stateDir (c : Client) (w : World) (req : Request) :
    (httpDo c w req).1.stateDir = w.stateDir ∧ (httpDo c w req).1.files = w.files := by
  unfold httpDo
  simp only
  split <;> exact ⟨rfl, rfl⟩

/-- A round trip adds one event to the log and leaves the local side alone. -/
theorem httpDo_grows (c : Client) (w : World) (req : Request) (P : Event → Prop)
    (hP : ∀ st, P (Event.http req.Method req.Path st)) : Grows P w (httpDo c w req).1 := by
  refine ⟨⟨_, httpDo_trace c w req, ?_⟩, ?_, (httpDo_stateDir c w req).2⟩
  · intro e he
    rw [List.mem_singleton] at he
    rw [he]
    exact hP _
  · intro name h
    unfold recordNames at h ⊢
    rw [(httpDo_stateDir c w req).1]
    exact h

theorem writeEntry_names (l : List (String × StateFile)) (name : String) (st : UploadState) :
    ∀ n ∈ l.map Prod.fst, n ∈ (writeEntry l name st).map Prod.fst := by
  induction l with
  | nil => intro n h; simp at h
  | cons x rest ih =>
    obtain ⟨k, f⟩ := x
    intro n h
    by_cases hk : k = name
    · rw [writeEntry, if_pos hk]
      exact h
    · by_cases hlt : name < k
      · rw [writeEntry, if_neg hk, if_pos hlt]
        exact List.mem_cons_of_mem _ h
      · rw [writeEntry, if_neg hk, if_neg hlt]
        simp only [List.map_cons, List.mem_cons] at h ⊢
        rcases h with h | h
        · exact Or.inl h
        · exact Or.inr (ih n h)

theorem saveUploadState_grows (env : Env) (w : World) (state : UploadState)
    (P : Event → Prop) (hP : ∀ n, P (Event.saved n)) :
    Grows P w (saveUploadState env w state).1 := by
  unfold saveUploadState
  split
  · exact Grows.same P w
  · refine ⟨⟨[Event.saved (state.FileID ++ ".json")], rfl, ?_⟩, ?_, rfl⟩
    · intro e he
      rw [List.mem_singleton] at he
      rw [he]
      exact hP _
    · intro n h
      exact writeEntry_names _ _ _ n h

theorem sleep_grows (w : World) (k : Nat) (P : Event → Prop) (hP : ∀ n, P (Event.slept n)) :
    Grows P w (sleep w k) := by
  refine ⟨⟨[Event.slept k], rfl, ?_⟩, fun _ h => h, rfl⟩
  intro e he
  rw [List.mem_singleton] at he
  rw [he]
  exact hP _

/-- The retry loop of the worker of chunk `j`: the log grows by events of that worker, and
when the loop makes at least one pass the chunk is POSTed. -/
theorem retryLoop_grows (c : Client) (env : Env) (fileID : String) (j : Int) (chunk : Bytes)
    (left : Nat) : ∀ (retry : Nat) (p : Pump),
    Grows (workerEvent fileID j) p.world
      (retryLoop c env (chunkRequest fileID j chunk) j left retry p).world ∧
    (retryLoop c env (chunkRequest fileID j chunk) j left retry p).panicked = p.panicked ∧
    (0 < left → posted fileID j
      (retryLoop c env (chunkRequest fileID j chunk) j left retry p).world.trace = true) := by
  have hhttp : ∀ st, workerEvent fileID j
      (Event.http (chunkRequest fileID j chunk).Method (chunkRequest fileID j chunk).Path st) :=
    fun st => ⟨rfl, rfl⟩
  have hposted : ∀ (w : World) (w2 : World),
      Grows (workerEvent fileID j) (httpDo c w (chunkRequest fileID j chunk)).1 w2 →
      posted fileID j w2.trace = true := by
    intro w w2 hg
    obtain ⟨⟨new, hnew, _⟩, _, _⟩ := hg
    rw [hnew, httpDo_trace]
    unfold posted
    simp [chunkRequest, chunkURL]
  induction left with
  | zero => intro retry p; exact ⟨Grows.same _ _, rfl, fun h => absurd h (by decide)⟩
  | succ left ih =>
    intro retry p
    have g1 := httpDo_grows c p.world (chunkRequest fileID j chunk) (workerEvent fileID j) hhttp
    rw [retryLoop]
    simp only
    split
    · have g2 := saveUploadState_grows env (httpDo c p.world (chunkRequest fileID j chunk)).1
        { p.state with Uploaded := p.state.Uploaded ++ [j], LastUpdate := env.now }
        (workerEvent fileID j) (fun _ => trivial)
      exact ⟨g1.chain g2, rfl, fun _ => hposted _ _ g2⟩
    · split
      · exact ⟨g1, rfl, fun _ => hposted _ _ (Grows.same _ _)⟩
      · have g2 := sleep_grows (httpDo c p.world (chunkRequest fileID j chunk)).1 (retry + 1)
          (workerEvent fileID j) (fun _ => trivial)
        obtain ⟨g3, hp3, _⟩ := ih (retry + 1)
          { p with world := sleep (httpDo c p.world (chunkRequest fileID j chunk)).1 (retry + 1) }
        exact ⟨(g1.chain g2).chain g3, hp3, fun _ => hposted _ _ (g2.chain g3)⟩

theorem chunkURL_injective (fileID : String) (i j : Int)
    (h : chunkURL fileID i = chunkURL fileID j) : i = j := by
  have := congrArg String.data h
  simp only [chunkURL, String.data_append, List.append_assoc, List.append_cancel_left_eq,
    sprintInt] at this
  exact fmtInt_injective i j this

theorem chunkURL_ne_complete (fileID other : String) (i : Int) :
    chunkURL fileID i ≠ "/upload/complete/" ++ other := by
  intro h
  have hd := congrArg (fun s : String => s.data.get? 9) h
  simp [chunkURL, String.data_append] at hd

theorem posted_append (fileID : String) (i : Int) (t new : List Event) :
    posted fileID i (t ++ new) = (posted fileID i t || posted fileID i new) := by
  unfold posted
  rw [List.any_append]

theorem posted_of_grows {P : Event → Prop} {w1 w2 : World} (fileID : String) (i : Int)
    (h : Grows P w1 w2) (hp : posted fileID i w1.trace = true) :
    posted fileID i w2.trace = true := by
  obtain ⟨⟨new, hnew, _⟩, _, _⟩ := h
  rw [hnew, posted_append, hp]
  rfl

/-- The worker of chunk `j`: the log grows by events of that worker, and only when the chunk
can be read; a worker that does not panic and can read its chunk POSTs it. -/
theorem pumpWorker_grows (c : Client) (env : Env) (fileID : String) (fileSize : Int)
    (file : Node) (j : Int) (p : Pump) :
    Grows (fun e => readable file fileSize j = true ∧ workerEvent fileID j e) p.world
      (pumpWorker c env fileID fileSize file j p).world ∧
    (p.panicked = true → (pumpWorker c env fileID fileSize file j p).panicked = true) ∧
    ((pumpWorker c env fileID fileSize file j p).panicked = false →
      readable file fileSize j = true →
      posted fileID j (pumpWorker c env fileID fileSize file j p).world.trace = true) := by
  unfold pumpWorker
  split
  · exact ⟨Grows.same _ _, fun _ => rfl, fun h => by simp at h⟩
  · cases hr : readAt file (pumpStart j) (pumpChunkLen fileSize j) with
    | none =>
      refine ⟨Grows.same _ _, fun h => h, fun _ h => ?_⟩
      unfold readable at h
      rw [hr] at h
      cases h
    | some chunk =>
      have hread : readable file fileSize j = true := by
        unfold readable; rw [hr]; rfl
      obtain ⟨g, hp, hpost⟩ := retryLoop_grows c env fileID j chunk maxRetries 0 p
      exact ⟨g.weaken fun e he => ⟨hread, he⟩, fun h => hp.trans h,
        fun _ _ => hpost (by decide)⟩

theorem pumpLoop_panicked (c : Client) (env : Env) (fileID : String) (fileSize : Int)
    (file : Node) (skip : List Int) (L : List Nat) (p : Pump) (h : p.panicked = true) :
    pumpLoop c env fileID fileSize file skip L p = p := by
  cases L with
  | nil => rfl
  | cons i rest => rw [pumpLoop, if_pos h]

/-- The loop that starts the workers: the log grows by events of the workers it starts, and
when no worker panics every index that is not skipped and whose chunk can be read is
POSTed. -/
theorem pumpLoop_grows (c : Client) (env : Env) (fileID : String) (fileSize : Int)
    (file : Node) (skip : List Int) (L : List Nat) : ∀ p : Pump,
    Grows (pumpEvent fileID fileSize file skip L) p.world
      (pumpLoop c env fileID fileSize file skip L p).world ∧
    ((pumpLoop c env fileID fileSize file skip L p).panicked = false →
      ∀ j ∈ L, (j : Int) ∉ skip → readable file fileSize (j : Int) = true →
      posted fileID (j : Int)
        (pumpLoop c env fileID fileSize file skip L p).world.trace = true) := by
  induction L with
  | nil =>
    intro p
    exact ⟨Grows.same _ _, fun _ j hj => absurd hj (List.not_mem_nil j)⟩
  | cons i rest ih =>
    intro p
    have hmono : ∀ e, pumpEvent fileID fileSize file skip rest e →
        pumpEvent fileID fileSize file skip (i :: rest) e := by
      rintro e ⟨j, hj, h⟩
      exact ⟨j, List.mem_cons_of_mem _ hj, h⟩
    rw [pumpLoop]
    split
    · next hpan =>
      refine ⟨Grows.same _ _, fun h => ?_⟩
      rw [hpan] at h
      cases h
    · split
      · next hskip =>
        obtain ⟨g, hpost⟩ := ih p
        refine ⟨g.weaken hmono, fun hnp j hj hjs hjr => ?_⟩
        rcases List.mem_cons.1 hj with h | h
        · subst h
          exact absurd hskip hjs
        · exact hpost hnp j h hjs hjr
      · next hskip =>
        obtain ⟨gw, hwpan, hwpost⟩ := pumpWorker_grows c env fileID fileSize file (i : Int) p
        obtain ⟨g, hpost⟩ := ih (pumpWorker c env fileID fileSize file (i : Int) p)
        have gw' : Grows (pumpEvent fileID fileSize file skip (i :: rest)) p.world
            (pumpWorker c env fileID fileSize file (i : Int) p).world :=
          gw.weaken fun e he => ⟨i, List.mem_cons_self _ _, hskip, he.1, he.2⟩
        refine ⟨gw'.chain (g.weaken hmono), fun hnp j hj hjs hjr => ?_⟩
        rcases List.mem_cons.1 hj with h | h
        · subst h
          have hwnp : (pumpWorker c env fileID fileSize file (j : Int) p).panicked = false := by
            by_contra hne
            have ht : (pumpWorker c env fileID fileSize file (j : Int) p).panicked = true := by
              simpa using hne
            rw [pumpLoop_panicked _ _ _ _ _ _ _ _ ht] at hnp
            rw [ht] at hnp
            cases hnp
          exact posted_of_grows fileID (j : Int) g (hwpost hwnp hjr)
        · exact hpost hnp j h hjs hjr

/-- The chunks POSTed by the loop that starts the workers, when no worker panics: besides
those POSTed before, exactly the visited indices that are not skipped and can be read. -/
theorem pumpLoop_posted (c : Client) (env : Env) (fileID : String) (fileSize : Int)
    (file : Node) (skip : List Int) (L : List Nat) (p : Pump)
    (hnp : (pumpLoop c env fileID fileSize file skip L p).panicked = false) (i : Int) :
    posted fileID i (pumpLoop c env fileID fileSize file skip L p).world.trace = true ↔
      posted fileID i p.world.trace = true ∨
        ∃ j ∈ L, (j : Int) = i ∧ i ∉ skip ∧ readable file fileSize i = true := by
  obtain ⟨g, hpost⟩ := pumpLoop_grows c env fileID fileSize file skip L p
  constructor
  · intro h
    obtain ⟨⟨new, hnew, hall⟩, _, _⟩ := g
    rw [hnew, posted_append, Bool.or_eq_true] at h
    rcases h with h | h
    · exact Or.inl h
    · right
      unfold posted at h
      rw [List.any_eq_true] at h
      obtain ⟨e, he, hm⟩ := h
      obtain ⟨j, hj, hjs, hjr, hw⟩ := hall e he
      cases e with
      | http m q st =>
        simp only [decide_eq_true_eq] at hm
        have hji : (j : Int) = i := chunkURL_injective fileID _ _ (hw.2.symm.trans hm.2)
        exact ⟨j, hj, hji, hji ▸ hjs, hji ▸ hjr⟩
      | slept n => simp at hm
      | saved n => simp at hm
      | removed n => simp at hm
  · rintro (h | ⟨j, hj, rfl, hjs, hjr⟩)
    · exact posted_of_grows fileID i g h
    · exact hpost hnp j hj hjs hjr
/-! ## The run of `uploadChunks` -/

theorem getUploadStatus_world (c : Client) (w : World) (fileID : String) :
    (getUploadStatus c w fileID).1 =
      (httpDo c w (bareRequest "GET" ("/upload/status/" ++ fileID))).1 := by
  unfold getUploadStatus
  simp only
  split
  · rfl
  · split <;> rfl

theorem getServerChunkStatus_world (c : Client) (w : World) (fileID : String) :
    (getServerChunkStatus c w fileID).1 =
      (httpDo c w (bareRequest "GET" ("/upload/status/" ++ fileID ++ "/chunks"))).1 := by
  unfold getServerChunkStatus
  simp only
  split
  · rfl
  · split <;> rfl

theorem getUploadStatus_grows (c : Client) (w : World) (fileID : String) :
    Grows getEvent w (getUploadStatus c w fileID).1 := by
  rw [getUploadStatus_world]
  exact httpDo_grows c w _ getEvent fun _ => rfl

theorem getServerChunkStatus_grows (c : Client) (w : World) (fileID : String) :
    Grows getEvent w (getServerChunkStatus c w fileID).1 := by
  rw [getServerChunkStatus_world]
  exact httpDo_grows c w _ getEvent fun _ => rfl

/-- Events that are no chunk POST leave the set of POSTed chunks as it is. -/
theorem posted_grows_other {P : Event → Prop} {w1 w2 : World} (fileID : String) (i : Int)
    (h : Grows P w1 w2)
    (hP : ∀ m q st, P (Event.http m q st) → ¬ (m = "POST" ∧ q = chunkURL fileID i)) :
    posted fileID i w2.trace = posted fileID i w1.trace := by
  obtain ⟨⟨new, hnew, hall⟩, _, _⟩ := h
  rw [hnew, posted_append]
  have : posted fileID i new = false := by
    unfold posted
    rw [List.any_eq_false]
    intro e he
    cases e with
    | http m q st =>
      have := hP m q st (hall _ he)
      simpa using this
    | slept n => simp
    | saved n => simp
    | removed n => simp
  rw [this, Bool.or_false]

theorem getEvent_upload (fileID : String) (e : Event) (h : getEvent e) : uploadEvent fileID e := by
  cases e with
  | http m q st => exact Or.inl h
  | slept n => exact h.elim
  | saved n => exact h.elim
  | removed n => exact h.elim

theorem pumpEvent_upload (fileID : String) (fileSize : Int) (file : Node) (skip : List Int)
    (L : List Nat) (e : Event) (h : pumpEvent fileID fileSize file skip L e) :
    uploadEvent fileID e := by
  obtain ⟨j, _, _, _, hw⟩ := h
  cases e with
  | http m q st => exact Or.inr ⟨hw.1, (j : Int), hw.2⟩
  | slept n => trivial
  | saved n => trivial
  | removed n => exact hw.elim

/-- Steps of `uploadChunks` before it finalizes send no finalize request and remove no
record. -/
theorem uploadEvents_keep {w1 w2 : World} (fileID : String)
    (h : Grows (uploadEvent fileID) w1 w2) :
    finalizeSent fileID w2.trace = finalizeSent fileID w1.trace ∧
    recordRemoved w2.trace = recordRemoved w1.trace := by
  obtain ⟨⟨new, hnew, hall⟩, _, _⟩ := h
  have h1 : finalizeSent fileID new = false := by
    unfold finalizeSent
    rw [List.any_eq_false]
    intro e he
    have hu := hall e he
    cases e with
    | http m q st =>
      rcases hu with hg | ⟨_, j, hq⟩
      · simp [hg]
      · have := chunkURL_ne_complete fileID fileID j
        simp [hq, this]
    | slept n => simp
    | saved n => simp
    | removed n => simp
  have h2 : recordRemoved new = false := by
    unfold recordRemoved
    rw [List.any_eq_false]
    intro e he
    have hu := hall e he
    cases e with
    | http m q st => simp
    | slept n => simp
    | saved n => simp
    | removed n => exact hu.elim
  constructor
  · rw [hnew]
    unfold finalizeSent at h1 ⊢
    rw [List.any_append, h1, Bool.or_false]
  · rw [hnew]
    unfold recordRemoved at h2 ⊢
    rw [List.any_append, h2, Bool.or_false]

/-- The ways in which the first part of `uploadChunks` can end: before the pump, with the
world left by the status request or by the per-chunk probe, or after the pump has visited
all indices. -/
theorem runPump_cases (c : Client) (env : Env) (w : World) (serverAddr fileID filePath : String)
    (fileSize : Int) :
    (∃ e, e ≠ Exit.done ∧ runPump c env w serverAddr fileID filePath fileSize =
        Sum.inl ((getUploadStatus c w fileID).1, e)) ∨
    (∃ e, e ≠ Exit.done ∧ runPump c env w serverAddr fileID filePath fileSize =
        Sum.inl ((getServerChunkStatus c (getUploadStatus c w fileID).1 fileID).1, e)) ∨
    ∃ status u1 file st0,
      (getUploadStatus c w fileID).2 = some status ∧
      afterProbe env ((getServerChunkStatus c (getUploadStatus c w fileID).1 fileID).1.files
        filePath) status (getServerChunkStatus c (getUploadStatus c w fileID).1 fileID).2 =
        some u1 ∧
      (getServerChunkStatus c (getUploadStatus c w fileID).1 fileID).1.files filePath =
        some file ∧
      0 ≤ status.TotalChunks ∧
      ((pumpLoop c env fileID fileSize file
          (afterRecord (getServerChunkStatus c (getUploadStatus c w fileID).1 fileID).1 fileID u1)
          (List.range status.TotalChunks.toNat)
          { world := (getServerChunkStatus c (getUploadStatus c w fileID).1 fileID).1,
            state := st0, errors := [], panicked := false }).panicked = true ∧
        runPump c env w serverAddr fileID filePath fileSize =
          Sum.inl ((pumpLoop c env fileID fileSize file
            (afterRecord (getServerChunkStatus c (getUploadStatus c w fileID).1 fileID).1 fileID
              u1)
            (List.range status.TotalChunks.toNat)
            { world := (getServerChunkStatus c (getUploadStatus c w fileID).1 fileID).1,
              state := st0, errors := [], panicked := false }).world, Exit.panicked) ∨
       (pumpLoop c env fileID fileSize file
          (afterRecord (getServerChunkStatus c (getUploadStatus c w fileID).1 fileID).1 fileID u1)
          (List.range status.TotalChunks.toNat)
          { world := (getServerChunkStatus c (getUploadStatus c w fileID).1 fileID).1,
            state := st0, errors := [], panicked := false }).panicked = false ∧
        runPump c env w serverAddr fileID filePath fileSize =
          Sum.inr (pumpLoop c env fileID fileSize file
            (afterRecord (getServerChunkStatus c (getUploadStatus c w fileID).1 fileID).1 fileID
              u1)
            (List.range status.TotalChunks.toNat)
            { world := (getServerChunkStatus c (getUploadStatus c w fileID).1 fileID).1,
              state := st0, errors := [], panicked := false })) := by
  unfold runPump
  simp only
  cases h1 : (getUploadStatus c w fileID).2 with
  | none => exact Or.inl ⟨_, (by intro h; cases h), rfl⟩
  | some status =>
    simp only
    cases h2 : afterProbe env
        ((getServerChunkStatus c (getUploadStatus c w fileID).1 fileID).1.files filePath) status
        (getServerChunkStatus c (getUploadStatus c w fileID).1 fileID).2 with
    | none => exact Or.inr (Or.inl ⟨_, (by intro h; cases h), rfl⟩)
    | some u1 =>
      simp only
      cases h3 : (getServerChunkStatus c (getUploadStatus c w fileID).1 fileID).1.files
          filePath with
      | none => exact Or.inr (Or.inl ⟨_, (by intro h; cases h), rfl⟩)
      | some file =>
        simp only
        by_cases h4 : status.TotalChunks < 0
        · rw [if_pos h4]
          exact Or.inr (Or.inl ⟨_, (by intro h; cases h), rfl⟩)
        · rw [if_neg h4]
          refine Or.inr (Or.inr ⟨status, u1, file,
            { FileID := fileID, FileName := status.FileName, FilePath := filePath,
              ServerAddr := serverAddr, TotalSize := status.TotalSize,
              TotalChunks := status.TotalChunks,
              Uploaded := afterRecord
                (getServerChunkStatus c (getUploadStatus c w fileID).1 fileID).1 fileID u1,
              StartTime := status.StartTime, LastUpdate := env.now, Completed := false,
              Checksum := "" },
            rfl, by rw [← h3]; exact h2, rfl, by omega, ?_⟩)
          split
          · next hp => exact Or.inl ⟨hp, rfl⟩
          · next hp => exact Or.inr ⟨by simpa using hp, rfl⟩
/-- Up to the end of the pump, `uploadChunks` only sends GET requests and chunk POSTs,
pauses and writes the record. -/
theorem runPump_grows (c : Client) (env : Env) (w : World) (serverAddr fileID filePath : String)
    (fileSize : Int) :
    (∀ r, runPump c env w serverAddr fileID filePath fileSize = Sum.inl r →
      Grows (uploadEvent fileID) w r.1) ∧
    (∀ p, runPump c env w serverAddr fileID filePath fileSize = Sum.inr p →
      Grows (uploadEvent fileID) w p.world) := by
  have g1 : Grows (uploadEvent fileID) w (getUploadStatus c w fileID).1 :=
    (getUploadStatus_grows c w fileID).weaken (getEvent_upload fileID)
  have g2 : Grows (uploadEvent fileID) w
      (getServerChunkStatus c (getUploadStatus c w fileID).1 fileID).1 :=
    g1.chain ((getServerChunkStatus_grows c _ fileID).weaken (getEvent_upload fileID))
  rcases runPump_cases c env w serverAddr fileID filePath fileSize with
    ⟨e, _, he⟩ | ⟨e, _, he⟩ | ⟨status, u1, file, st0, _, _, _, _, ⟨_, he⟩ | ⟨_, he⟩⟩
  · rw [he]
    exact ⟨fun r hr => (by cases hr; exact g1), fun p hp => (by cases hp)⟩
  · rw [he]
    exact ⟨fun r hr => (by cases hr; exact g2), fun p hp => (by cases hp)⟩
  · rw [he]
    refine ⟨fun r hr => ?_, fun p hp => by cases hp⟩
    cases hr
    exact g2.chain (((pumpLoop_grows c env fileID fileSize file _ _ _).1).weaken
      (pumpEvent_upload fileID fileSize file _ _))
  · rw [he]
    refine ⟨fun r hr => (by cases hr), fun p hp => ?_⟩
    cases hp
    exact g2.chain (((pumpLoop_grows c env fileID fileSize file _ _ _).1).weaken
      (pumpEvent_upload fileID fileSize file _ _))

theorem completeUpload_world (c : Client) (w : World) (fileID : String) :
    (completeUpload c w fileID).1 = (httpDo c w (completeRequest fileID)).1 := by
  unfold completeUpload
  simp only
  split
  · rfl
  · split
    · rfl
    · split <;> rfl

/-- `completeUpload` returns only when the finalize request was answered 200. -/
theorem completeUpload_done (c : Client) (w : World) (fileID : String)
    (h : (completeUpload c w fileID).2 = Exit.done) :
    ∃ resp, (httpDo c w (completeRequest fileID)).2 = some resp ∧ resp.Status = 200 := by
  unfold completeUpload at h
  simp only at h
  cases ho : (httpDo c w (completeRequest fileID)).2 with
  | none => rw [ho] at h; cases h
  | some resp =>
    rw [ho] at h
    simp only at h
    by_cases hs : resp.Status ≠ 200
    · rw [if_pos hs] at h; cases h
    · exact ⟨resp, rfl, by simpa using hs⟩

/-- A finalize request that fails in transport or is answered with another status than 200
ends the run. -/
theorem completeUpload_refused (c : Client) (w : World) (fileID : String)
    (h : ∀ resp, (httpDo c w (completeRequest fileID)).2 = some resp → resp.Status ≠ 200) :
    (completeUpload c w fileID).2 = Exit.fatal "Failed to complete upload" := by
  unfold completeUpload
  simp only
  cases ho : (httpDo c w (completeRequest fileID)).2 with
  | none => rfl
  | some resp =>
    simp only
    rw [if_pos (h resp ho)]

theorem httpDo_keeps_records (c : Client) (w : World) (req : Request) :
    recordRemoved (httpDo c w req).1.trace = recordRemoved w.trace ∧
    recordNames (httpDo c w req).1 = recordNames w := by
  constructor
  · rw [httpDo_trace]
    unfold recordRemoved
    rw [List.any_append]
    simp
  · unfold recordNames
    rw [(httpDo_stateDir c w req).1]

/-- The last part of `uploadChunks`, by the content of the error channel and the outcome of
`completeUpload`. -/
theorem finishUpload_cases (c : Client) (fileID : String) (p : Pump) :
    (p.errors ≠ [] ∧ finishUpload c fileID p = (p.world, Exit.fatal "Upload failed")) ∨
    (p.errors = [] ∧ (completeUpload c p.world fileID).2 ≠ Exit.done ∧
      finishUpload c fileID p =
        ((httpDo c p.world (completeRequest fileID)).1, (completeUpload c p.world fileID).2)) ∨
    (p.errors = [] ∧ (completeUpload c p.world fileID).2 = Exit.done ∧
      finishUpload c fileID p =
        (deleteUploadState (httpDo c p.world (completeRequest fileID)).1 fileID, Exit.done)) := by
  unfold finishUpload
  by_cases he : p.errors ≠ []
  · exact Or.inl ⟨he, by rw [if_pos he]⟩
  · rw [if_neg he]
    have he' : p.errors = [] := by simpa using he
    simp only [completeUpload_world]
    cases hx : (completeUpload c p.world fileID).2 with
    | done => exact Or.inr (Or.inr ⟨he', rfl, rfl⟩)
    | fatal msg => exact Or.inr (Or.inl ⟨he', by simp, rfl⟩)
    | panicked => exact Or.inr (Or.inl ⟨he', by simp, rfl⟩)
/-- **C20.** In `uploadChunks`: when a chunk worker has reported an error the run ends in
`log.Fatal` right after the pump, in the world the pump left, so the finalize request is not
sent and no record file is removed; when the finalize request fails or is answered with a
status other than 200 the run ends in `log.Fatal` and no record file is removed; in every
run that does not return, no record file is removed; and a run that returns has had no
worker error and a finalize reply with status 200, and only then removes the record. -/
theorem record_deleted_only_after_finalize (c : Client) (env : Env) (w : World)
    (serverAddr fileID filePath : String) (fileSize : Int) :
    (∀ p, runPump c env w serverAddr fileID filePath fileSize = Sum.inr p → p.errors ≠ [] →
      uploadChunks c env w serverAddr fileID filePath fileSize =
        (p.world, Exit.fatal "Upload failed") ∧
      finalizeSent fileID p.world.trace = finalizeSent fileID w.trace ∧
      recordRemoved p.world.trace = recordRemoved w.trace ∧
      ∀ name ∈ recordNames w, name ∈ recordNames p.world) ∧
    (∀ p, runPump c env w serverAddr fileID filePath fileSize = Sum.inr p → p.errors = [] →
      (∀ resp, (httpDo c p.world (completeRequest fileID)).2 = some resp →
        resp.Status ≠ 200) →
      (uploadChunks c env w serverAddr fileID filePath fileSize).2 =
        Exit.fatal "Failed to complete upload") ∧
    ((uploadChunks c env w serverAddr fileID filePath fileSize).2 ≠ Exit.done →
      recordRemoved (uploadChunks c env w serverAddr fileID filePath fileSize).1.trace =
        recordRemoved w.trace ∧
      ∀ name ∈ recordNames w,
        name ∈ recordNames (uploadChunks c env w serverAddr fileID filePath fileSize).1) ∧
    ((uploadChunks c env w serverAddr fileID filePath fileSize).2 = Exit.done →
      ∃ p resp, runPump c env w serverAddr fileID filePath fileSize = Sum.inr p ∧
        p.errors = [] ∧
        (httpDo c p.world (completeRequest fileID)).2 = some resp ∧ resp.Status = 200 ∧
        (uploadChunks c env w serverAddr fileID filePath fileSize).1 =
          deleteUploadState (httpDo c p.world (completeRequest fileID)).1 fileID) := by
  obtain ⟨gl, gr⟩ := runPump_grows c env w serverAddr fileID filePath fileSize
  refine ⟨?_, ?_, ?_, ?_⟩
  · intro p hp herr
    have g := gr p hp
    refine ⟨?_, (uploadEvents_keep fileID g).1, (uploadEvents_keep fileID g).2, g.2.1⟩
    unfold uploadChunks
    rw [hp]
    rcases finishUpload_cases c fileID p with ⟨_, h⟩ | ⟨h, _⟩ | ⟨h, _⟩
    · exact h
    · exact absurd h herr
    · exact absurd h herr
  · intro p hp herr hrefused
    unfold uploadChunks
    rw [hp]
    have hc := completeUpload_refused c p.world fileID hrefused
    rcases finishUpload_cases c fileID p with ⟨h, _⟩ | ⟨_, _, h⟩ | ⟨_, hd, _⟩
    · exact absurd herr h
    · show (finishUpload c fileID p).2 = _
      rw [h]
      exact hc
    · rw [hc] at hd
      cases hd
  · intro hne
    unfold uploadChunks at hne ⊢
    cases hr : runPump c env w serverAddr fileID filePath fileSize with
    | inl r =>
      have g := gl r hr
      exact ⟨(uploadEvents_keep fileID g).2, g.2.1⟩
    | inr p =>
      rw [hr] at hne
      have g := gr p hr
      simp only at hne ⊢
      rcases finishUpload_cases c fileID p with ⟨_, h⟩ | ⟨_, _, h⟩ | ⟨_, _, h⟩
      · rw [h]
        exact ⟨(uploadEvents_keep fileID g).2, g.2.1⟩
      · rw [h]
        have hk := httpDo_keeps_records c p.world (completeRequest fileID)
        refine ⟨hk.1.trans (uploadEvents_keep fileID g).2, fun name hn => ?_⟩
        show name ∈ recordNames (httpDo c p.world (completeRequest fileID)).1
        rw [hk.2]
        exact g.2.1 name hn
      · rw [h] at hne
        exact absurd rfl hne
  · intro hdone
    unfold uploadChunks at hdone ⊢
    cases hr : runPump c env w serverAddr fileID filePath fileSize with
    | inl r =>
      exfalso
      rw [hr] at hdone
      simp only at hdone
      rcases runPump_cases c env w serverAddr fileID filePath fileSize with
        ⟨e, hne, he⟩ | ⟨e, hne, he⟩ | ⟨_, _, _, _, _, _, _, _, ⟨_, he⟩ | ⟨_, he⟩⟩
      · rw [hr] at he
        cases he
        exact hne hdone
      · rw [hr] at he
        cases he
        exact hne hdone
      · rw [hr] at he
        cases he
        cases hdone
      · rw [hr] at he
        cases he
    | inr p =>
      rw [hr] at hdone
      simp only at hdone ⊢
      rcases finishUpload_cases c fileID p with ⟨_, h⟩ | ⟨_, hnd, h⟩ | ⟨herr, hd, h⟩
      · rw [h] at hdone
        cases hdone
      · rw [h] at hdone
        exact absurd hdone hnd
      · obtain ⟨resp, hresp, hs⟩ := completeUpload_done c p.world fileID hd
        exact ⟨p, resp, rfl, herr, hresp, hs, by rw [h]⟩
set_option maxRecDepth 16000 in
/-- Witness of `record_deleted_only_after_finalize`: a resumed run whose finalize request is
lost ends in `log.Fatal` and keeps the record file. -/
theorem record_deleted_only_after_finalize_witness :
    (uploadChunks (demoClient laterEnv) laterEnv
      (resumeWorld [Delivery.ok, Delivery.ok, Delivery.lost]) "http://h:8080"
      (demoID "a.bin" 3) "/data/a.bin" 3).2 = Exit.fatal "Failed to complete upload" ∧
    recordRemoved (uploadChunks (demoClient laterEnv) laterEnv
      (resumeWorld [Delivery.ok, Delivery.ok, Delivery.lost]) "http://h:8080"
      (demoID "a.bin" 3) "/data/a.bin" 3).1.trace =
      recordRemoved (resumeWorld [Delivery.ok, Delivery.ok, Delivery.lost]).trace ∧
    ∀ name ∈ recordNames (resumeWorld [Delivery.ok, Delivery.ok, Delivery.lost]),
      name ∈ recordNames (uploadChunks (demoClient laterEnv) laterEnv
        (resumeWorld [Delivery.ok, Delivery.ok, Delivery.lost]) "http://h:8080"
        (demoID "a.bin" 3) "/data/a.bin" 3).1 :=
  ⟨by decide,
    (record_deleted_only_after_finalize (demoClient laterEnv) laterEnv
      (resumeWorld [Delivery.ok, Delivery.ok, Delivery.lost]) "http://h:8080"
      (demoID "a.bin" 3) "/data/a.bin" 3).2.2.1 (by decide)⟩

/-! ## Which chunks `uploadChunks` POSTs -/

theorem probe_local_side (c : Client) (w : World) (fileID : String) :
    (getServerChunkStatus c (getUploadStatus c w fileID).1 fileID).1.stateDir = w.stateDir ∧
    (getServerChunkStatus c (getUploadStatus c w fileID).1 fileID).1.files = w.files := by
  rw [getServerChunkStatus_world, getUploadStatus_world]
  exact ⟨(httpDo_stateDir c _ _).1.trans (httpDo_stateDir c _ _).1,
    (httpDo_stateDir c _ _).2.trans (httpDo_stateDir c _ _).2⟩

theorem readRecord_congr (w1 w2 : World) (fileID : String) (h : w1.stateDir = w2.stateDir) :
    readRecord w1 fileID = readRecord w2 fileID := by
  unfold readRecord
  rw [h]

/-- The last part of `uploadChunks` POSTs no chunk. -/
theorem finishUpload_posted (c : Client) (fileID : String) (p : Pump) (id : String) (i : Int) :
    posted id i (finishUpload c fileID p).1.trace = posted id i p.world.trace := by
  have hhttp : posted id i (httpDo c p.world (completeRequest fileID)).1.trace =
      posted id i p.world.trace := by
    rw [httpDo_trace, posted_append]
    have : posted id i [Event.http (completeRequest fileID).Method (completeRequest fileID).Path
        (Option.map (fun resp => resp.Status) (httpDo c p.world (completeRequest fileID)).2)] =
        false := by
      have hne := chunkURL_ne_complete id fileID i
      simp [posted, completeRequest, Ne.symm hne]
    rw [this, Bool.or_false]
  rcases finishUpload_cases c fileID p with ⟨_, h⟩ | ⟨_, _, h⟩ | ⟨_, _, h⟩
  · rw [h]
  · rw [h]
    exact hhttp
  · rw [h]
    show posted id i ((httpDo c p.world (completeRequest fileID)).1.trace ++
      [Event.removed (fileID ++ ".json")]) = _
    rw [posted_append, hhttp]
    simp [posted]

/-- **C15 (amended).** Whenever the local record file of the session can be read, the chunks
that `uploadChunks` POSTs in a run that reaches the end of the pump are exactly the indices
`0 .. total_chunks-1` that the record's uploaded list does not hold (and whose bytes can be
read from the local file), whatever the per-chunk comparison returned and whatever uploaded
list the server status carries. -/
theorem pump_follows_local_record (c : Client) (env : Env) (w : World)
    (serverAddr fileID filePath : String) (fileSize : Int) (status : UploadStatus)
    (localState : UploadState) (file : Node)
    (h1 : (getUploadStatus c w fileID).2 = some status)
    (h3 : readRecord w fileID = some localState)
    (h4 : w.files filePath = some file)
    (hrun : (runPump c env w serverAddr fileID filePath fileSize).isRight = true) (i : Int) :
    posted fileID i (uploadChunks c env w serverAddr fileID filePath fileSize).1.trace = true ↔
      posted fileID i w.trace = true ∨
        (0 ≤ i ∧ i < status.TotalChunks ∧ i ∉ localState.Uploaded ∧
          readable file fileSize i = true) := by
  obtain ⟨hsd, hfiles⟩ := probe_local_side c w fileID
  have hget : posted fileID i
      (getServerChunkStatus c (getUploadStatus c w fileID).1 fileID).1.trace =
      posted fileID i w.trace := by
    have hP : ∀ m q st, getEvent (Event.http m q st) → ¬ (m = "POST" ∧ q = chunkURL fileID i) := by
      intro m q st hg hp
      have hm : m = "GET" := hg
      rw [hm] at hp
      exact absurd hp.1 (by decide)
    rw [posted_grows_other fileID i (getServerChunkStatus_grows c _ fileID) hP,
      posted_grows_other fileID i (getUploadStatus_grows c w fileID) hP]
  rcases runPump_cases c env w serverAddr fileID filePath fileSize with
    ⟨e, _, he⟩ | ⟨e, _, he⟩ | ⟨status', u1, file', st0, hs, _, hf, htc, ⟨_, he⟩ | ⟨hnp, he⟩⟩
  · rw [he] at hrun; cases hrun
  · rw [he] at hrun; cases hrun
  · rw [he] at hrun; cases hrun
  · have hst : status' = status := Option.some.inj (hs.symm.trans h1)
    have hfl : file' = file := by
      rw [hfiles, h4] at hf
      exact (Option.some.inj hf).symm
    have hskip : afterRecord (getServerChunkStatus c (getUploadStatus c w fileID).1 fileID).1
        fileID u1 = localState.Uploaded := by
      unfold afterRecord
      rw [readRecord_congr _ w fileID hsd, h3]
    subst hst
    subst hfl
    rw [hskip] at he hnp
    unfold uploadChunks
    rw [he]
    simp only
    rw [finishUpload_posted, pumpLoop_posted c env fileID fileSize file' _ _ _ hnp i, hget]
    constructor
    · rintro (h | ⟨j, hj, hji, hns, hr⟩)
      · exact Or.inl h
      · have := List.mem_range.1 hj
        exact Or.inr ⟨by omega, by omega, hns, hr⟩
    · rintro (h | ⟨h0, hlt, hns, hr⟩)
      · exact Or.inl h
      · exact Or.inr ⟨i.toNat, List.mem_range.2 (by omega), by omega, hns, hr⟩
set_option maxRecDepth 16000 in
/-- Witness of `pump_follows_local_record`: the server has chunk 0 staged and recorded, the
local record lists no chunk, and chunk 0 is POSTed. -/
theorem pump_follows_local_record_witness :
    posted (demoID "a.bin" 3) 0
        (uploadChunks (probeClient laterEnv) laterEnv staleRecordWorld "http://h:8080"
          (demoID "a.bin" 3) "/data/a.bin" 3).1.trace = true ↔
      posted (demoID "a.bin" 3) 0 staleRecordWorld.trace = true ∨
        ((0 : Int) ≤ 0 ∧ (0 : Int) < (demoStatus "a.bin" 3 [0] 1).TotalChunks ∧
          (0 : Int) ∉ ([] : List Int) ∧ readable (Node.file [1, 2, 3]) 3 0 = true) :=
  pump_follows_local_record (probeClient laterEnv) laterEnv staleRecordWorld "http://h:8080"
    (demoID "a.bin" 3) "/data/a.bin" 3 (demoStatus "a.bin" 3 [0] 1)
    { FileID := demoID "a.bin" 3, FileName := "a.bin", FilePath := "/data/a.bin",
      ServerAddr := "http://h:8080", TotalSize := 3, TotalChunks := 1, Uploaded := [],
      StartTime := 1, LastUpdate := 1, Completed := false, Checksum := "" }
    (Node.file [1, 2, 3]) (by decide) (by decide) (by decide) (by decide) 0

set_option maxRecDepth 16000 in
/-- **C15, counterexample.** The per-chunk status is fetched successfully and the staged
chunk 0 has the digest of the local bytes, so `compareChunks` returns the empty list; the
local record lists no chunk as uploaded, and `uploadChunks` POSTs chunk 0. -/
theorem pump_posts_chunk_not_needed :
    (getServerChunkStatus (probeClient laterEnv)
        (getUploadStatus (probeClient laterEnv) staleRecordWorld (demoID "a.bin" 3)).1
        (demoID "a.bin" 3)).2.map
      (compareChunks laterEnv (staleRecordWorld.files "/data/a.bin")) = some (some []) ∧
    posted (demoID "a.bin" 3) 0
      (uploadChunks (probeClient laterEnv) laterEnv staleRecordWorld "http://h:8080"
        (demoID "a.bin" 3) "/data/a.bin" 3).1.trace = true ∧
    (uploadChunks (probeClient laterEnv) laterEnv staleRecordWorld "http://h:8080"
      (demoID "a.bin" 3) "/data/a.bin" 3).2 = Exit.done := by
  decide

/-! ## Resuming an upload -/

set_option maxRecDepth 16000 in
/-- **C16.** Evaluation at the failing input: a file of one chunk whose chunk 0 was uploaded
by a first run (`firstRun`: server and local record both list `[0]`, the record is not
completed).  The upload command is invoked again on the unchanged file.  The claim says the
session is resumed and no chunk is POSTed.  The probe `GET /upload/status/<id>/chunks` is
answered 404, `findIncompleteUpload` removes the record and returns nothing, and `upload`
opens a new session to which chunk 0 is POSTed. -/
theorem rerun_opens_new_session :
    firstRun.2 = Exit.fatal "Failed to complete upload" ∧
    (firstRun.1.server.uploadStatuses (demoID "a.bin" 3)).map (fun st => st.Uploaded) =
      some [0] ∧
    (readRecord firstRun.1 (demoID "a.bin" 3)).map
      (fun st => (st.Uploaded, st.Completed, st.FilePath, st.ServerAddr)) =
      some ([0], false, "/data/a.bin", "http://h:8080") ∧
    (findIncompleteUpload (demoClient laterEnv) (resumeWorld []) "/data/a.bin"
      "http://h:8080").2 = none ∧
    (uploadCommand (demoClient laterEnv) laterEnv (resumeWorld []) "/data/a.bin"
      "http://h:8080").1.trace =
      [Event.http "GET" "/upload/status/612e62696e337400/chunks" (some 404),
       Event.removed "612e62696e337400.json",
       Event.http "POST" "/upload/init" (some 200),
       Event.saved "612e62696e337500.json",
       Event.http "GET" "/upload/status/612e62696e337500" (some 200),
       Event.http "GET" "/upload/status/612e62696e337500/chunks" (some 404),
       Event.http "POST" "/upload/chunk/612e62696e337500/0" (some 200),
       Event.saved "612e62696e337500.json",
       Event.http "POST" "/upload/complete/612e62696e337500" (some 200),
       Event.removed "612e62696e337500.json"] := by
  decide

/-- A chunk POST for an index that the session already lists as uploaded is answered 200
and changes nothing. -/
theorem handleChunkUpload_recorded (env : Env) (s : Server) (id : String) (st : UploadStatus)
    (k : Nat) (body : Bytes) (hid : '/' ∉ id.data) (hk : (k : Int) ≤ maxInt64)
    (hs : s.uploadStatuses id = some st) (hmem : (k : Int) ∈ st.Uploaded) :
    handleChunkUpload env s (chunkRequest id (k : Int) body) = (s, replyOK) := by
  have hparts : stringsSplit (chunkRequest id (k : Int) body).Path =
      ["", "upload", "chunk", id, sprintInt (k : Int)] := by
    rw [chunkRequest_parts, stringsSplit_noSlash id hid]
    rfl
  have hA := Atoi_sprintInt_natCast k
  rw [if_pos hk] at hA
  have hM : ¬ (chunkRequest id (k : Int) body).Method ≠ "POST" := by simp [chunkRequest]
  unfold handleChunkUpload
  rw [if_neg hM, hparts]
  simp [hA, storeChunk, hs, hmem]

/-- Finalize of a session all of whose chunks are staged, as a state and a reply. -/
theorem handleUploadComplete_done (env : Env) (s : Server) (fileID : String)
    (st : UploadStatus) (chunks : Nat → Bytes)
    (hs : s.uploadStatuses fileID = some st)
    (hlen : (st.Uploaded.length : Int) = st.TotalChunks)
    (hread : ∀ i : Nat, (i : Int) < st.TotalChunks →
      s.fs (chunkPath fileID (i : Int)) = some (Node.file (chunks i)))
    (hcreate : (osCreate s.fs (Join [uploadDir, st.FileName])).isSome = true)
    (hout : (Join [tempDir, fileID]).within (Join [uploadDir, st.FileName]) = false) :
    handleUploadComplete env s (completeRequest fileID) =
      ({ s with
          uploadStatuses := setStatus s.uploadStatuses fileID
            { st with
              Completed := true
              Checksum := hexEncode (env.sha256
                ((List.range st.TotalChunks.toNat).flatMap chunks)) }
          fs := osRemoveAll
            ((s.fs).set (Join [uploadDir, st.FileName])
              (Node.file ((List.range st.TotalChunks.toNat).flatMap chunks)))
            (Join [tempDir, fileID]) },
        { Status := 200, Header := []
          Body := RespBody.json
            [("checksum", hexEncode (env.sha256
                ((List.range st.TotalChunks.toNat).flatMap chunks))),
              ("status", "completed")] }) := by
  obtain ⟨fs1, hfs1⟩ := Option.isSome_iff_exists.1 hcreate
  obtain ⟨_, _, hfs1eq⟩ := osCreate_eq_some _ _ _ hfs1
  have hloop := assembleChunks_ok fileID (Join [uploadDir, st.FileName]) chunks s.fs hout
    (List.range st.TotalChunks.toNat) []
    (fun i hi => hread i (by
      have := List.mem_range.1 hi
      omega))
  rw [List.nil_append, ← hfs1eq] at hloop
  simp only [handleUploadComplete, completeRequest, trimLeading_append, hs, hfs1, hloop]
  simp [hlen]

/-- **C17 (amended).** When the index of a chunk is already listed as uploaded for a
session, a further POST of that chunk, whatever bytes it carries, is answered 200 and leaves
the staged copy and the session record as they are.  So for a session all of whose chunks
are staged and recorded, finalize after such a POST replies with the hex digest of the
staged chunks in index order, and the destination file holds the staged bytes. -/
theorem reupload_keeps_staged_chunk (env env' : Env) (s : Server) (fileID : String)
    (st : UploadStatus) (chunks : Nat → Bytes) (k : Nat) (body : Bytes)
    (hid : plainName fileID)
    (hs : s.uploadStatuses fileID = some st)
    (hmem : (k : Int) ∈ st.Uploaded) (hk : (k : Int) ≤ maxInt64)
    (hlen : (st.Uploaded.length : Int) = st.TotalChunks)
    (hread : ∀ i : Nat, (i : Int) < st.TotalChunks →
      s.fs (chunkPath fileID (i : Int)) = some (Node.file (chunks i)))
    (hcreate : (osCreate s.fs (Join [uploadDir, st.FileName])).isSome = true)
    (hout : (Join [tempDir, fileID]).within (Join [uploadDir, st.FileName]) = false) :
    handleChunkUpload env s (chunkRequest fileID (k : Int) body) = (s, replyOK) ∧
    (handleUploadComplete env'
        (handleChunkUpload env s (chunkRequest fileID (k : Int) body)).1
        (completeRequest fileID)).2 =
      { Status := 200, Header := []
        Body := RespBody.json
          [("checksum", hexEncode (env'.sha256
              ((List.range st.TotalChunks.toNat).flatMap chunks))),
            ("status", "completed")] } ∧
    (handleUploadComplete env'
        (handleChunkUpload env s (chunkRequest fileID (k : Int) body)).1
        (completeRequest fileID)).1.fs (Join [uploadDir, st.FileName]) =
      some (Node.file ((List.range st.TotalChunks.toNat).flatMap chunks)) := by
  have hpost := handleChunkUpload_recorded env s fileID st k body hid.1 hk hs hmem
  have hdir : (Join [tempDir, fileID]).comps.isEmpty = false := by
    rw [Join_temp_plain fileID hid]; rfl
  rw [hpost, handleUploadComplete_done env' s fileID st chunks hs hlen hread hcreate hout]
  refine ⟨rfl, rfl, ?_⟩
  show osRemoveAll _ _ _ = _
  rw [osRemoveAll_apply _ _ _ hdir, hout, FS.set_same]
  simp

set_option maxRecDepth 16000 in
/-- Witness of `reupload_keeps_staged_chunk`: chunk 0 is staged as `[1, 2, 3]` and POSTed
again as `[9, 2, 3]`. -/
theorem reupload_keeps_staged_chunk_witness :
    handleChunkUpload laterEnv stagedServer
        (chunkRequest (demoID "a.bin" 3) ((0 : Nat) : Int) [9, 2, 3]) =
      (stagedServer, replyOK) ∧
    (handleUploadComplete laterEnv
        (handleChunkUpload laterEnv stagedServer
          (chunkRequest (demoID "a.bin" 3) ((0 : Nat) : Int) [9, 2, 3])).1
        (completeRequest (demoID "a.bin" 3))).1.fs (Join [uploadDir, "a.bin"]) =
      some (Node.file ((List.range (totalChunksOf 3).toNat).flatMap fun _ => [1, 2, 3])) :=
  ⟨(reupload_keeps_staged_chunk laterEnv laterEnv stagedServer (demoID "a.bin" 3)
      (demoStatus "a.bin" 3 [0] 2) (fun _ => [1, 2, 3]) 0 [9, 2, 3]
      (by unfold plainName; decide) (by decide) (by decide) (by decide) (by decide)
      (by
        intro i hi
        have h0 : i = 0 := by
          have : (demoStatus "a.bin" 3 [0] 2).TotalChunks = 1 := by decide
          rw [this] at hi
          omega
        subst h0
        decide)
      (by decide) (by decide)).1,
    (reupload_keeps_staged_chunk laterEnv laterEnv stagedServer (demoID "a.bin" 3)
      (demoStatus "a.bin" 3 [0] 2) (fun _ => [1, 2, 3]) 0 [9, 2, 3]
      (by unfold plainName; decide) (by decide) (by decide) (by decide) (by decide)
      (by
        intro i hi
        have h0 : i = 0 := by
          have : (demoStatus "a.bin" 3 [0] 2).TotalChunks = 1 := by decide
          rw [this] at hi
          omega
        subst h0
        decide)
      (by decide) (by decide)).2.2⟩

set_option maxRecDepth 16000 in
/-- **C17, counterexample.** Chunk 0 is staged as `[1, 2, 3]` and listed as uploaded on the
server and in the local record; then the first byte of the local file is changed.  A POST of
chunk 0 with the new bytes is answered 200 while the staged file keeps `[1, 2, 3]`.  The run
resumed with `-resume` POSTs no chunk, finalize replies 200, and the session is completed
with the digest of the old bytes, which differs from the digest of the local file. -/
theorem resumed_run_finalizes_stale_chunk :
    (handleChunkUpload laterEnv firstRun.1.server
      (chunkRequest (demoID "a.bin" 3) 0 [9, 2, 3])).2.Status = 200 ∧
    (handleChunkUpload laterEnv firstRun.1.server
      (chunkRequest (demoID "a.bin" 3) 0 [9, 2, 3])).1.fs (chunkPath (demoID "a.bin" 3) 0) =
      some (Node.file [1, 2, 3]) ∧
    (resumeUploadFile (demoClient laterEnv) laterEnv editedWorld "http://h:8080"
      (demoID "a.bin" 3)).1.trace =
      [Event.http "GET" "/upload/status/612e62696e337400" (some 200),
       Event.http "GET" "/upload/status/612e62696e337400" (some 200),
       Event.http "GET" "/upload/status/612e62696e337400/chunks" (some 404),
       Event.http "POST" "/upload/complete/612e62696e337400" (some 200),
       Event.removed "612e62696e337400.json"] ∧
    ((resumeUploadFile (demoClient laterEnv) laterEnv editedWorld "http://h:8080"
      (demoID "a.bin" 3)).1.server.uploadStatuses (demoID "a.bin" 3)).map
        (fun st => (st.Completed, st.Checksum)) =
      some (true, hexEncode (laterEnv.sha256 [1, 2, 3])) ∧
    (resumeUploadFile (demoClient laterEnv) laterEnv editedWorld "http://h:8080"
      (demoID "a.bin" 3)).1.server.fs (Join [uploadDir, "a.bin"]) =
      some (Node.file [1, 2, 3]) ∧
    editedWorld.files "a.bin" = some (Node.file [9, 2, 3]) ∧
    hexEncode (laterEnv.sha256 [1, 2, 3]) ≠ hexEncode (laterEnv.sha256 [9, 2, 3]) := by
  decide

/-! ## Free space at init -/

/-- The test of `checkDiskSpace` for a size in `0 .. 2^63-1`: it fails exactly when the
free space is below `total_size + 2^30`. -/
theorem checkDiskSpace_iff (env : Env) (ts bavail bsize : Int) (h0 : 0 ≤ ts)
    (h1 : ts ≤ maxInt64) (hst : env.statfs = some (bavail, bsize)) :
    checkDiskSpace env ts =
      if availableSpace bavail bsize < ts + 2 ^ 30 then
        some (spaceError ts (availableSpace bavail bsize))
      else none := by
  unfold maxInt64 at h1
  have hw : wrapU64 (wrapU64 ts + minDiskSpace) = ts + 2 ^ 30 := by
    have hm : minDiskSpace = 2 ^ 30 := by decide
    unfold wrapU64
    rw [hm, Int.emod_eq_of_lt h0 (by omega), Int.emod_eq_of_lt (by omega) (by omega)]
  unfold checkDiskSpace
  rw [hst]
  simp only [hw]
  rfl

/-- **C23.** For a POST whose body decodes to `file_name` and a `total_size` in
`0 .. 2^63-1`, and a free-space probe that reports `A` bytes: when `A < total_size + 2^30`
the reply is 507, with the text of the error of `checkDiskSpace`, and the server is
unchanged; when `A ≥ total_size + 2^30`, in particular at
equality, the reply is not 507, the session is registered, and the reply is 200 when the
staging directory can be created. -/
theorem init_refused_iff_space_short (env : Env) (s : Server) (r : Request) (fileName : String)
    (ts bavail bsize : Int) (hm : r.Method = "POST") (hb : r.BodyErr = false)
    (hd : env.decodeInit r.Body = some (fileName, ts)) (h0 : 0 ≤ ts) (h1 : ts ≤ maxInt64)
    (hst : env.statfs = some (bavail, bsize)) :
    (availableSpace bavail bsize < ts + 2 ^ 30 →
      handleUploadInit env s r =
        (s, httpError []
          ("Insufficient disk space: " ++ spaceError ts (availableSpace bavail bsize)) 507)) ∧
    (ts + 2 ^ 30 ≤ availableSpace bavail bsize →
      (handleUploadInit env s r).2.Status ≠ 507 ∧
      (handleUploadInit env s r).1.uploadStatuses (generateFileID env fileName ts) =
        some (freshStatus env fileName ts) ∧
      ((osMkdirAll s.fs (Join [tempDir, generateFileID env fileName ts])).isSome = true →
        (handleUploadInit env s r).2.Status = 200)) := by
  have hck := checkDiskSpace_iff env ts bavail bsize h0 h1 hst
  have hM : ¬ r.Method ≠ "POST" := by simp [hm]
  have hdec : (if r.BodyErr = true then none else env.decodeInit r.Body) =
      some (fileName, ts) := by
    rw [hb]
    exact hd
  constructor
  · intro hlt
    rw [if_pos hlt] at hck
    unfold handleUploadInit
    rw [if_neg hM]
    simp only [hdec, hck]
  · intro hge
    rw [if_neg (by omega)] at hck
    unfold handleUploadInit
    rw [if_neg hM]
    simp only [hdec, hck]
    cases hmk : osMkdirAll s.fs (Join [tempDir, generateFileID env fileName ts]) with
    | none =>
      refine ⟨by simp [httpError], ?_, fun h => by simp at h⟩
      simp [setStatus, freshStatus]
    | some fs1 =>
      refine ⟨by simp, ?_, fun _ => rfl⟩
      simp [setStatus, freshStatus]

/-- Witness of `init_refused_iff_space_short`: five bytes declared and exactly
`5 + 2^30` bytes free. -/
theorem init_refused_iff_space_short_witness :
    (handleUploadInit (spaceEnv 1073741829) demoServer initRequest).2.Status = 200 ∧
    handleUploadInit (spaceEnv 1073741828) demoServer initRequest =
      (demoServer, httpError []
        ("Insufficient disk space: " ++ spaceError 5 (availableSpace 1073741828 1)) 507) ∧
    "Insufficient disk space: " ++ spaceError 5 (availableSpace 1073741828 1) =
      "Insufficient disk space: not enough disk space. Required: 1073741829 bytes, Available: 1073741828 bytes" :=
  ⟨((init_refused_iff_space_short (spaceEnv 1073741829) demoServer initRequest "a.bin" 5
      1073741829 1 rfl rfl rfl (by decide) (by decide) rfl).2 (by decide)).2.2 (by decide),
    (init_refused_iff_space_short (spaceEnv 1073741828) demoServer initRequest "a.bin" 5
      1073741828 1 rfl rfl rfl (by decide) (by decide) rfl).1 (by decide),
    by decide⟩

/-! ## Frame of a chunk upload -/

/-- The reply of `storeChunk` is 200 only when the index is already recorded or the chunk
is staged and recorded. -/
theorem storeChunk_ok (env : Env) (s : Server) (id : String) (idx : Int) (r : Request)
    (hok : (storeChunk env s id idx r).2.Status = 200) :
    ∃ st, s.uploadStatuses id = some st ∧
      ((idx ∈ st.Uploaded ∧ (storeChunk env s id idx r).1 = s) ∨
       (idx ∉ st.Uploaded ∧
        (storeChunk env s id idx r).1.uploadStatuses =
          setStatus s.uploadStatuses id
            { st with Uploaded := st.Uploaded ++ [idx], LastUpdate := env.now })) := by
  unfold storeChunk at hok ⊢
  cases hs : s.uploadStatuses id with
  | none => simp [hs, httpError] at hok
  | some st =>
    refine ⟨st, rfl, ?_⟩
    simp only [hs] at hok ⊢
    by_cases hmem : idx ∈ st.Uploaded
    · exact Or.inl ⟨hmem, by simp [hmem]⟩
    · right
      refine ⟨hmem, ?_⟩
      simp only [hmem, if_false] at hok ⊢
      cases hc : osCreate s.fs (chunkPath id idx) with
      | none => simp [hc, httpError] at hok
      | some fs1 =>
        simp only [hc] at hok ⊢
        by_cases hb : r.BodyErr = true
        · simp [hb, httpError] at hok
        · simp [hb]

/-- **C29.** A chunk upload that is answered 200 addresses a registered session `id` with an
index `idx`; when `idx` is not yet in the session's uploaded list, the registry afterwards is
the old one with the record of `id` replaced by the same record with `idx` appended to
`uploaded` and `last_update` refreshed: the other fields of that record, and the record of
every other session, are as before. -/
theorem chunk_upload_changes_only_uploaded (env : Env) (s : Server) (r : Request)
    (hok : (handleChunkUpload env s r).2.Status = 200) :
    ∃ (id : String) (idx : Int) (st : UploadStatus),
      (stringsSplit r.Path).getD 3 "" = id ∧
      Atoi ((stringsSplit r.Path).getD 4 "") = some idx ∧
      s.uploadStatuses id = some st ∧
      ((idx ∈ st.Uploaded ∧ (handleChunkUpload env s r).1 = s) ∨
       (idx ∉ st.Uploaded ∧
        (handleChunkUpload env s r).1.uploadStatuses id =
          some { st with Uploaded := st.Uploaded ++ [idx], LastUpdate := env.now } ∧
        ∀ k, k ≠ id → (handleChunkUpload env s r).1.uploadStatuses k = s.uploadStatuses k)) := by
  unfold handleChunkUpload at hok ⊢
  by_cases hm : r.Method ≠ "POST"
  · rw [if_pos hm] at hok
    simp [httpError] at hok
  · rw [if_neg hm] at hok ⊢
    simp only at hok ⊢
    by_cases hl : (stringsSplit r.Path).length ≠ 5
    · rw [if_pos hl] at hok
      simp [httpError] at hok
    · rw [if_neg hl] at hok ⊢
      cases ha : Atoi ((stringsSplit r.Path).getD 4 "") with
      | none =>
        rw [ha] at hok
        simp [httpError] at hok
      | some idx =>
        rw [ha] at hok
        simp only at hok ⊢
        obtain ⟨st, hs, h⟩ := storeChunk_ok env s _ idx r hok
        refine ⟨_, idx, st, rfl, rfl, hs, ?_⟩
        rcases h with ⟨hmem, heq⟩ | ⟨hmem, heq⟩
        · exact Or.inl ⟨hmem, heq⟩
        · right
          refine ⟨hmem, ?_, ?_⟩
          · rw [heq]
            exact if_pos rfl
          · intro k hk
            rw [heq]
            exact if_neg hk

/-- Witness of `chunk_upload_changes_only_uploaded`: the first chunk of a fresh session. -/
theorem chunk_upload_changes_only_uploaded_witness :
    ∃ (id : String) (idx : Int) (st : UploadStatus),
      (stringsSplit (chunkRequest (demoID "a.bin" 5) 0 [1, 2, 3]).Path).getD 3 "" = id ∧
      Atoi ((stringsSplit (chunkRequest (demoID "a.bin" 5) 0 [1, 2, 3]).Path).getD 4 "") =
        some idx ∧
      (demoSession "a.bin" 5).uploadStatuses id = some st ∧
      ((idx ∈ st.Uploaded ∧
        (handleChunkUpload (demoEnv "a.bin" 5) (demoSession "a.bin" 5)
          (chunkRequest (demoID "a.bin" 5) 0 [1, 2, 3])).1 = demoSession "a.bin" 5) ∨
       (idx ∉ st.Uploaded ∧
        (handleChunkUpload (demoEnv "a.bin" 5) (demoSession "a.bin" 5)
          (chunkRequest (demoID "a.bin" 5) 0 [1, 2, 3])).1.uploadStatuses id =
          some { st with Uploaded := st.Uploaded ++ [idx], LastUpdate := (demoEnv "a.bin" 5).now } ∧
        ∀ k, k ≠ id →
          (handleChunkUpload (demoEnv "a.bin" 5) (demoSession "a.bin" 5)
            (chunkRequest (demoID "a.bin" 5) 0 [1, 2, 3])).1.uploadStatuses k =
            (demoSession "a.bin" 5).uploadStatuses k)) :=
  chunk_upload_changes_only_uploaded (demoEnv "a.bin" 5) (demoSession "a.bin" 5)
    (chunkRequest (demoID "a.bin" 5) 0 [1, 2, 3]) (by decide)

/-! ## A chunk body that breaks off -/

/-- Counterexample to C28 as stated: the body of chunk 0 breaks off after two bytes; the
reply is 500 and the index is not recorded, but the staged file `chunk_0` stays in the
staging directory with the two bytes received. -/
theorem broken_chunk_leaves_partial_file :
    (handleChunkUpload (demoEnv "a.bin" 5) (demoSession "a.bin" 5)
      (brokenChunkRequest (demoID "a.bin" 5) 0 [1, 2])).2.Status = 500 ∧
    ((handleChunkUpload (demoEnv "a.bin" 5) (demoSession "a.bin" 5)
      (brokenChunkRequest (demoID "a.bin" 5) 0 [1, 2])).1.uploadStatuses
        (demoID "a.bin" 5)).map (fun st => st.Uploaded) = some [] ∧
    (demoSession "a.bin" 5).fs (chunkPath (demoID "a.bin" 5) 0) = none ∧
    (handleChunkUpload (demoEnv "a.bin" 5) (demoSession "a.bin" 5)
      (brokenChunkRequest (demoID "a.bin" 5) 0 [1, 2])).1.fs (chunkPath (demoID "a.bin" 5) 0) =
        some (Node.file [1, 2]) := by
  decide

/-- **C28 (amended).** When streaming a chunk body into the staged file fails with an I/O
error (the session is registered, the index is not yet recorded and the staged file could be
created), `handleChunkUpload` replies 500 "Failed to save chunk" and leaves the registry as
it was, so the index is not added to `uploaded`; the staged file `chunk_<idx>` is not removed:
it stays in the staging directory holding the bytes received before the error, and no other
path of the file tree changes. -/
theorem broken_chunk_not_recorded (env : Env) (s : Server) (r : Request) (id : String)
    (idx : Int) (st : UploadStatus)
    (hm : r.Method = "POST") (hl : (stringsSplit r.Path).length = 5)
    (hid : (stringsSplit r.Path).getD 3 "" = id)
    (hidx : Atoi ((stringsSplit r.Path).getD 4 "") = some idx)
    (hs : s.uploadStatuses id = some st) (hmem : idx ∉ st.Uploaded)
    (hcreate : (osCreate s.fs (chunkPath id idx)).isSome = true)
    (herr : r.BodyErr = true) :
    (handleChunkUpload env s r).2 = httpError [] "Failed to save chunk" 500 ∧
    (handleChunkUpload env s r).1.uploadStatuses = s.uploadStatuses ∧
    (handleChunkUpload env s r).1.fs (chunkPath id idx) = some (Node.file r.Body) ∧
    ∀ q, q ≠ chunkPath id idx → (handleChunkUpload env s r).1.fs q = s.fs q := by
  cases hc : osCreate s.fs (chunkPath id idx) with
  | none => rw [hc] at hcreate; cases hcreate
  | some fs1 =>
    obtain ⟨-, -, hfs1⟩ := osCreate_eq_some _ _ _ hc
    have hst : storeChunk env s id idx r =
        ({ s with fs := s.fs.set (chunkPath id idx) (Node.file r.Body) },
          httpError [] "Failed to save chunk" 500) := by
      unfold storeChunk
      simp only [hs, hmem, if_false, hc, herr, if_true]
      rw [hfs1, appendFile_set]
      rfl
    have hh : handleChunkUpload env s r = storeChunk env s id idx r := by
      unfold handleChunkUpload
      have hm2 : ¬ r.Method ≠ "POST" := fun h => h hm
      have hl2 : ¬ (stringsSplit r.Path).length ≠ 5 := fun h => h hl
      rw [if_neg hm2]
      simp only
      rw [if_neg hl2, hidx, hid]
    rw [hh, hst]
    refine ⟨rfl, rfl, FS.set_same _ _ _, fun q hq => FS.set_other _ _ _ _ hq⟩

/-- Witness of `broken_chunk_not_recorded`: chunk 0 of a fresh session breaks off after two
bytes. -/
theorem broken_chunk_not_recorded_witness :
    (handleChunkUpload (demoEnv "a.bin" 5) (demoSession "a.bin" 5)
      (brokenChunkRequest (demoID "a.bin" 5) 0 [1, 2])).2 =
        httpError [] "Failed to save chunk" 500 ∧
    (handleChunkUpload (demoEnv "a.bin" 5) (demoSession "a.bin" 5)
      (brokenChunkRequest (demoID "a.bin" 5) 0 [1, 2])).1.uploadStatuses =
        (demoSession "a.bin" 5).uploadStatuses ∧
    (handleChunkUpload (demoEnv "a.bin" 5) (demoSession "a.bin" 5)
      (brokenChunkRequest (demoID "a.bin" 5) 0 [1, 2])).1.fs (chunkPath (demoID "a.bin" 5) 0) =
        some (Node.file (brokenChunkRequest (demoID "a.bin" 5) 0 [1, 2]).Body) ∧
    ∀ q, q ≠ chunkPath (demoID "a.bin" 5) 0 →
      (handleChunkUpload (demoEnv "a.bin" 5) (demoSession "a.bin" 5)
        (brokenChunkRequest (demoID "a.bin" 5) 0 [1, 2])).1.fs q = (demoSession "a.bin" 5).fs q :=
  broken_chunk_not_recorded (demoEnv "a.bin" 5) (demoSession "a.bin" 5)
    (brokenChunkRequest (demoID "a.bin" 5) 0 [1, 2]) (demoID "a.bin" 5) 0
    (demoStatus "a.bin" 5 [] 1) rfl (by decide) (by decide) (by decide) (by decide) (by decide)
    (by decide) rfl

/-! ## Finalize of a completed session -/

set_option maxRecDepth 8000 in
/-- Counterexample to C26 as stated: the session of `finalizedServer` is completed, its
checksum is the digest of the destination file `[1, 2, 3]`.  A further finalize is not
short-circuited: it answers 500, the record is as before, but the destination file has been
truncated to the empty file, whose digest differs from the stored checksum. -/
theorem second_finalize_truncates_destination :
    (finalizedServer.uploadStatuses (demoID "a.bin" 3)).map
        (fun st => (st.Completed, st.TotalChunks, st.Uploaded, st.Checksum)) =
      some (true, 1, [0], hexEncode (demoDigest [1, 2, 3])) ∧
    finalizedServer.fs (Join [uploadDir, "a.bin"]) = some (Node.file [1, 2, 3]) ∧
    (handleUploadComplete (demoEnv "a.bin" 3) finalizedServer
      (completeRequest (demoID "a.bin" 3))).2 = httpError [] "Failed to read chunk" 500 ∧
    (handleUploadComplete (demoEnv "a.bin" 3) finalizedServer
      (completeRequest (demoID "a.bin" 3))).1.fs (Join [uploadDir, "a.bin"]) =
        some (Node.file []) ∧
    ((handleUploadComplete (demoEnv "a.bin" 3) finalizedServer
      (completeRequest (demoID "a.bin" 3))).1.uploadStatuses (demoID "a.bin" 3)).map
        (fun st => (st.Completed, st.Checksum)) =
      some (true, hexEncode (demoDigest [1, 2, 3])) ∧
    hexEncode (demoDigest [1, 2, 3]) ≠ hexEncode (demoDigest []) := by
  decide

/-- **C26 (amended).** For a session that is already completed (with `total_chunks ≥ 1`),
whose staged chunk 0 is gone with the staging directory, and whose destination
`<upload>/<file_name>` can be created outside that directory, a further finalize request is
not short-circuited: it is answered 500 "Failed to read chunk", it leaves the registry (hence
the record's `completed`, `checksum` and `uploaded`) unchanged, and it truncates the
destination file to the empty file; no other path of the file tree changes. -/
theorem second_finalize_not_short_circuited (env : Env) (s : Server) (fileID : String)
    (st : UploadStatus)
    (hs : s.uploadStatuses fileID = some st) (hc : st.Completed = true)
    (hlen : (st.Uploaded.length : Int) = st.TotalChunks) (h1 : 1 ≤ st.TotalChunks)
    (hgone : s.fs (chunkPath fileID 0) = none)
    (hcreate : (osCreate s.fs (Join [uploadDir, st.FileName])).isSome = true)
    (hout : (Join [tempDir, fileID]).within (Join [uploadDir, st.FileName]) = false) :
    (handleUploadComplete env s (completeRequest fileID)).2 =
      httpError [] "Failed to read chunk" 500 ∧
    (handleUploadComplete env s (completeRequest fileID)).1.uploadStatuses = s.uploadStatuses ∧
    ((handleUploadComplete env s (completeRequest fileID)).1.uploadStatuses fileID).map
      (fun x => x.Completed) = some true ∧
    (handleUploadComplete env s (completeRequest fileID)).1.fs (Join [uploadDir, st.FileName]) =
      some (Node.file []) ∧
    ∀ q, q ≠ Join [uploadDir, st.FileName] →
      (handleUploadComplete env s (completeRequest fileID)).1.fs q = s.fs q := by
  obtain ⟨fs1, hfs1⟩ := Option.isSome_iff_exists.1 hcreate
  obtain ⟨_, _, hfs1eq⟩ := osCreate_eq_some _ _ _ hfs1
  have hne : chunkPath fileID 0 ≠ Join [uploadDir, st.FileName] :=
    within_self_ne _ _ _ (chunkPath_within fileID 0) hout
  obtain ⟨n, hn⟩ : ∃ n : Nat, st.TotalChunks.toNat = n + 1 :=
    ⟨st.TotalChunks.toNat - 1, by omega⟩
  have hloop : assembleChunks fileID (Join [uploadDir, st.FileName])
      (List.range st.TotalChunks.toNat) fs1 [] = (fs1, [], AssembleEnd.openFailed) := by
    rw [hn, List.range_succ_eq_map]
    have h0 : fs1 (chunkPath fileID ((0 : Nat) : Int)) = none := by
      rw [hfs1eq]
      exact (FS.set_other _ _ _ _ hne).trans hgone
    simp only [assembleChunks, osReadAll, h0]
  have hres : handleUploadComplete env s (completeRequest fileID) =
      ({ s with fs := s.fs.set (Join [uploadDir, st.FileName]) (Node.file []) },
        httpError [] "Failed to read chunk" 500) := by
    simp only [handleUploadComplete, completeRequest, trimLeading_append, hs, hfs1, hloop]
    simp [hlen, hfs1eq]
  rw [hres]
  refine ⟨rfl, rfl, ?_, FS.set_same _ _ _, fun q hq => FS.set_other _ _ _ _ hq⟩
  show (s.uploadStatuses fileID).map _ = _
  rw [hs]
  simp [hc]

set_option maxRecDepth 8000 in
/-- Witness of `second_finalize_not_short_circuited`: the completed session of
`finalizedServer`. -/
theorem second_finalize_not_short_circuited_witness :
    (handleUploadComplete (demoEnv "a.bin" 3) finalizedServer
      (completeRequest (demoID "a.bin" 3))).2 = httpError [] "Failed to read chunk" 500 ∧
    (handleUploadComplete (demoEnv "a.bin" 3) finalizedServer
      (completeRequest (demoID "a.bin" 3))).1.uploadStatuses = finalizedServer.uploadStatuses ∧
    ((handleUploadComplete (demoEnv "a.bin" 3) finalizedServer
      (completeRequest (demoID "a.bin" 3))).1.uploadStatuses (demoID "a.bin" 3)).map
      (fun x => x.Completed) = some true ∧
    (handleUploadComplete (demoEnv "a.bin" 3) finalizedServer
      (completeRequest (demoID "a.bin" 3))).1.fs
        (Join [uploadDir, ({ demoStatus "a.bin" 3 [0] 2 with
          Completed := true, Checksum := hexEncode (demoDigest [1, 2, 3]) } : UploadStatus).FileName]) =
      some (Node.file []) ∧
    ∀ q, q ≠ Join [uploadDir, ({ demoStatus "a.bin" 3 [0] 2 with
          Completed := true, Checksum := hexEncode (demoDigest [1, 2, 3]) } : UploadStatus).FileName] →
      (handleUploadComplete (demoEnv "a.bin" 3) finalizedServer
        (completeRequest (demoID "a.bin" 3))).1.fs q = finalizedServer.fs q :=
  second_finalize_not_short_circuited (demoEnv "a.bin" 3) finalizedServer (demoID "a.bin" 3)
    { demoStatus "a.bin" 3 [0] 2 with
      Completed := true, Checksum := hexEncode (demoDigest [1, 2, 3]) }
    (by decide) rfl (by decide) (by decide) (by decide) (by decide) (by decide)

/-! ## Destination of finalize -/

set_option maxRecDepth 8000 in
/-- **C30.** Evaluation at the failing input: an init request with
`file_name = "../evil.bin"` is accepted, its chunk is staged, and finalize answers 200 after
creating the destination `evil.bin` in the working directory of the server, a path that does
not lie under the upload root. -/
theorem finalize_destination_escapes_upload_root :
    (handleUploadInit (demoEnv "../evil.bin" 3) demoServer initRequest).2.Status = 200 ∧
    ((stagedFor "../evil.bin").uploadStatuses (demoID "../evil.bin" 3)).map
        (fun st => (st.FileName, st.TotalChunks, st.Uploaded)) = some ("../evil.bin", 1, [0]) ∧
    Join [uploadDir, "../evil.bin"] = { rooted := false, comps := ["evil.bin"] } ∧
    (Join [uploadDir]).within (Join [uploadDir, "../evil.bin"]) = false ∧
    (stagedFor "../evil.bin").fs (Join [uploadDir, "../evil.bin"]) = none ∧
    (handleUploadComplete (demoEnv "../evil.bin" 3) (stagedFor "../evil.bin")
      (completeRequest (demoID "../evil.bin" 3))).2.Status = 200 ∧
    (handleUploadComplete (demoEnv "../evil.bin" 3) (stagedFor "../evil.bin")
      (completeRequest (demoID "../evil.bin" 3))).1.fs { rooted := false, comps := ["evil.bin"] } =
        some (Node.file [1, 2, 3]) := by
  decide

/-! ## Two chunk uploads of one index in flight -/

/-- The three steps of one request run without interruption are `storeChunk`. -/
theorem chunkStep_sequential (env : Env) (s : Server) (fileID : String) (chunkNum : Int)
    (r : Request) :
    race env fileID chunkNum r r s [false, false, false] =
      { server := (storeChunk env s fileID chunkNum r).1
        phaseA := ChunkPhase.replied (storeChunk env s fileID chunkNum r).2
        phaseB := ChunkPhase.start } := by
  unfold race storeChunk
  simp only [List.foldl, raceStep, Bool.false_eq_true, if_false]
  cases hs : s.uploadStatuses fileID with
  | none => simp [chunkStep, hs]
  | some st =>
    by_cases hmem : chunkNum ∈ st.Uploaded
    · simp [chunkStep, hs, hmem]
    · cases hc : osCreate s.fs (chunkPath fileID chunkNum) with
      | none => simp [chunkStep, hs, hmem, hc]
      | some fs1 =>
        by_cases hb : r.BodyErr = true
        · simp [chunkStep, hs, hmem, hc, hb]
        · simp [chunkStep, hs, hmem, hc, hb]

set_option maxRecDepth 8000 in
/-- **C27.** Evaluation at the failing input: in a fresh session with `total_chunks = 1` two
uploads of chunk 0 alternate step by step.  Both pass the membership check before either
appends, both are answered 200, and the uploaded list ends as `[0, 0]`: the index is counted
twice, and the finalize request that follows is refused with 400 because
`|uploaded| = 2 ≠ 1 = total_chunks`. -/
theorem concurrent_same_index_recorded_twice :
    ((demoSession "a.bin" 5).uploadStatuses (demoID "a.bin" 5)).map
        (fun st => (st.TotalChunks, st.Uploaded)) = some (1, []) ∧
    (race (demoEnv "a.bin" 5) (demoID "a.bin" 5) 0
        (chunkRequest (demoID "a.bin" 5) 0 [1, 2, 3]) (chunkRequest (demoID "a.bin" 5) 0 [1, 2, 3])
        (demoSession "a.bin" 5) alternating).phaseA = ChunkPhase.replied replyOK ∧
    (race (demoEnv "a.bin" 5) (demoID "a.bin" 5) 0
        (chunkRequest (demoID "a.bin" 5) 0 [1, 2, 3]) (chunkRequest (demoID "a.bin" 5) 0 [1, 2, 3])
        (demoSession "a.bin" 5) alternating).phaseB = ChunkPhase.replied replyOK ∧
    ((race (demoEnv "a.bin" 5) (demoID "a.bin" 5) 0
        (chunkRequest (demoID "a.bin" 5) 0 [1, 2, 3]) (chunkRequest (demoID "a.bin" 5) 0 [1, 2, 3])
        (demoSession "a.bin" 5) alternating).server.uploadStatuses (demoID "a.bin" 5)).map
        (fun st => (st.TotalChunks, st.Uploaded)) = some (1, [0, 0]) ∧
    (handleUploadComplete (demoEnv "a.bin" 5)
        (race (demoEnv "a.bin" 5) (demoID "a.bin" 5) 0
          (chunkRequest (demoID "a.bin" 5) 0 [1, 2, 3])
          (chunkRequest (demoID "a.bin" 5) 0 [1, 2, 3])
          (demoSession "a.bin" 5) alternating).server
        (completeRequest (demoID "a.bin" 5))).2 = httpError [] "Not all chunks uploaded" 400 := by
  decide

/-! ## Registry invariant over init, chunk upload and finalize -/

theorem demoDigest_length (b : Bytes) : (demoDigest b).length = 32 := by
  simp [demoDigest]

theorem demoEnv_sound (fileName : String) (totalSize : Int) : (demoEnv fileName totalSize).sound :=
  fun b => demoDigest_length b

theorem sound_ne_nil (env : Env) (h : env.sound) (b : Bytes) : env.sha256 b ≠ [] := by
  intro hb
  have := h b
  rw [hb] at this
  cases this

theorem hexEncode_ne_empty (b : Bytes) (hb : b ≠ []) : hexEncode b ≠ "" := by
  intro h
  exact hexEncode_ne_nil b hb (by rw [h])

/-- The assembly loop changes the file tree at the destination only, and a regular file at
the destination stays a regular file. -/
theorem assembleChunks_frame (fileID : String) (finalPath : Path) :
    ∀ (l : List Nat) (fs : FS) (hashed : Bytes),
      (∀ q, q ≠ finalPath → (assembleChunks fileID finalPath l fs hashed).1 q = fs q) ∧
      (∀ d, fs finalPath = some (Node.file d) →
        ∃ d2, (assembleChunks fileID finalPath l fs hashed).1 finalPath = some (Node.file d2)) := by
  intro l
  induction l with
  | nil => intro fs hashed; exact ⟨fun _ _ => rfl, fun d hd => ⟨d, hd⟩⟩
  | cons i rest ih =>
    intro fs hashed
    unfold assembleChunks
    cases hr : osReadAll fs (chunkPath fileID (i : Int)) with
    | openFailed => exact ⟨fun _ _ => rfl, fun d hd => ⟨d, hd⟩⟩
    | readFailed => exact ⟨fun _ _ => rfl, fun d hd => ⟨d, hd⟩⟩
    | ok data =>
      simp only
      obtain ⟨ih1, ih2⟩ := ih (appendFile fs finalPath data) (hashed ++ data)
      refine ⟨fun q hq => ?_, fun d hd => ?_⟩
      · rw [ih1 q hq]
        unfold appendFile
        cases hf : fs finalPath with
        | none => rfl
        | some n =>
          cases n with
          | dir => rfl
          | file old => exact FS.set_other _ _ _ _ hq
      · apply ih2 (d ++ data)
        unfold appendFile
        rw [hd]
        exact FS.set_same _ _ _

theorem error_body_ne (s : Server) (msg : String) (code : Nat) (other : String)
    (h : msg ≠ other) :
    ((s, httpError [] msg code) : Server × Response).2.Body ≠ RespBody.text other :=
  fun hc => h (RespBody.text.inj hc)

/-- The ways `handleUploadComplete` can end: without any change; with a failed assembly, the
destination created and the registry untouched; or with the session completed and its staging
directory removed. -/
theorem handleUploadComplete_cases (env : Env) (s : Server) (r : Request) :
    ((handleUploadComplete env s r).1 = s ∧
      (handleUploadComplete env s r).2.Body ≠ RespBody.text "Failed to read chunk" ∧
      (handleUploadComplete env s r).2.Body ≠ RespBody.text "Failed to write chunk") ∨
    ∃ (st : UploadStatus) (fs2 : FS) (d2 : Bytes),
      s.uploadStatuses (trimLeading r.Path "/upload/complete/") = some st ∧
      (st.Uploaded.length : Int) = st.TotalChunks ∧
      (∀ q, q ≠ Join [uploadDir, st.FileName] → fs2 q = s.fs q) ∧
      fs2 (Join [uploadDir, st.FileName]) = some (Node.file d2) ∧
      s.fs (Join [uploadDir, st.FileName]) ≠ some Node.dir ∧
      (handleUploadComplete env s r = ({ s with fs := fs2 }, httpError [] "Failed to read chunk" 500) ∨
       handleUploadComplete env s r = ({ s with fs := fs2 }, httpError [] "Failed to write chunk" 500) ∨
       ∃ hashed,
        handleUploadComplete env s r =
          ({ s with
              uploadStatuses := setStatus s.uploadStatuses (trimLeading r.Path "/upload/complete/")
                { st with Completed := true, Checksum := hexEncode (env.sha256 hashed) }
              fs := osRemoveAll fs2 (Join [tempDir, trimLeading r.Path "/upload/complete/"]) },
            { Status := 200, Header := [],
              Body := RespBody.json
                [("checksum", hexEncode (env.sha256 hashed)), ("status", "completed")] })) := by
  unfold handleUploadComplete
  by_cases hm : r.Method ≠ "POST"
  · left; rw [if_pos hm]; exact ⟨rfl, error_body_ne _ _ _ _ (by decide), error_body_ne _ _ _ _ (by decide)⟩
  · rw [if_neg hm]
    simp only
    cases hs : s.uploadStatuses (trimLeading r.Path "/upload/complete/") with
    | none => left; exact ⟨rfl, error_body_ne _ _ _ _ (by decide), error_body_ne _ _ _ _ (by decide)⟩
    | some st =>
      simp only
      by_cases hlen : (st.Uploaded.length : Int) ≠ st.TotalChunks
      · left; rw [if_pos hlen]; exact ⟨rfl, error_body_ne _ _ _ _ (by decide), error_body_ne _ _ _ _ (by decide)⟩
      · rw [if_neg hlen]
        cases hc : osCreate s.fs (Join [uploadDir, st.FileName]) with
        | none => left; exact ⟨rfl, error_body_ne _ _ _ _ (by decide), error_body_ne _ _ _ _ (by decide)⟩
        | some fs1 =>
          right
          obtain ⟨hnd, -, hfs1⟩ := osCreate_eq_some _ _ _ hc
          obtain ⟨hf1, hf2⟩ := assembleChunks_frame (trimLeading r.Path "/upload/complete/")
            (Join [uploadDir, st.FileName]) (List.range st.TotalChunks.toNat) fs1 []
          obtain ⟨d2, hd2⟩ := hf2 [] (by rw [hfs1]; exact FS.set_same _ _ _)
          have hother : ∀ q, q ≠ Join [uploadDir, st.FileName] →
              (assembleChunks (trimLeading r.Path "/upload/complete/")
                (Join [uploadDir, st.FileName]) (List.range st.TotalChunks.toNat) fs1 []).1 q =
                s.fs q := by
            intro q hq
            rw [hf1 q hq, hfs1]
            exact FS.set_other _ _ _ _ hq
          refine ⟨st, _, d2, rfl, not_not.1 hlen, hother, hd2, hnd, ?_⟩
          simp only
          cases hres : assembleChunks (trimLeading r.Path "/upload/complete/")
            (Join [uploadDir, st.FileName]) (List.range st.TotalChunks.toNat) fs1 [] with
          | mk fs2 rest =>
            cases rest with
            | mk hashed e =>
              cases e with
              | openFailed => left; rfl
              | copyFailed => right; left; rfl
              | done => right; right; exact ⟨hashed, rfl⟩
theorem set_file_ne_dir (fs : FS) (p q : Path) (d : Bytes) (h : fs q ≠ some Node.dir) :
    (fs.set p (Node.file d)) q ≠ some Node.dir := by
  by_cases hq : q = p
  · rw [hq, FS.set_same]
    intro hc
    cases hc
  · rw [FS.set_other _ _ _ _ hq]
    exact h

theorem osRemoveAll_ne_dir (fs : FS) (p q : Path) (h : fs q ≠ some Node.dir) :
    (osRemoveAll fs p) q ≠ some Node.dir := by
  unfold osRemoveAll
  by_cases he : p.comps.isEmpty = true
  · rw [if_pos he]
    exact h
  · rw [if_neg he]
    by_cases hw : p.within q = true
    · simp [hw]
    · simp only [hw]
      exact h

theorem temp_within_temp (k id : String) (hk : plainName k) (hid : plainName id) (hne : k ≠ id) :
    (Join [tempDir, k]).within (Join [tempDir, id]) = false := by
  rw [Join_temp_plain k hk, Join_temp_plain id hid]
  simp [Path.within, List.isPrefixOf, hne]

theorem osMkdirAll_eq_some (fs fs1 : FS) (p : Path) (h : osMkdirAll fs p = some fs1) :
    fs1 = fun q => if q.within p then some Node.dir else fs q := by
  unfold osMkdirAll at h
  split at h
  · cases h
  · exact (Option.some.inj h).symm

/-- An init request keeps the registry invariant. -/
theorem wellFormed_init (env : Env) (s : Server) (r : Request) (he : env.sound)
    (h : s.wellFormed) : (handleUploadInit env s r).1.wellFormed := by
  unfold handleUploadInit
  by_cases hm : r.Method ≠ "POST"
  · rw [if_pos hm]; exact h
  · rw [if_neg hm]
    cases hd : (if r.BodyErr = true then none else env.decodeInit r.Body) with
    | none => exact h
    | some fa =>
      obtain ⟨fileName, totalSize⟩ := fa
      simp only
      cases hck : checkDiskSpace env totalSize with
      | some err => exact h
      | none =>
        simp only
        have hplain : plainName (generateFileID env fileName totalSize) :=
          generateFileID_plain env fileName totalSize (sound_ne_nil env he _)
        cases hmk : osMkdirAll s.fs (Join [tempDir, generateFileID env fileName totalSize]) with
        | none =>
          intro k st hk
          simp only [setStatus] at hk
          by_cases hkid : k = generateFileID env fileName totalSize
          · rw [if_pos hkid] at hk
            cases hk
            refine ⟨hkid ▸ hplain, fun hc => ?_, fun _ => rfl⟩
            cases hc
          · rw [if_neg hkid] at hk
            exact h k st hk
        | some fs1 =>
          intro k st hk
          simp only [setStatus] at hk
          by_cases hkid : k = generateFileID env fileName totalSize
          · rw [if_pos hkid] at hk
            cases hk
            refine ⟨hkid ▸ hplain, fun hc => ?_, fun _ => rfl⟩
            cases hc
          · rw [if_neg hkid] at hk
            obtain ⟨h1, h2, h3⟩ := h k st hk
            refine ⟨h1, fun hc => ?_, h3⟩
            obtain ⟨h4, h5, h6⟩ := h2 hc
            refine ⟨h4, h5, ?_⟩
            rw [osMkdirAll_eq_some _ _ _ hmk]
            simp only [temp_within_temp k _ h1 hplain hkid]
            exact h6

/-- Staging a chunk keeps the registry invariant: a completed session has no staging
directory, so no chunk of it can be staged and recorded. -/
theorem wellFormed_storeChunk (env : Env) (s : Server) (id : String) (i : Int) (r : Request)
    (h : s.wellFormed) : (storeChunk env s id i r).1.wellFormed := by
  rw [storeChunk_state]
  by_cases hw : wouldStore s id i = true
  · have hw2 := hw
    unfold wouldStore at hw2
    cases hx : s.uploadStatuses id with
    | none => rw [hx] at hw2; cases hw2
    | some x =>
      rw [hx] at hw2
      simp only [Bool.and_eq_true, decide_eq_true_eq] at hw2
      obtain ⟨⟨-, -⟩, hdir⟩ := hw2
      obtain ⟨hp, hc1, hc2⟩ := h id x hx
      have hnc : x.Completed = false := by
        cases hcc : x.Completed with
        | false => rfl
        | true => exact absurd hdir (hc1 hcc).2.2
      intro k st hk
      simp only [hw, if_true, Bool.true_and] at hk ⊢
      by_cases hkid : k = id
      · subst hkid
        have hst : st.Completed = false ∧ st.Checksum = "" := by
          by_cases hb : r.BodyErr = true
          · simp only [hb, Bool.not_true, Bool.false_eq_true, if_false] at hk
            rw [hx] at hk
            cases hk
            exact ⟨hnc, hc2 hnc⟩
          · have hb2 : r.BodyErr = false := by simpa using hb
            simp only [hb2, Bool.not_false, if_true, markUploaded, hx, setStatus] at hk
            cases hk
            exact ⟨hnc, hc2 hnc⟩
        refine ⟨hp, fun hc => ?_, fun _ => hst.2⟩
        rw [hst.1] at hc
        cases hc
      · have hk2 : s.uploadStatuses k = some st := by
          by_cases hb : r.BodyErr = true
          · simp only [hb, Bool.not_true, Bool.false_eq_true, if_false] at hk
            exact hk
          · have hb2 : r.BodyErr = false := by simpa using hb
            simp only [hb2, Bool.not_false, if_true, markUploaded, hx, setStatus, if_neg hkid] at hk
            exact hk
        obtain ⟨h1, h2, h3⟩ := h k st hk2
        refine ⟨h1, fun hc => ?_, h3⟩
        obtain ⟨h4, h5, h6⟩ := h2 hc
        exact ⟨h4, h5, set_file_ne_dir _ _ _ _ h6⟩
  · have hw2 : wouldStore s id i = false := by simpa using hw
    simp only [hw2, Bool.false_and, Bool.false_eq_true, if_false]
    exact h

/-- A chunk upload keeps the registry invariant. -/
theorem wellFormed_chunk (env : Env) (s : Server) (r : Request) (h : s.wellFormed) :
    (handleChunkUpload env s r).1.wellFormed := by
  unfold handleChunkUpload
  by_cases hm : r.Method ≠ "POST"
  · rw [if_pos hm]; exact h
  · rw [if_neg hm]
    simp only
    by_cases hl : (stringsSplit r.Path).length ≠ 5
    · rw [if_pos hl]; exact h
    · rw [if_neg hl]
      cases ha : Atoi ((stringsSplit r.Path).getD 4 "") with
      | none => exact h
      | some idx => exact wellFormed_storeChunk env s _ idx r h

/-- A finalize request keeps the registry invariant. -/
theorem wellFormed_finalize (env : Env) (s : Server) (r : Request) (he : env.sound)
    (h : s.wellFormed) : (handleUploadComplete env s r).1.wellFormed := by
  rcases handleUploadComplete_cases env s r with ⟨hsame, -, -⟩ | ⟨st, fs2, d2, hs, hlen, hother, hfp, -, hres⟩
  · rw [hsame]; exact h
  · have hnd : ∀ q, s.fs q ≠ some Node.dir → fs2 q ≠ some Node.dir := by
      intro q hq
      by_cases hqf : q = Join [uploadDir, st.FileName]
      · rw [hqf, hfp]
        intro hc
        cases hc
      · rw [hother q hqf]
        exact hq
    have hfail : ({ s with fs := fs2 } : Server).wellFormed := by
      intro k x hk
      obtain ⟨h1, h2, h3⟩ := h k x hk
      refine ⟨h1, fun hc => ?_, h3⟩
      obtain ⟨h4, h5, h6⟩ := h2 hc
      exact ⟨h4, h5, hnd _ h6⟩
    rcases hres with hres | hres | ⟨hashed, hres⟩
    · rw [hres]; exact hfail
    · rw [hres]; exact hfail
    · rw [hres]
      obtain ⟨hp, -, -⟩ := h _ st hs
      intro k x hk
      simp only [setStatus] at hk
      by_cases hkid : k = trimLeading r.Path "/upload/complete/"
      · rw [if_pos hkid] at hk
        cases hk
        rw [hkid]
        refine ⟨hp, fun _ => ⟨hlen, hexEncode_ne_empty _ (sound_ne_nil env he _), ?_⟩, fun hc => ?_⟩
        · simp only
          rw [osRemoveAll_apply _ _ _ (by rw [Join_temp_plain _ hp]; rfl)]
          simp [Path.within]
        · cases hc
      · rw [if_neg hkid] at hk
        obtain ⟨h1, h2, h3⟩ := h k x hk
        refine ⟨h1, fun hc => ?_, h3⟩
        obtain ⟨h4, h5, h6⟩ := h2 hc
        exact ⟨h4, h5, osRemoveAll_ne_dir _ _ _ (hnd _ h6)⟩

theorem wellFormed_serve (s : Server) (c : Call) (he : c.env.sound) (h : s.wellFormed) :
    (serve s c).wellFormed := by
  cases c with
  | init env r => exact wellFormed_init env s r he h
  | chunk env r => exact wellFormed_chunk env s r h
  | finalize env r => exact wellFormed_finalize env s r he h

/-- The registry invariant holds in every state reached from a well-formed one. -/
theorem wellFormed_serveAll (calls : List Call) :
    ∀ s : Server, (∀ c ∈ calls, c.env.sound) → s.wellFormed → (serveAll s calls).wellFormed := by
  induction calls with
  | nil => intro s _ h; exact h
  | cons c rest ih =>
    intro s he h
    exact ih (serve s c) (fun c2 hc2 => he c2 (List.mem_cons_of_mem _ hc2))
      (wellFormed_serve s c (he c (List.mem_cons_self _ _)) h)

theorem wellFormed_boot (key : String) (fs : FS) : (bootServer key fs).wellFormed := by
  intro k st hk
  cases hk
/-- When init, chunk-upload and finalize requests are served one at a time (with a digest of
32 bytes, as SHA-256 is), every session with `completed = true` has
`|uploaded| = total_chunks` and a non-empty checksum, and every session with
`completed = false` has an empty checksum.  Requests in flight at the same time are not
covered: see the run `raceAroundFinalize`. -/
theorem completed_has_all_chunks_and_checksum (key : String) (fs : FS) (calls : List Call)
    (he : ∀ c ∈ calls, c.env.sound) (k : String) (st : UploadStatus)
    (hk : (serveAll (bootServer key fs) calls).uploadStatuses k = some st) :
    (st.Completed = true → (st.Uploaded.length : Int) = st.TotalChunks ∧ st.Checksum ≠ "") ∧
    (st.Completed = false → st.Checksum = "") := by
  obtain ⟨-, h2, h3⟩ := wellFormed_serveAll calls _ he (wellFormed_boot key fs) k st hk
  exact ⟨fun hc => ⟨(h2 hc).1, (h2 hc).2.1⟩, h3⟩

set_option maxRecDepth 8000 in
/-- Witness of `completed_has_all_chunks_and_checksum`: the session completed by
`demoCalls`. -/
theorem completed_has_all_chunks_and_checksum_witness :
    (serveAll (bootServer "" demoFS) demoCalls).uploadStatuses (demoID "a.bin" 3) =
      some { demoStatus "a.bin" 3 [0] 1 with
        Completed := true, Checksum := hexEncode (demoDigest [1, 2, 3]) } ∧
    ((({ demoStatus "a.bin" 3 [0] 1 with
        Completed := true, Checksum := hexEncode (demoDigest [1, 2, 3]) } : UploadStatus).Completed
        = true →
      ((({ demoStatus "a.bin" 3 [0] 1 with
        Completed := true, Checksum := hexEncode (demoDigest [1, 2, 3]) } :
          UploadStatus).Uploaded.length : Nat) : Int) =
        ({ demoStatus "a.bin" 3 [0] 1 with
          Completed := true, Checksum := hexEncode (demoDigest [1, 2, 3]) } :
            UploadStatus).TotalChunks ∧
      ({ demoStatus "a.bin" 3 [0] 1 with
        Completed := true, Checksum := hexEncode (demoDigest [1, 2, 3]) } :
          UploadStatus).Checksum ≠ "") ∧
     (({ demoStatus "a.bin" 3 [0] 1 with
        Completed := true, Checksum := hexEncode (demoDigest [1, 2, 3]) } : UploadStatus).Completed
        = false →
      ({ demoStatus "a.bin" 3 [0] 1 with
        Completed := true, Checksum := hexEncode (demoDigest [1, 2, 3]) } :
          UploadStatus).Checksum = "")) :=
  ⟨by decide,
    completed_has_all_chunks_and_checksum "" demoFS demoCalls
      (fun c hc => by
        simp only [demoCalls, List.mem_cons, List.mem_singleton, List.not_mem_nil, or_false] at hc
        rcases hc with rfl | rfl | rfl <;> exact demoEnv_sound _ _)
      (demoID "a.bin" 3) _ (by decide)⟩

/-! ## Assembled file and staging directory -/

set_option maxRecDepth 8000 in
/-- Counterexample to C25 as stated.  After `sharedNameCalls` the second session for
`a.bin` is not completed, yet the assembled file `uploads/a.bin` exists (it belongs to the
first session).  After `brokenFinalizeCalls` the finalize has failed part-way through
assembly with 500: the session is not completed, yet the destination `uploads/a.bin` has
been created. -/
theorem destination_exists_without_completion :
    ((serveAll (bootServer "" demoFS) sharedNameCalls).uploadStatuses (demoID "a.bin" 5)).map
        (fun st => (st.FileName, st.Completed)) = some ("a.bin", false) ∧
    (serveAll (bootServer "" demoFS) sharedNameCalls).fs (Join [uploadDir, "a.bin"]) =
      some (Node.file [1, 2, 3]) ∧
    (handleUploadComplete (demoEnv "a.bin" 5)
        (serveAll (bootServer "" demoFS) (brokenFinalizeCalls.take 2))
        (completeRequest (demoID "a.bin" 5))).2 = httpError [] "Failed to read chunk" 500 ∧
    (serveAll (bootServer "" demoFS) (brokenFinalizeCalls.take 2)).fs
        (Join [uploadDir, "a.bin"]) = none ∧
    ((serveAll (bootServer "" demoFS) brokenFinalizeCalls).uploadStatuses
        (demoID "a.bin" 5)).map (fun st => (st.FileName, st.Completed)) =
      some ("a.bin", false) ∧
    (serveAll (bootServer "" demoFS) brokenFinalizeCalls).fs (Join [uploadDir, "a.bin"]) =
      some (Node.file []) ∧
    (serveAll (bootServer "" demoFS) brokenFinalizeCalls).fs
        (Join [tempDir, demoID "a.bin" 5]) = some Node.dir := by
  decide

/-- **C25 (amended).** In every server state reached from start-up through init,
chunk-upload and finalize requests (served with a digest of 32 bytes), a session with
`completed = true` has no staging directory.  A finalize request that is not answered 200
leaves the registry as it was and removes no path of the file tree, so the staging
directories stay; when it fails part-way through assembly (500 "Failed to read chunk" or
"Failed to write chunk") the destination `<upload>/<file_name>` exists afterwards as a regular
file although the session has not been marked completed. -/
theorem completed_session_has_no_staging_directory (key : String) (fs : FS)
    (calls : List Call) (he : ∀ c ∈ calls, c.env.sound) :
    (∀ k st, (serveAll (bootServer key fs) calls).uploadStatuses k = some st →
      st.Completed = true →
      (serveAll (bootServer key fs) calls).fs (Join [tempDir, k]) ≠ some Node.dir) ∧
    ∀ (env : Env) (r : Request),
      (handleUploadComplete env (serveAll (bootServer key fs) calls) r).2.Status ≠ 200 →
      (handleUploadComplete env (serveAll (bootServer key fs) calls) r).1.uploadStatuses =
        (serveAll (bootServer key fs) calls).uploadStatuses ∧
      (∀ q, (serveAll (bootServer key fs) calls).fs q ≠ none →
        (handleUploadComplete env (serveAll (bootServer key fs) calls) r).1.fs q ≠ none) ∧
      (((handleUploadComplete env (serveAll (bootServer key fs) calls) r).2 =
          httpError [] "Failed to read chunk" 500 ∨
        (handleUploadComplete env (serveAll (bootServer key fs) calls) r).2 =
          httpError [] "Failed to write chunk" 500) →
        ∃ st d,
          (serveAll (bootServer key fs) calls).uploadStatuses
            (trimLeading r.Path "/upload/complete/") = some st ∧
          (handleUploadComplete env (serveAll (bootServer key fs) calls) r).1.fs
            (Join [uploadDir, st.FileName]) = some (Node.file d)) := by
  refine ⟨fun k st hk hc =>
    ((wellFormed_serveAll calls _ he (wellFormed_boot key fs) k st hk).2.1 hc).2.2, ?_⟩
  intro env r hne
  generalize serveAll (bootServer key fs) calls = s at hne ⊢
  rcases handleUploadComplete_cases env s r with
    ⟨hsame, hb1, hb2⟩ | ⟨st, fs2, d2, hs, -, hother, hfp, -, hres⟩
  · refine ⟨by rw [hsame], fun q hq => by rw [hsame]; exact hq, fun h => ?_⟩
    rcases h with h | h
    · exact absurd (by rw [h]; rfl) hb1
    · exact absurd (by rw [h]; rfl) hb2
  · have hkeep : ∀ q, s.fs q ≠ none → fs2 q ≠ none := by
      intro q hq
      by_cases hqf : q = Join [uploadDir, st.FileName]
      · rw [hqf, hfp]
        intro hc
        cases hc
      · rw [hother q hqf]
        exact hq
    rcases hres with hres | hres | ⟨hashed, hres⟩
    · rw [hres]
      exact ⟨rfl, hkeep, fun _ => ⟨st, d2, hs, hfp⟩⟩
    · rw [hres]
      exact ⟨rfl, hkeep, fun _ => ⟨st, d2, hs, hfp⟩⟩
    · rw [hres] at hne
      exact absurd rfl hne

set_option maxRecDepth 8000 in
/-- Witness of `completed_session_has_no_staging_directory`: the state after
`brokenFinalizeCalls` without its last call, and the finalize that fails. -/
theorem completed_session_has_no_staging_directory_witness :
    (handleUploadComplete (demoEnv "a.bin" 5)
        (serveAll (bootServer "" demoFS) (brokenFinalizeCalls.take 2))
        (completeRequest (demoID "a.bin" 5))).2 = httpError [] "Failed to read chunk" 500 ∧
    ∃ st d,
      (serveAll (bootServer "" demoFS) (brokenFinalizeCalls.take 2)).uploadStatuses
        (trimLeading (completeRequest (demoID "a.bin" 5)).Path "/upload/complete/") = some st ∧
      (handleUploadComplete (demoEnv "a.bin" 5)
        (serveAll (bootServer "" demoFS) (brokenFinalizeCalls.take 2))
        (completeRequest (demoID "a.bin" 5))).1.fs (Join [uploadDir, st.FileName]) =
          some (Node.file d) :=
  ⟨by decide,
    ((completed_session_has_no_staging_directory "" demoFS (brokenFinalizeCalls.take 2)
      (fun c hc => by
        simp only [brokenFinalizeCalls, List.take, List.mem_cons, List.mem_singleton,
          List.not_mem_nil, or_false] at hc
        rcases hc with rfl | rfl <;> exact demoEnv_sound _ _)).2 (demoEnv "a.bin" 5)
      (completeRequest (demoID "a.bin" 5)) (by decide)).2.2 (Or.inl (by decide))⟩

/-! ## Finding a record to resume -/

/-- The scan of a directory listing `pre ++ rest` is the scan of `pre`, followed by the scan
of `rest` when no entry of `pre` is returned. -/
theorem findLoop_append (c : Client) (serverAddr absPath : String)
    (rest : List (String × StateFile)) :
    ∀ (pre : List (String × StateFile)) (w : World),
      findLoop c serverAddr absPath (pre ++ rest) w =
        match (findLoop c serverAddr absPath pre w).2 with
        | some st => ((findLoop c serverAddr absPath pre w).1, some st)
        | none => findLoop c serverAddr absPath rest (findLoop c serverAddr absPath pre w).1 := by
  intro pre
  induction pre with
  | nil => intro w; rfl
  | cons e pre ih =>
    intro w
    obtain ⟨name, f⟩ := e
    rw [List.cons_append]
    simp only [findLoop]
    by_cases hj : endsWith name ".json" = true
    · simp only [hj, Bool.not_true, Bool.false_eq_true, if_false]
      cases f with
      | subdir => exact ih w
      | unreadable => exact ih w
      | invalid => exact ih _
      | record state =>
        simp only
        by_cases hid : state.FileID = ""
        · simp only [hid, if_true]
          exact ih _
        · simp only [hid, if_false]
          by_cases hmatch : state.FilePath = absPath ∧ state.ServerAddr = serverAddr ∧
              state.Completed = false
          · simp only [hmatch, and_self, if_true]
            cases hp : (getServerChunkStatus c w state.FileID).2 with
            | none => exact ih _
            | some ss =>
              simp only
              by_cases hss : ss.FileID = state.FileID
              · simp only [hss, if_true]
              · simp only [hss, if_false]
                exact ih _
          · simp only [hmatch, if_false]
            exact ih w
    · have hj2 : endsWith name ".json" = false := by simpa using hj
      simp only [hj2, Bool.not_false, if_true]
      exact ih w

/-- A returned record comes from an entry of the listing that passes every test of the loop
when the scan reaches it. -/
theorem findLoop_some (c : Client) (serverAddr absPath : String) :
    ∀ (l : List (String × StateFile)) (w : World) (st : UploadState),
      (findLoop c serverAddr absPath l w).2 = some st →
      ∃ pre name post, l = pre ++ (name, StateFile.record st) :: post ∧
        endsWith name ".json" = true ∧ st.FileID ≠ "" ∧ st.FilePath = absPath ∧
        st.ServerAddr = serverAddr ∧ st.Completed = false ∧
        (findLoop c serverAddr absPath pre w).2 = none ∧
        probeConfirms c (findLoop c serverAddr absPath pre w).1 st = true := by
  intro l
  induction l with
  | nil => intro w st h; cases h
  | cons e l ih =>
    intro w st h
    obtain ⟨name, f⟩ := e
    have step : ∀ w2 : World,
        findLoop c serverAddr absPath ((name, f) :: l) w = findLoop c serverAddr absPath l w2 →
        (∀ pre, findLoop c serverAddr absPath ((name, f) :: pre) w =
          findLoop c serverAddr absPath pre w2) →
        ∃ pre name2 post, (name, f) :: l = pre ++ (name2, StateFile.record st) :: post ∧
          endsWith name2 ".json" = true ∧ st.FileID ≠ "" ∧ st.FilePath = absPath ∧
          st.ServerAddr = serverAddr ∧ st.Completed = false ∧
          (findLoop c serverAddr absPath pre w).2 = none ∧
          probeConfirms c (findLoop c serverAddr absPath pre w).1 st = true := by
      intro w2 h1 h2
      rw [h1] at h
      obtain ⟨pre, name2, post, hl, r1, r2, r3, r4, r5, r6, r7⟩ := ih w2 st h
      refine ⟨(name, f) :: pre, name2, post, by rw [hl]; rfl, r1, r2, r3, r4, r5, ?_, ?_⟩
      · rw [h2 pre]; exact r6
      · rw [h2 pre]; exact r7
    by_cases hj : endsWith name ".json" = true
    · cases f with
      | subdir =>
        exact step w (by simp only [findLoop, hj, Bool.not_true, Bool.false_eq_true, if_false])
          (fun pre => by simp only [findLoop, hj, Bool.not_true, Bool.false_eq_true, if_false])
      | unreadable =>
        exact step w (by simp only [findLoop, hj, Bool.not_true, Bool.false_eq_true, if_false])
          (fun pre => by simp only [findLoop, hj, Bool.not_true, Bool.false_eq_true, if_false])
      | invalid =>
        exact step (removeEntry w name)
          (by simp only [findLoop, hj, Bool.not_true, Bool.false_eq_true, if_false])
          (fun pre => by simp only [findLoop, hj, Bool.not_true, Bool.false_eq_true, if_false])
      | record state =>
        by_cases hid : state.FileID = ""
        · exact step (removeEntry w name)
            (by simp only [findLoop, hj, Bool.not_true, Bool.false_eq_true, if_false, hid, if_true])
            (fun pre => by
              simp only [findLoop, hj, Bool.not_true, Bool.false_eq_true, if_false, hid, if_true])
        · by_cases hmatch : state.FilePath = absPath ∧ state.ServerAddr = serverAddr ∧
              state.Completed = false
          · cases hp : (getServerChunkStatus c w state.FileID).2 with
            | none =>
              exact step (removeEntry (getServerChunkStatus c w state.FileID).1 name)
                (by simp only [findLoop, hj, Bool.not_true, Bool.false_eq_true, if_false, hid,
                  hmatch, and_self, if_true, hp])
                (fun pre => by
                  simp only [findLoop, hj, Bool.not_true, Bool.false_eq_true, if_false, hid,
                    hmatch, and_self, if_true, hp])
            | some ss =>
              by_cases hss : ss.FileID = state.FileID
              · have hres : findLoop c serverAddr absPath ((name, StateFile.record state) :: l) w =
                    ((getServerChunkStatus c w state.FileID).1, some state) := by
                  simp only [findLoop, hj, Bool.not_true, Bool.false_eq_true, if_false, hid,
                    hmatch, and_self, if_true, hp, hss]
                rw [hres] at h
                cases h
                refine ⟨[], name, l, rfl, hj, hid, hmatch.1, hmatch.2.1, hmatch.2.2, rfl, ?_⟩
                show probeConfirms c w st = true
                unfold probeConfirms
                rw [hp]
                simp [hss]
              · exact step (getServerChunkStatus c w state.FileID).1
                  (by simp only [findLoop, hj, Bool.not_true, Bool.false_eq_true, if_false, hid,
                    hmatch, and_self, if_true, hp, hss])
                  (fun pre => by
                    simp only [findLoop, hj, Bool.not_true, Bool.false_eq_true, if_false, hid,
                      hmatch, and_self, if_true, hp, hss])
          · exact step w
              (by simp only [findLoop, hj, Bool.not_true, Bool.false_eq_true, if_false, hid,
                hmatch])
              (fun pre => by
                simp only [findLoop, hj, Bool.not_true, Bool.false_eq_true, if_false, hid,
                  hmatch])
    · have hj2 : endsWith name ".json" = false := by simpa using hj
      exact step w (by simp only [findLoop, hj2, Bool.not_false, if_true])
        (fun pre => by simp only [findLoop, hj2, Bool.not_false, if_true])

/-- An entry that passes every test of the loop is returned when the scan reaches it. -/
theorem findLoop_hit (c : Client) (serverAddr absPath : String) (name : String)
    (st : UploadState) (post : List (String × StateFile)) (w : World)
    (hj : endsWith name ".json" = true) (hid : st.FileID ≠ "") (hp : st.FilePath = absPath)
    (ha : st.ServerAddr = serverAddr) (hc : st.Completed = false)
    (hprobe : probeConfirms c w st = true) :
    (findLoop c serverAddr absPath ((name, StateFile.record st) :: post) w).2 = some st := by
  unfold probeConfirms at hprobe
  cases hq : (getServerChunkStatus c w st.FileID).2 with
  | none => rw [hq] at hprobe; cases hprobe
  | some ss =>
    rw [hq] at hprobe
    have hss : ss.FileID = st.FileID := by simpa using hprobe
    simp only [findLoop, hj, Bool.not_true, Bool.false_eq_true, if_false, hid, hp, ha, hc,
      and_self, if_true, hq, hss]
/-- **C21.** `findIncompleteUpload(path, server)` returns a record only if the record is
stored in an entry `<name>.json` of the state directory, has a non-empty `file_id`,
`file_path` equal to the absolute form of `path`, `server_addr` equal to `server`,
`completed = false`, the scan returned nothing before reaching it, and the probe
`/upload/status/{id}/chunks` sent when the scan reached it succeeded reporting the same
`file_id`.  Conversely, whenever a stored record satisfies all of these the function returns
a record (never nil), and it returns that very record when no earlier entry was returned:
the result is the first such record in directory order. -/
theorem findIncompleteUpload_returns_first_match (c : Client) (w : World)
    (filePath serverAddr absPath : String) (habs : c.abs filePath = some absPath) :
    (∀ st, (findIncompleteUpload c w filePath serverAddr).2 = some st →
      ∃ pre name post, w.stateDir = pre ++ (name, StateFile.record st) :: post ∧
        endsWith name ".json" = true ∧ st.FileID ≠ "" ∧ st.FilePath = absPath ∧
        st.ServerAddr = serverAddr ∧ st.Completed = false ∧
        (findLoop c serverAddr absPath pre w).2 = none ∧
        probeConfirms c (findLoop c serverAddr absPath pre w).1 st = true) ∧
    (∀ pre name st post, w.stateDir = pre ++ (name, StateFile.record st) :: post →
      endsWith name ".json" = true → st.FileID ≠ "" → st.FilePath = absPath →
      st.ServerAddr = serverAddr → st.Completed = false →
      probeConfirms c (findLoop c serverAddr absPath pre w).1 st = true →
      ∃ st2, (findIncompleteUpload c w filePath serverAddr).2 = some st2 ∧
        ((findLoop c serverAddr absPath pre w).2 = none → st2 = st)) := by
  have hfind : findIncompleteUpload c w filePath serverAddr =
      findLoop c serverAddr absPath w.stateDir w := by
    unfold findIncompleteUpload
    rw [habs]
  rw [hfind]
  refine ⟨fun st h => findLoop_some c serverAddr absPath _ w st h, ?_⟩
  intro pre name st post hdir hj hid hp ha hc hprobe
  rw [hdir, findLoop_append]
  cases hpre : (findLoop c serverAddr absPath pre w).2 with
  | some st1 =>
    refine ⟨st1, rfl, fun h => ?_⟩
    cases h
  | none =>
    simp only
    exact ⟨st, findLoop_hit c serverAddr absPath name st post _ hj hid hp ha hc hprobe,
      fun _ => rfl⟩

set_option maxRecDepth 16000 in
/-- Witness of `findIncompleteUpload_returns_first_match`: against a server whose per-chunk
probe works, the record that the interrupted first run left is returned. -/
theorem findIncompleteUpload_returns_first_match_witness :
    (probeClient laterEnv).abs "/data/a.bin" = some "/data/a.bin" ∧
    ∃ st2,
      (findIncompleteUpload (probeClient laterEnv) (resumeWorld []) "/data/a.bin"
        "http://h:8080").2 = some st2 ∧
      ((findLoop (probeClient laterEnv) "http://h:8080" "/data/a.bin" [] (resumeWorld [])).2 =
        none → st2 = savedRecord) :=
  ⟨rfl,
    (findIncompleteUpload_returns_first_match (probeClient laterEnv) (resumeWorld [])
      "/data/a.bin" "http://h:8080" "/data/a.bin" rfl).2 [] (demoID "a.bin" 3 ++ ".json")
      savedRecord [] (by decide) (by decide) (by decide) (by decide) (by decide) (by decide)
      (by decide)⟩

set_option maxRecDepth 16000 in
/-- **C22.** Evaluation at the failing input: the record of the interrupted first run
matches the path and the server, and the server still holds the session.  When the probe
fails with a transport error, and likewise when it is answered 401, `findIncompleteUpload`
returns nil and removes the record file. -/
theorem record_removed_on_any_probe_failure :
    (resumeWorld [Delivery.lost]).stateDir =
      [(demoID "a.bin" 3 ++ ".json", StateFile.record savedRecord)] ∧
    ((resumeWorld [Delivery.lost]).server.uploadStatuses (demoID "a.bin" 3)).isSome = true ∧
    (findIncompleteUpload (demoClient laterEnv) (resumeWorld [Delivery.lost]) "/data/a.bin"
      "http://h:8080").2 = none ∧
    (findIncompleteUpload (demoClient laterEnv) (resumeWorld [Delivery.lost]) "/data/a.bin"
      "http://h:8080").1.trace =
      [Event.http "GET" ("/upload/status/" ++ demoID "a.bin" 3 ++ "/chunks") none,
        Event.removed (demoID "a.bin" 3 ++ ".json")] ∧
    (findIncompleteUpload (demoClient laterEnv) (resumeWorld [Delivery.lost]) "/data/a.bin"
      "http://h:8080").1.stateDir = [] ∧
    (findIncompleteUpload (demoClient laterEnv) lockedWorld "/data/a.bin"
      "http://h:8080").2 = none ∧
    (findIncompleteUpload (demoClient laterEnv) lockedWorld "/data/a.bin"
      "http://h:8080").1.trace =
      [Event.http "GET" ("/upload/status/" ++ demoID "a.bin" 3 ++ "/chunks") (some 401),
        Event.removed (demoID "a.bin" 3 ++ ".json")] ∧
    (findIncompleteUpload (demoClient laterEnv) lockedWorld "/data/a.bin"
      "http://h:8080").1.stateDir = [] := by
  decide

set_option maxRecDepth 8000 in
/-- **C24.** Evaluation at the failing input: in a fresh session with `total_chunks = 1` two
uploads of chunk 0 both pass the membership check and write the staged file; the first
appends the index, a finalize request is then served and answered 200, and the second upload
appends the index once more.  The state reached holds a session with `completed = true`,
`total_chunks = 1` and `uploaded = [0, 0]`, so `|uploaded| = 2 ≠ total_chunks`. -/
theorem completed_session_counts_index_twice :
    raceBeforeFinalize.phaseA = ChunkPhase.replied replyOK ∧
    raceBeforeFinalize.phaseB = ChunkPhase.written ∧
    (raceBeforeFinalize.server.uploadStatuses (demoID "a.bin" 3)).map
        (fun st => (st.Completed, st.TotalChunks, st.Uploaded)) = some (false, 1, [0]) ∧
    (handleUploadComplete (demoEnv "a.bin" 3) raceBeforeFinalize.server
      (completeRequest (demoID "a.bin" 3))).2.Status = 200 ∧
    raceAroundFinalize.2 = ChunkPhase.replied replyOK ∧
    (raceAroundFinalize.1.uploadStatuses (demoID "a.bin" 3)).map
        (fun st => (st.Completed, st.TotalChunks, st.Uploaded, st.Checksum)) =
      some (true, 1, [0, 0], hexEncode (demoDigest [1, 2, 3])) := by
  decide

/-- A pass of the loop of `compareChunks` whose seek fails, because the chunk start lies above
the largest offset the file system accepts, appends nothing, whatever the server reports for
the index. -/
theorem compareVisit_beyond_seek_limit (env : Env) (file : Node) (ss : ServerChunkStatus)
    (i : Int) (h : compareStart ss i > env.maxOffset) :
    compareVisit env file ss i = Visit.pass := by
  unfold compareVisit
  rw [if_pos (Or.inr h)]

end CTrans
